import Mathlib

/-!
# Gesture-driven particle system: embedding and properties

A shallow embedding of `src/particles/ParticleSystem.js`, `src/vision/HandTracker.js`
and the frame loop of `src/main.js`.

Modelling conventions.

* JavaScript numbers are idealised as the elements of a linearly ordered field `α`
  (the definitions run on `ℚ`, the theorems are stated on `ℝ`); the methods are
  embedded in exact arithmetic, without the rounding of IEEE doubles and of
  `Float32Array` cells.
* The smoothing statement `current += (target - current) * 0.1` is embedded a second
  time in double arithmetic (`roundDouble`, `smoothDouble`): over many frames the exact
  recurrence and the rounded one differ in kind, since in doubles the value stops
  moving a few units in the last place short of its target.  Overflow, NaN and the sign
  of zero are not modelled there.
* A `Float32Array` is a list of cells; a cell is `none` when it holds NaN, which is
  what storing `undefined` produces.  Writing outside the array is ignored, as for a
  typed array, which is exactly the behaviour of `List.set`.
* The functions of the `Math` object that are not field operations (`Math.sqrt`,
  `Math.cbrt`, `Math.sin`, `Math.cos`, `Math.acos`, `Math.atan2`, `Math.PI`) are
  parameters of the definitions that use them.
* `Math.random` is a stream `rand : ℕ → α`: `rand j` is the result of the `j`-th call
  made by the operation at hand.  `Date.now()` is a parameter `now`.
* Exceptions are explicit: an operation that can throw returns a `Completion`, which
  carries the state as it is when the operation ends.
-/

namespace Partikel

/-! ## Data model -/

/-- The two JavaScript errors the embedded code can raise. -/
inductive JSError where
  | typeError
  | rangeError
  deriving DecidableEq, Repr

/-- How a method call ends: normally, or by throwing; `s` is the state at that point. -/
inductive Completion (σ : Type) where
  | normal (s : σ)
  | threw (e : JSError) (s : σ)
  deriving Repr

/-- The state the call leaves behind, however it ended. -/
def Completion.state {σ : Type} : Completion σ → σ
  | .normal s => s
  | .threw _ s => s

/-- Whether the call threw. -/
def Completion.isThrow {σ : Type} : Completion σ → Bool
  | .normal _ => false
  | .threw _ _ => true

/-- A `Float32Array`: `none` is a NaN cell. -/
abbrev Float32Array (α : Type) := List (Option α)

/-- The expression `buf[i]` used as a number: a missing cell reads as `undefined`,
which is NaN in arithmetic. -/
def readCell {α : Type} (buf : Float32Array α) (i : Nat) : Option α :=
  (buf[i]?).join

/-- The method `target.set(source)` of a typed array: copies `source` over the start of
`target`; a source longer than the target is a `RangeError`. -/
def typedSet {α : Type} (target source : Float32Array α) : Option (Float32Array α) :=
  if source.length ≤ target.length then some (source ++ target.drop source.length) else none

/-- One hand landmark `{x, y, z}`. -/
structure Landmark (α : Type) where
  x : α
  y : α
  z : α
  deriving Repr

/-- A screen position `{x, y}`. -/
structure Vec2 (α : Type) where
  x : α
  y : α
  deriving Repr

/-- The field `particles.rotation` (Euler angles). -/
structure Euler (α : Type) where
  x : α
  y : α
  z : α
  deriving Repr

/-- A colour `{r, g, b}`. -/
structure Color (α : Type) where
  r : α
  g : α
  b : α
  deriving Repr

/-- The fields of `ParticleSystem` that the embedded methods read or write.
`positions` is `geometry.attributes.position.array`, `colors` is
`geometry.attributes.color.array`, `rotation` is `particles.rotation`. -/
structure ParticleSystem (α : Type) where
  particleCount : Nat
  currentPattern : String
  baseColor : Color α
  expansionFactor : α
  originalPositions : Float32Array α
  positions : Float32Array α
  colors : Float32Array α
  rotation : Euler α
  deriving Repr

/-- The three buffers have the `particleCount * 3` cells the constructor allocates. -/
def ParticleSystem.WellSized {α : Type} (s : ParticleSystem α) : Prop :=
  s.originalPositions.length = s.particleCount * 3 ∧
  s.positions.length = s.particleCount * 3 ∧
  s.colors.length = s.particleCount * 3

instance {α : Type} (s : ParticleSystem α) : Decidable s.WellSized := by
  unfold ParticleSystem.WellSized; infer_instance

/-- The detector output: `landmarks` is an array of hands, each an array of landmarks;
the field may be missing. -/
structure HandLandmarkerResult (α : Type) where
  landmarks : Option (List (List (Landmark α)))
  deriving Repr

/-- The fields of `HandTracker` exposed to the frame loop. -/
structure HandTracker (α : Type) where
  results : Option (HandLandmarkerResult α)
  isHandPresent : Bool
  gestureValue : α
  handPosition : Vec2 α
  handRotation : α
  deriving Repr

section Code

variable {α : Type} [LinearOrderedField α]

/-! ## ParticleSystem.js -/

/-- The body of the loop of `generatePattern` up to the three stores: the point for
pattern `type`, drawn from `rand` starting at draw `k`, and the index of the next draw.
For a `type` matched by no branch `x, y, z` stay `undefined`, stored as NaN. -/
def patternPoint (cbrt sin cos acos : α → α) (PI : α) (type : String) (rand : Nat → α)
    (k : Nat) : (Option α × Option α × Option α) × Nat :=
  if type = "sphere" then
    let r := 10 * cbrt (rand k)
    let theta := rand (k + 1) * 2 * PI
    let phi := acos (2 * rand (k + 2) - 1)
    ((some (r * sin phi * cos theta), some (r * sin phi * sin theta), some (r * cos phi)),
      k + 3)
  else if type = "cube" then
    let s : α := 15
    ((some ((rand k - 0.5) * s), some ((rand (k + 1) - 0.5) * s),
      some ((rand (k + 2) - 0.5) * s)), k + 3)
  else if type = "ring" then
    let r := 8 + rand k * 4
    let theta := rand (k + 1) * 2 * PI
    ((some (r * cos theta), some ((rand (k + 2) - 0.5) * 2), some (r * sin theta)), k + 3)
  else if type = "love" then
    let u := rand k * PI * 2
    let v := rand (k + 1) * PI
    let scale : α := 0.8
    let hx := 16 * (sin u) ^ 3
    let hy := 13 * cos u - 5 * cos (2 * u) - 2 * cos (3 * u) - cos (4 * u)
    ((some (scale * hx * sin v), some (scale * hy * sin v), some (scale * 6 * cos v)),
      k + 2)
  else
    ((none, none, none), k)

/-- The three stores `positions[i3] = x; positions[i3 + 1] = y; positions[i3 + 2] = z`. -/
def storePoint (positions : Float32Array α) (i3 : Nat)
    (p : Option α × Option α × Option α) : Float32Array α :=
  ((positions.set i3 p.1).set (i3 + 1) p.2.1).set (i3 + 2) p.2.2

/-- The `for` loop of `generatePattern`: the buffer after the loop and the number of
random draws it made. -/
def generateLoop (cbrt sin cos acos : α → α) (PI : α) (type : String) (rand : Nat → α)
    (particleCount : Nat) (positions : Float32Array α) : Float32Array α × Nat :=
  (List.range particleCount).foldl
    (fun acc i =>
      let i3 := i * 3
      let pk := patternPoint cbrt sin cos acos PI type rand acc.2
      (storePoint acc.1 i3 pk.1, pk.2))
    (positions, 0)

/-- The method `generatePattern(type, positionArray)`.  The result is the system and the
array that was written: the one passed in, or the geometry's position array. -/
def generatePattern (cbrt sin cos acos : α → α) (PI : α) (rand : Nat → α)
    (s : ParticleSystem α) (type : String) (positionArray : Option (Float32Array α)) :
    Completion (ParticleSystem α × Float32Array α) :=
  let s1 := { s with currentPattern := type }
  match positionArray with
  | some arr =>
    let positions := (generateLoop cbrt sin cos acos PI type rand s.particleCount arr).1
    .normal (s1, positions)
  | none =>
    let positions :=
      (generateLoop cbrt sin cos acos PI type rand s.particleCount s.positions).1
    let s2 := { s1 with positions := positions }
    match typedSet s.originalPositions positions with
    | none => .threw .rangeError (s2, positions)
    | some orig => .normal ({ s2 with originalPositions := orig }, positions)

/-- The method `setPattern(type)`. -/
def setPattern (cbrt sin cos acos : α → α) (PI : α) (rand : Nat → α)
    (s : ParticleSystem α) (type : String) : Completion (ParticleSystem α) :=
  match generatePattern cbrt sin cos acos PI rand s type none with
  | .normal r => .normal r.1
  | .threw e r => .threw e r.1

/-- The method `updateColors()`: one draw `mix` per point, added to the three channels. -/
def updateColors (rand : Nat → α) (s : ParticleSystem α) : ParticleSystem α :=
  let c := s.baseColor
  let colors := (List.range s.particleCount).foldl
    (fun colors i =>
      let mix := rand i * 0.2
      ((colors.set (i * 3) (some (c.r + mix))).set (i * 3 + 1) (some (c.g + mix))).set
        (i * 3 + 2) (some (c.b + mix)))
    s.colors
  { s with colors := colors }

/-- The method `setColor(hex)`; `colorSet` is the library method `Color.set`. -/
def setColor (colorSet : Color α → String → Color α) (rand : Nat → α)
    (s : ParticleSystem α) (hex : String) : ParticleSystem α :=
  updateColors rand { s with baseColor := colorSet s.baseColor hex }

/-- The local constant `scale` of the position loop of `update`. -/
def particleScale (expansionFactor : α) : α :=
  0.2 + expansionFactor * 2.3

/-- The local constant `noise` of the position loop of `update` for point `i`, whose
draw is the `i`-th of the call. -/
def particleNoise (rand : Nat → α) (expansionFactor : α) (i : Nat) : α :=
  expansionFactor * 0.1 * (rand i - 0.5)

/-- The body of the position loop of `update` up to the three stores: the live
coordinates of point `i`, each its reference coordinate times `scale` plus the one
`noise` of the point. -/
def updatedPoint (rand : Nat → α) (expansionFactor : α) (originalPositions : Float32Array α)
    (i : Nat) : Option α × Option α × Option α :=
  let i3 := i * 3
  let ox := readCell originalPositions i3
  let oy := readCell originalPositions (i3 + 1)
  let oz := readCell originalPositions (i3 + 2)
  let scale := particleScale expansionFactor
  let noise := particleNoise rand expansionFactor i
  (ox.map (fun o => o * scale + noise), oy.map (fun o => o * scale + noise),
    oz.map (fun o => o * scale + noise))

/-- The position loop of `update`, for the already smoothed `expansionFactor`. -/
def updatePositions (rand : Nat → α) (particleCount : Nat) (expansionFactor : α)
    (originalPositions positions : Float32Array α) : Float32Array α :=
  (List.range particleCount).foldl
    (fun positions i =>
      storePoint positions (i * 3) (updatedPoint rand expansionFactor originalPositions i))
    positions

/-- The rotation logic of `update`. -/
def updateRotation (sin : α → α) (PI : α) (now : α) (rotation : Euler α)
    (handPosition : Option (Vec2 α)) (handRotation : Option α) : Euler α :=
  match handPosition with
  | some hp =>
    let targetRotY := (hp.x - 0.5) * PI * 4
    let targetRotX := (hp.y - 0.5) * PI * 4
    let ry := rotation.y + (targetRotY - rotation.y) * 0.1
    let rx := rotation.x + (targetRotX - rotation.x) * 0.1
    match handRotation with
    | some hr =>
      let targetRotZ := hr + PI / 2
      { x := rx, y := ry, z := rotation.z + (targetRotZ - rotation.z) * 0.1 }
    | none => { x := rx, y := ry, z := rotation.z }
  | none =>
    { x := sin (now * 0.001) * 0.1, y := rotation.y + 0.002, z := rotation.z * 0.95 }

/-- The method `update(gestureValue, handPosition, handRotation)`; `handPosition` is
`none` for `null`, `handRotation` is `none` for `undefined`. -/
def update (sin : α → α) (PI : α) (rand : Nat → α) (now : α) (s : ParticleSystem α)
    (gestureValue : α) (handPosition : Option (Vec2 α)) (handRotation : Option α) :
    ParticleSystem α :=
  let targetExpansion := gestureValue
  let expansionFactor := s.expansionFactor + (targetExpansion - s.expansionFactor) * 0.1
  let positions :=
    updatePositions rand s.particleCount expansionFactor s.originalPositions s.positions
  { s with
    expansionFactor := expansionFactor
    positions := positions
    rotation := updateRotation sin PI now s.rotation handPosition handRotation }

/-- The method `init()`: fresh zeroed position and colour arrays, the default sphere
pattern generated into the position array and copied to the reference buffer, the
`THREE.Points` object (whose rotation starts at zero), then `updateColors()`, whose draws
follow those of the pattern. -/
def init (cbrt sin cos acos : α → α) (PI : α) (rand : Nat → α) (s : ParticleSystem α) :
    Completion (ParticleSystem α) :=
  let positions : Float32Array α := List.replicate (s.particleCount * 3) (some 0)
  let colors : Float32Array α := List.replicate (s.particleCount * 3) (some 0)
  match generatePattern cbrt sin cos acos PI rand s "sphere" (some positions) with
  | .threw e r => .threw e r.1
  | .normal r =>
    match typedSet r.1.originalPositions r.2 with
    | none => .threw .rangeError r.1
    | some orig =>
      let draws :=
        (generateLoop cbrt sin cos acos PI "sphere" rand s.particleCount positions).2
      .normal (updateColors (fun j => rand (draws + j))
        { r.1 with
          originalPositions := orig
          positions := r.2
          colors := colors
          rotation := { x := 0, y := 0, z := 0 } })

/-- The constructor of `ParticleSystem`; `newColor` is the library constructor
`new THREE.Color(string)`.  Before `init()` there is no geometry, so the position and
colour arrays are empty. -/
def constructor (cbrt sin cos acos : α → α) (PI : α) (newColor : String → Color α)
    (rand : Nat → α) : Completion (ParticleSystem α) :=
  init cbrt sin cos acos PI rand
    { particleCount := 15000
      currentPattern := "sphere"
      baseColor := newColor "#00ffff"
      expansionFactor := 0
      originalPositions := List.replicate (15000 * 3) (some 0)
      positions := []
      colors := []
      rotation := { x := 0, y := 0, z := 0 } }

/-! ## HandTracker.js -/

/-- One pass of the loop of `calculateOpenness`: the distance from the wrist to
`landmarks[tip]`.  Reading a coordinate of a missing landmark is a `TypeError`. -/
def tipDistance (sqrt : α → α) (landmarks : List (Landmark α)) (wrist : Option (Landmark α))
    (tip : Nat) : Except JSError α :=
  match landmarks[tip]?, wrist with
  | some p, some w =>
    let dx := p.x - w.x
    let dy := p.y - w.y
    let dz := p.z - w.z
    .ok (sqrt (dx * dx + dy * dy + dz * dz))
  | _, _ => .error .typeError

/-- The method `calculateOpenness(landmarks)`. -/
def calculateOpenness (sqrt : α → α) (landmarks : List (Landmark α)) : Except JSError α :=
  let wrist := landmarks[0]?
  let tips := [8, 12, 16, 20]
  match tips.foldlM
      (fun totalDist tip =>
        (tipDistance sqrt landmarks wrist tip).map (fun d => totalDist + d)) (0 : α) with
  | .error e => .error e
  | .ok totalDist =>
    let avgDist := totalDist / 4
    let minVal : α := 0.2
    let maxVal : α := 0.5
    let val := (avgDist - minVal) / (maxVal - minVal)
    .ok (min (max val 0) 1)

/-- The method `processResults(results)`.  The optional result callback only observes
the values and is left out. -/
def processResults (sqrt : α → α) (atan2 : α → α → α) (ht : HandTracker α)
    (results : HandLandmarkerResult α) : Completion (HandTracker α) :=
  let ht1 := { ht with results := some results }
  match results.landmarks with
  | some (hand :: _) =>
    let ht2 := { ht1 with isHandPresent := true }
    match calculateOpenness sqrt hand with
    | .error e => .threw e ht2
    | .ok g =>
      let ht3 := { ht2 with gestureValue := g }
      match hand[0]? with
      | none => .threw .typeError ht3
      | some wrist =>
        let ht4 := { ht3 with handPosition := { x := wrist.x, y := wrist.y } }
        match hand[5]? with
        | none => .threw .typeError ht4
        | some indexMCP =>
          let dx := indexMCP.x - wrist.x
          let dy := indexMCP.y - wrist.y
          .normal { ht4 with handRotation := atan2 dy dx }
  | _ => .normal { ht1 with isHandPresent := false }

/-! ## main.js -/

/-- The particle update of one frame of `App.animate`. -/
def animate (sin : α → α) (PI : α) (rand : Nat → α) (now : α) (ht : HandTracker α)
    (ps : ParticleSystem α) : ParticleSystem α :=
  if ht.isHandPresent then
    update sin PI rand now ps ht.gestureValue (some ht.handPosition) (some ht.handRotation)
  else
    update sin PI rand now ps 0 none (some 0)

/-- The arguments and the environment of one call of `update`: the random stream and
the clock reading of that call, and the three arguments. -/
structure Tick (α : Type) where
  rand : Nat → α
  now : α
  gestureValue : α
  handPosition : Option (Vec2 α)
  handRotation : Option α

/-- The frame loop seen from the particle system: one `update` per tick, in order. -/
def runUpdates (sin : α → α) (PI : α) (s : ParticleSystem α) (ticks : List (Tick α)) :
    ParticleSystem α :=
  ticks.foldl
    (fun s tk => update sin PI tk.rand tk.now s tk.gestureValue tk.handPosition tk.handRotation)
    s

/-! ## Double arithmetic -/

/-- Rounding of a non-negative number to the nearest integer, ties to the even one. -/
def roundHalfEven [FloorRing α] (z : α) : ℤ :=
  let f := ⌊z⌋
  if z - f < 1 / 2 then f
  else if 1 / 2 < z - f then f + 1
  else if f % 2 = 0 then f else f + 1

/-- The exponent of the last binary digit of a double of magnitude `x > 0`: 53
significant digits, and never below the exponent `-1074` of the subnormal numbers. -/
def ulpExponent [FloorRing α] (x : α) : ℤ :=
  max (-1074) (Int.log 2 x - 52)

/-- Rounding of a non-negative number to the nearest double. -/
def roundMagnitude [FloorRing α] (x : α) : α :=
  (roundHalfEven (x / 2 ^ ulpExponent x) : α) * 2 ^ ulpExponent x

/-- Rounding to the nearest double, ties to even (IEEE 754 binary64, the default
rounding of every JavaScript arithmetic operation); overflow is not modelled. -/
def roundDouble [FloorRing α] (x : α) : α :=
  if 0 ≤ x then roundMagnitude x else -roundMagnitude (-x)

/-- The statement `current += (target - current) * 0.1` with every operation and the
literal `0.1` rounded by `round`. -/
def smoothWith (round : α → α) (current target : α) : α :=
  round (current + round (round (target - current) * round 0.1))

/-- The statement `current += (target - current) * 0.1` in double arithmetic. -/
def smoothDouble [FloorRing α] (current target : α) : α :=
  smoothWith roundDouble current target

/-- The value after `n` frames that smooth toward the same `target` in double
arithmetic. -/
def runSmoothDouble [FloorRing α] (target : α) : Nat → α → α
  | 0, start => start
  | n + 1, start => smoothDouble (runSmoothDouble target n start) target

/-- The expression `(p - 0.5) * Math.PI * 4` of the rotation targets in double
arithmetic; `PI` is the double `Math.PI`. -/
def targetRotDouble [FloorRing α] (PI p : α) : α :=
  roundDouble (roundDouble (roundDouble (p - 0.5) * PI) * 4)

/-- The number `x` is a double: rounding leaves it unchanged. -/
def IsDouble [FloorRing α] (x : α) : Prop :=
  roundDouble x = x

/-! ## Specification-side definitions -/

/-- The 3D Euclidean distance between two landmarks, as the specification words it. -/
def euclideanDistance (sqrt : α → α) (p q : Landmark α) : α :=
  sqrt ((p.x - q.x) ^ 2 + (p.y - q.y) ^ 2 + (p.z - q.z) ^ 2)

/-- Clamping `v` to the interval `[lo, hi]`. -/
def clamp (v lo hi : α) : α :=
  min (max v lo) hi

/-- The openness as the specification words it: the mean distance from the wrist to the
four fingertips, remapped linearly from `[0.2, 0.5]` to `[0, 1]` and clamped. -/
def opennessSpec (sqrt : α → α) (wrist t8 t12 t16 t20 : Landmark α) : α :=
  let d := (euclideanDistance sqrt wrist t8 + euclideanDistance sqrt wrist t12
    + euclideanDistance sqrt wrist t16 + euclideanDistance sqrt wrist t20) / 4
  clamp ((d - 0.2) / (0.5 - 0.2)) 0 1

/-- The pattern kinds `generatePattern` has a branch for. -/
def supportedPattern (type : String) : Prop :=
  type = "sphere" ∨ type = "cube" ∨ type = "ring" ∨ type = "love"

instance (type : String) : Decidable (supportedPattern type) := by
  unfold supportedPattern; infer_instance

/-- The number of calls of `Math.random` one pass of the loop of `generatePattern`
makes for pattern `type`. -/
def drawsPerPoint (type : String) : Nat :=
  if type = "sphere" ∨ type = "cube" ∨ type = "ring" then 3
  else if type = "love" then 2 else 0

/-- The three cells a point occupies in a position buffer. -/
def pointCells (p : Option α × Option α × Option α) : Float32Array α :=
  [p.1, p.2.1, p.2.2]

/-- The coordinates `generatePattern` generates for `n` points of pattern `type`, in
buffer order: point `i` is the one `patternPoint` draws starting at draw
`drawsPerPoint type * i`. -/
def generatedCells (cbrt sin cos acos : α → α) (PI : α) (type : String) (rand : Nat → α)
    (n : Nat) : Float32Array α :=
  (List.range n).flatMap (fun i => pointCells
    (patternPoint cbrt sin cos acos PI type rand (drawsPerPoint type * i)).1)

/-- The mean distance from the wrist to the four fingertips, as the specification
words it. -/
def averageTipDistance (sqrt : α → α) (wrist t8 t12 t16 t20 : Landmark α) : α :=
  (euclideanDistance sqrt wrist t8 + euclideanDistance sqrt wrist t12
    + euclideanDistance sqrt wrist t16 + euclideanDistance sqrt wrist t20) / 4

/-- The system `s` is what the constructor returns for some random stream. -/
def IsConstructed (cbrt sin cos acos : α → α) (PI : α) (newColor : String → Color α)
    (s : ParticleSystem α) : Prop :=
  ∃ rand : Nat → α, constructor cbrt sin cos acos PI newColor rand = Completion.normal s

/-- The states of the particle system the application can reach: the constructed
system, then any sequence of `update` calls with a target openness in `[0, 1]`, of
`setPattern` calls and of `setColor` calls. -/
inductive Reachable (cbrt sin cos acos : α → α) (PI : α) (newColor : String → Color α)
    (colorSet : Color α → String → Color α) : ParticleSystem α → Prop where
  | constructed (s : ParticleSystem α) :
      IsConstructed cbrt sin cos acos PI newColor s →
      Reachable cbrt sin cos acos PI newColor colorSet s
  | afterUpdate (rand : Nat → α) (now : α) (s : ParticleSystem α) (g : α)
      (pos : Option (Vec2 α)) (rot : Option α) :
      Reachable cbrt sin cos acos PI newColor colorSet s → 0 ≤ g → g ≤ 1 →
      Reachable cbrt sin cos acos PI newColor colorSet (update sin PI rand now s g pos rot)
  | afterSetPattern (rand : Nat → α) (s : ParticleSystem α) (type : String) :
      Reachable cbrt sin cos acos PI newColor colorSet s →
      Reachable cbrt sin cos acos PI newColor colorSet
        (setPattern cbrt sin cos acos PI rand s type).state
  | afterSetColor (rand : Nat → α) (s : ParticleSystem α) (hex : String) :
      Reachable cbrt sin cos acos PI newColor colorSet s →
      Reachable cbrt sin cos acos PI newColor colorSet (setColor colorSet rand s hex)

/-- The landmark `p` moved by the offset vector `d`. -/
def translatePoint (d p : Landmark α) : Landmark α :=
  { x := p.x + d.x, y := p.y + d.y, z := p.z + d.z }

/-- The hand with the offset vector `d` added to all its landmarks. -/
def translateHand (d : Landmark α) (landmarks : List (Landmark α)) : List (Landmark α) :=
  landmarks.map (translatePoint d)

/-- The landmark `p` scaled by the factor `k` about the point `w`. -/
def scalePoint (k : α) (w p : Landmark α) : Landmark α :=
  { x := w.x + k * (p.x - w.x), y := w.y + k * (p.y - w.y), z := w.z + k * (p.z - w.z) }

/-- The hand with all its landmarks scaled by the factor `k` about the wrist, landmark 0. -/
def scaleHand (k : α) (landmarks : List (Landmark α)) : List (Landmark α) :=
  match landmarks[0]? with
  | none => landmarks
  | some wrist => landmarks.map (scalePoint k wrist)

/-! ## Sample inputs -/

/-- A hand whose 21 landmarks coincide: the fingertips are at distance 0 from the wrist. -/
def closedHand : List (Landmark α) :=
  List.replicate 21 { x := 0, y := 0, z := 0 }

/-- A sequence of 22 landmarks, one more than a hand has. -/
def longHand : List (Landmark α) :=
  List.replicate 22 { x := 0, y := 0, z := 0 }

/-- A sequence of 20 landmarks, one fewer than a hand has. -/
def shortHand : List (Landmark α) :=
  List.replicate 20 { x := 0, y := 0, z := 0 }

/-- The tracker as its constructor leaves it, before any detector result. -/
def initialTracker : HandTracker α :=
  { results := none
    isHandPresent := false
    gestureValue := 0
    handPosition := { x := 0.5, y := 0.5 }
    handRotation := 0 }

/-- A one-particle system at rest: expansion 0, reference point `(1, 2, 3)`. -/
def sampleSystem : ParticleSystem α :=
  { particleCount := 1
    currentPattern := "sphere"
    baseColor := { r := 0, g := 1, b := 1 }
    expansionFactor := 0
    originalPositions := [some 1, some 2, some 3]
    positions := [some 1, some 2, some 3]
    colors := [some 0, some 1, some 1]
    rotation := { x := 0, y := 0, z := 0 } }

/-- A random stream whose draws are pairwise different: `1/3, 1/4, 1/5, ...`. -/
def sampleRand (j : Nat) : α :=
  1 / ((j : α) + 3)

/-- A tick with a fully open hand at the centre of the screen. -/
def openTick : Tick α :=
  { rand := sampleRand
    now := 0
    gestureValue := 1
    handPosition := some { x := 0.5, y := 0.5 }
    handRotation := some 0 }

/-- A tick with no hand: the arguments `App.animate` passes, `update(0, null, 0)`. -/
def idleTick : Tick α :=
  { rand := sampleRand
    now := 0
    gestureValue := 0
    handPosition := none
    handRotation := some 0 }

/-- An upright hand: the wrist at `(0.5, 0.8)` and every other landmark at `(0.5, 0.5)`,
straight above it on the screen. -/
def uprightHand : List (Landmark α) :=
  { x := 0.5, y := 0.8, z := 0 } :: List.replicate 20 { x := 0.5, y := 0.5, z := 0 }

/-- A hand whose fingertips are at distance 1 from the wrist. -/
def wideHand : List (Landmark α) :=
  { x := 0, y := 0, z := 0 } :: List.replicate 20 { x := 1, y := 0, z := 0 }

/-- The library constructor `new THREE.Color(string)` on the string `'#00ffff'`: cyan. -/
def sampleNewColor (_ : String) : Color α :=
  { r := 0, g := 1, b := 1 }

/-- The library method `Color.set` on the string `'#ff0000'`: red. -/
def sampleColorSet (_ : Color α) (_ : String) : Color α :=
  { r := 1, g := 0, b := 0 }

/-- A tick with a fully open hand at the bottom right corner of the screen. -/
def cornerTick : Tick α :=
  { rand := sampleRand
    now := 0
    gestureValue := 1
    handPosition := some { x := 1, y := 1 }
    handRotation := none }

/-- The double `Math.PI`, `884279719003555 * 2 ^ (-48)`. -/
def doublePi : α :=
  884279719003555 / 2 ^ 48

end Code

/-! ## Exponential smoothing of the expansion -/

section Smoothing

theorem update_expansionFactor (sin : ℝ → ℝ) (PI : ℝ) (rand : ℕ → ℝ) (now : ℝ)
    (s : ParticleSystem ℝ) (g : ℝ) (pos : Option (Vec2 ℝ)) (rot : Option ℝ) :
    (update sin PI rand now s g pos rot).expansionFactor
      = s.expansionFactor + (g - s.expansionFactor) * 0.1 := rfl

theorem runUpdates_append (sin : ℝ → ℝ) (PI : ℝ) (s : ParticleSystem ℝ)
    (ticks : List (Tick ℝ)) (tk : Tick ℝ) :
    runUpdates sin PI s (ticks ++ [tk])
      = update sin PI tk.rand tk.now (runUpdates sin PI s ticks) tk.gestureValue
          tk.handPosition tk.handRotation := by
  simp [runUpdates, List.foldl_append]

theorem runUpdates_expansion_sub (sin : ℝ → ℝ) (PI : ℝ) (t : ℝ) (ticks : List (Tick ℝ)) :
    ∀ s : ParticleSystem ℝ, (∀ x ∈ ticks, x.gestureValue = t) →
      (runUpdates sin PI s ticks).expansionFactor - t
        = 0.9 ^ ticks.length * (s.expansionFactor - t) := by
  induction ticks with
  | nil => intro s _; simp [runUpdates]
  | cons tk rest ih =>
    intro s h
    have htk : tk.gestureValue = t := h tk (List.mem_cons_self _ _)
    have hrest : ∀ x ∈ rest, x.gestureValue = t := fun x hx => h x (List.mem_cons_of_mem _ hx)
    have step := ih (update sin PI tk.rand tk.now s tk.gestureValue tk.handPosition
      tk.handRotation) hrest
    have hfold : runUpdates sin PI s (tk :: rest)
        = runUpdates sin PI (update sin PI tk.rand tk.now s tk.gestureValue tk.handPosition
            tk.handRotation) rest := rfl
    rw [hfold, step, update_expansionFactor, htk, List.length_cons, pow_succ]
    ring

/-- C1: one `update` sets the expansion to `e + (t - e) * 0.1`, where in the frame loop
the target `t` is the tracker's openness when a hand is present and `0` when it is not
(the loop then calls `update(0, null, 0)`, whatever stale `gestureValue` the tracker
holds); from `e = 1` the absent-sample update gives exactly `0.9`, which is below `1`. -/
theorem C1_update_expansion_step (sin : ℝ → ℝ) (PI : ℝ) (rand : ℕ → ℝ) (now : ℝ)
    (ps : ParticleSystem ℝ) (ht : HandTracker ℝ) (g : ℝ) (pos : Option (Vec2 ℝ))
    (rot : Option ℝ) :
    (update sin PI rand now ps g pos rot).expansionFactor
        = ps.expansionFactor + (g - ps.expansionFactor) * 0.1
    ∧ (animate sin PI rand now ht ps).expansionFactor
        = ps.expansionFactor
          + ((if ht.isHandPresent then ht.gestureValue else 0) - ps.expansionFactor) * 0.1
    ∧ animate sin PI rand now { ht with isHandPresent := false } ps
        = update sin PI rand now ps 0 none (some 0)
    ∧ animate sin PI rand now { ht with isHandPresent := true } ps
        = update sin PI rand now ps ht.gestureValue (some ht.handPosition)
            (some ht.handRotation)
    ∧ (update sin PI rand now { ps with expansionFactor := 1 } 0 none rot).expansionFactor
        = 0.9
    ∧ (animate sin PI rand now { ht with isHandPresent := false }
          { ps with expansionFactor := 1 }).expansionFactor = 0.9
    ∧ (0.9 : ℝ) < 1 := by
  refine ⟨rfl, ?_, ?_, ?_, ?_, ?_, by norm_num⟩
  · cases h : ht.isHandPresent <;> simp [animate, h, update_expansionFactor]
  · simp [animate]
  · simp [animate]
  · rw [update_expansionFactor]; norm_num
  · simp only [animate, Bool.false_eq_true, if_false, update_expansionFactor]; norm_num

end Smoothing

/-! ## Openness estimate -/

section Openness

theorem euclideanDistance_eq_dist (p q : Landmark ℝ) :
    euclideanDistance Real.sqrt p q
      = dist ((WithLp.equiv 2 (Fin 3 → ℝ)).symm ![p.x, p.y, p.z])
          ((WithLp.equiv 2 (Fin 3 → ℝ)).symm ![q.x, q.y, q.z]) := by
  rw [EuclideanSpace.dist_eq]
  simp [euclideanDistance, Fin.sum_univ_three, Real.dist_eq, sq_abs]

theorem calculateOpenness_of_length (sqrt : ℝ → ℝ) (lm : List (Landmark ℝ))
    (h : 21 ≤ lm.length) :
    calculateOpenness sqrt lm
      = .ok (opennessSpec sqrt lm[0] lm[8] lm[12] lm[16] lm[20]) := by
  have h0 : lm[0]? = some lm[0] := List.getElem?_eq_getElem _
  have h8 : lm[8]? = some lm[8] := List.getElem?_eq_getElem _
  have h12 : lm[12]? = some lm[12] := List.getElem?_eq_getElem _
  have h16 : lm[16]? = some lm[16] := List.getElem?_eq_getElem _
  have h20 : lm[20]? = some lm[20] := List.getElem?_eq_getElem _
  simp only [calculateOpenness, tipDistance, List.foldlM, h0, h8, h12, h16, h20, Except.map,
    bind, Except.bind, pure, Except.pure, opennessSpec, clamp, euclideanDistance]
  congr 3
  ring_nf

theorem opennessSpec_mem (sqrt : ℝ → ℝ) (w a b c d : Landmark ℝ) :
    0 ≤ opennessSpec sqrt w a b c d ∧ opennessSpec sqrt w a b c d ≤ 1 := by
  simp only [opennessSpec, clamp]
  exact ⟨le_min (le_max_right _ _) zero_le_one, min_le_right _ _⟩

/-- C3: on 21 landmarks `calculateOpenness` returns `clamp((d - 0.2) / (0.5 - 0.2), 0, 1)`,
with `d` the mean of the four Euclidean distances from landmark 0 to landmarks 8, 12, 16
and 20 (the distance being the one of Euclidean 3-space); the result lies in `[0, 1]`. -/
theorem C3_calculateOpenness_formula (lm : List (Landmark ℝ)) (h : lm.length = 21) :
    calculateOpenness Real.sqrt lm
        = .ok (opennessSpec Real.sqrt lm[0] lm[8] lm[12] lm[16] lm[20])
    ∧ opennessSpec Real.sqrt lm[0] lm[8] lm[12] lm[16] lm[20]
        = clamp (((euclideanDistance Real.sqrt lm[0] lm[8]
              + euclideanDistance Real.sqrt lm[0] lm[12]
              + euclideanDistance Real.sqrt lm[0] lm[16]
              + euclideanDistance Real.sqrt lm[0] lm[20]) / 4 - 0.2) / (0.5 - 0.2)) 0 1
    ∧ (∀ p q : Landmark ℝ, euclideanDistance Real.sqrt p q
        = dist ((WithLp.equiv 2 (Fin 3 → ℝ)).symm ![p.x, p.y, p.z])
            ((WithLp.equiv 2 (Fin 3 → ℝ)).symm ![q.x, q.y, q.z]))
    ∧ (∀ v, calculateOpenness Real.sqrt lm = .ok v → 0 ≤ v ∧ v ≤ 1) := by
  have hc := calculateOpenness_of_length Real.sqrt lm (by omega)
  refine ⟨hc, rfl, euclideanDistance_eq_dist, ?_⟩
  intro v hv
  rw [hc] at hv
  cases hv
  exact opennessSpec_mem _ _ _ _ _ _

/-- Witness of C3 on the closed hand: the openness is 0. -/
theorem C3_calculateOpenness_formula_witness :
    (closedHand : List (Landmark ℝ)).length = 21
    ∧ calculateOpenness Real.sqrt (closedHand : List (Landmark ℝ)) = .ok 0 :=
  ⟨by simp [closedHand],
    (C3_calculateOpenness_formula closedHand (by simp [closedHand])).1.trans
      (by
        simp only [closedHand, List.getElem_replicate, opennessSpec, euclideanDistance, clamp]
        norm_num)⟩

end Openness

/-! ## Buffer loops -/

section Loops

theorem length_pointCells (p : Option ℝ × Option ℝ × Option ℝ) :
    (pointCells p).length = 3 := rfl

theorem length_flatMap_pointCells (f : ℕ → Option ℝ × Option ℝ × Option ℝ) (n : ℕ) :
    ((List.range n).flatMap (fun i => pointCells (f i))).length = n * 3 := by
  induction n with
  | zero => simp
  | succ n ih =>
    rw [List.range_succ, List.flatMap_append, List.length_append, ih]
    simp only [List.flatMap_cons, List.flatMap_nil, List.append_nil, length_pointCells]
    omega

theorem storePoint_append (pre rest : Float32Array ℝ) (p : Option ℝ × Option ℝ × Option ℝ)
    (h : 3 ≤ rest.length) :
    storePoint (pre ++ rest) pre.length p = pre ++ pointCells p ++ rest.drop 3 := by
  match rest, h with
  | a :: b :: c :: r, _ =>
    induction pre with
    | nil => simp [storePoint, pointCells]
    | cons x pre ih =>
      simp only [storePoint, pointCells] at ih ⊢
      simp

theorem foldl_storePoint (f : ℕ → Option ℝ × Option ℝ × Option ℝ) (n : ℕ)
    (positions : Float32Array ℝ) (h : n * 3 ≤ positions.length) :
    (List.range n).foldl (fun acc i => storePoint acc (i * 3) (f i)) positions
      = (List.range n).flatMap (fun i => pointCells (f i)) ++ positions.drop (n * 3) := by
  induction n with
  | zero => simp
  | succ n ih =>
    have hn : n * 3 ≤ positions.length := by omega
    rw [List.range_succ, List.foldl_append, ih hn, List.flatMap_append]
    simp only [List.foldl_cons, List.foldl_nil, List.flatMap_cons, List.flatMap_nil,
      List.append_nil]
    have hlen := length_flatMap_pointCells f n
    have hrest : 3 ≤ (positions.drop (n * 3)).length := by
      rw [List.length_drop]; omega
    have key := storePoint_append ((List.range n).flatMap (fun i => pointCells (f i)))
      (positions.drop (n * 3)) (f n) hrest
    rw [hlen] at key
    rw [key, List.drop_drop]
    congr 2
    omega

theorem patternPoint_snd (cbrt sin cos acos : ℝ → ℝ) (PI : ℝ) (type : String)
    (rand : ℕ → ℝ) (k : ℕ) :
    (patternPoint cbrt sin cos acos PI type rand k).2 = k + drawsPerPoint type := by
  unfold patternPoint drawsPerPoint
  by_cases h1 : type = "sphere"
  · simp [h1]
  · by_cases h2 : type = "cube"
    · simp [h2]
    · by_cases h3 : type = "ring"
      · simp [h3]
      · by_cases h4 : type = "love"
        · simp [h4]
        · simp [h1, h2, h3, h4]

theorem generateLoop_eq (cbrt sin cos acos : ℝ → ℝ) (PI : ℝ) (type : String)
    (rand : ℕ → ℝ) (n : ℕ) (positions : Float32Array ℝ) :
    generateLoop cbrt sin cos acos PI type rand n positions
      = ((List.range n).foldl
          (fun acc i => storePoint acc (i * 3)
            (patternPoint cbrt sin cos acos PI type rand (drawsPerPoint type * i)).1)
          positions, drawsPerPoint type * n) := by
  induction n with
  | zero => simp [generateLoop]
  | succ n ih =>
    unfold generateLoop at ih ⊢
    rw [List.range_succ, List.foldl_append, ih, List.foldl_append]
    simp only [List.foldl_cons, List.foldl_nil, patternPoint_snd]
    congr 1

theorem generateLoop_fst (cbrt sin cos acos : ℝ → ℝ) (PI : ℝ) (type : String)
    (rand : ℕ → ℝ) (n : ℕ) (positions : Float32Array ℝ) (h : positions.length = n * 3) :
    (generateLoop cbrt sin cos acos PI type rand n positions).1
      = generatedCells cbrt sin cos acos PI type rand n := by
  rw [generateLoop_eq, foldl_storePoint _ _ _ (by omega), ← h, List.drop_length,
    List.append_nil]
  rfl

theorem length_generatedCells (cbrt sin cos acos : ℝ → ℝ) (PI : ℝ) (type : String)
    (rand : ℕ → ℝ) (n : ℕ) :
    (generatedCells cbrt sin cos acos PI type rand n).length = n * 3 :=
  length_flatMap_pointCells _ n

theorem typedSet_same_length (target source : Float32Array ℝ)
    (h : source.length = target.length) : typedSet target source = some source := by
  simp [typedSet, h]

theorem patternPoint_supported (cbrt sin cos acos : ℝ → ℝ) (PI : ℝ) (type : String)
    (rand : ℕ → ℝ) (k : ℕ) (hk : supportedPattern type) :
    ∀ c ∈ pointCells (patternPoint cbrt sin cos acos PI type rand k).1, c ≠ none := by
  unfold patternPoint pointCells
  rcases hk with h | h | h | h <;> subst h <;> simp

theorem patternPoint_unsupported (cbrt sin cos acos : ℝ → ℝ) (PI : ℝ) (type : String)
    (rand : ℕ → ℝ) (k : ℕ) (hk : ¬ supportedPattern type) :
    patternPoint cbrt sin cos acos PI type rand k = ((none, none, none), k) := by
  unfold supportedPattern at hk
  push_neg at hk
  simp [patternPoint, hk.1, hk.2.1, hk.2.2.1, hk.2.2.2]

theorem getElem?_flatMap_pointCells (f : ℕ → Option ℝ × Option ℝ × Option ℝ) (n i j : ℕ)
    (hi : i < n) (hj : j < 3) :
    ((List.range n).flatMap (fun i => pointCells (f i)))[i * 3 + j]?
      = (pointCells (f i))[j]? := by
  induction n with
  | zero => omega
  | succ n ih =>
    have hlen := length_flatMap_pointCells f n
    rw [List.range_succ, List.flatMap_append]
    by_cases hin : i < n
    · rw [List.getElem?_append_left (by rw [hlen]; omega)]
      exact ih hin
    · have hi' : i = n := by omega
      subst hi'
      rw [List.getElem?_append_right (by rw [hlen]; omega), hlen]
      simp

theorem getElem?_generatedCells (cbrt sin cos acos : ℝ → ℝ) (PI : ℝ) (type : String)
    (rand : ℕ → ℝ) (n i : ℕ) (hi : i < n) :
    (generatedCells cbrt sin cos acos PI type rand n)[i * 3]?
        = some (patternPoint cbrt sin cos acos PI type rand (drawsPerPoint type * i)).1.1
    ∧ (generatedCells cbrt sin cos acos PI type rand n)[i * 3 + 1]?
        = some (patternPoint cbrt sin cos acos PI type rand (drawsPerPoint type * i)).1.2.1
    ∧ (generatedCells cbrt sin cos acos PI type rand n)[i * 3 + 2]?
        = some (patternPoint cbrt sin cos acos PI type rand (drawsPerPoint type * i)).1.2.2 := by
  have h0 := getElem?_flatMap_pointCells (fun i =>
    (patternPoint cbrt sin cos acos PI type rand (drawsPerPoint type * i)).1) n i 0 hi
    (by omega)
  have h1 := getElem?_flatMap_pointCells (fun i =>
    (patternPoint cbrt sin cos acos PI type rand (drawsPerPoint type * i)).1) n i 1 hi
    (by omega)
  have h2 := getElem?_flatMap_pointCells (fun i =>
    (patternPoint cbrt sin cos acos PI type rand (drawsPerPoint type * i)).1) n i 2 hi
    (by omega)
  exact ⟨by simpa [pointCells] using h0, by simpa [pointCells] using h1,
    by simpa [pointCells] using h2⟩

theorem generatePattern_some (cbrt sin cos acos : ℝ → ℝ) (PI : ℝ) (rand : ℕ → ℝ)
    (s : ParticleSystem ℝ) (type : String) (arr : Float32Array ℝ)
    (harr : arr.length = s.particleCount * 3) :
    generatePattern cbrt sin cos acos PI rand s type (some arr)
      = .normal ({ s with currentPattern := type },
          generatedCells cbrt sin cos acos PI type rand s.particleCount) := by
  simp only [generatePattern]
  rw [generateLoop_fst _ _ _ _ _ _ _ _ _ harr]

theorem generatePattern_none (cbrt sin cos acos : ℝ → ℝ) (PI : ℝ) (rand : ℕ → ℝ)
    (s : ParticleSystem ℝ) (type : String) (hs : s.WellSized) :
    generatePattern cbrt sin cos acos PI rand s type none
      = .normal ({ s with
          currentPattern := type
          positions := generatedCells cbrt sin cos acos PI type rand s.particleCount
          originalPositions := generatedCells cbrt sin cos acos PI type rand s.particleCount },
        generatedCells cbrt sin cos acos PI type rand s.particleCount) := by
  obtain ⟨ho, hp, _⟩ := hs
  simp only [generatePattern]
  rw [generateLoop_fst _ _ _ _ _ _ _ _ _ hp,
    typedSet_same_length _ _ (by rw [length_generatedCells, ho])]

theorem setPattern_wellSized (cbrt sin cos acos : ℝ → ℝ) (PI : ℝ) (rand : ℕ → ℝ)
    (s : ParticleSystem ℝ) (type : String) (hs : s.WellSized) :
    setPattern cbrt sin cos acos PI rand s type
      = .normal { s with
          currentPattern := type
          positions := generatedCells cbrt sin cos acos PI type rand s.particleCount
          originalPositions := generatedCells cbrt sin cos acos PI type rand s.particleCount } := by
  simp only [setPattern, generatePattern_none _ _ _ _ _ _ _ _ hs]

/-- C4: for a supported pattern kind, `generatePattern` returns normally having written
exactly `particleCount` points: the written array is the list of the `3 * particleCount`
generated coordinates (point `i` in cells `3i, 3i+1, 3i+2`), none of them NaN and none
kept from the previous content; with no array passed the same list becomes the position
and the reference buffer; for `particleCount = 0` the array is empty. -/
theorem C4_generatePattern_writes_all_points (cbrt sin cos acos : ℝ → ℝ) (PI : ℝ)
    (rand : ℕ → ℝ) (s : ParticleSystem ℝ) (type : String)
    (positionArray : Option (Float32Array ℝ))
    (hk : supportedPattern type) (hs : s.WellSized)
    (hpa : ∀ arr, positionArray = some arr → arr.length = s.particleCount * 3) :
    ∃ s1 out, generatePattern cbrt sin cos acos PI rand s type positionArray
        = .normal (s1, out)
    ∧ out = generatedCells cbrt sin cos acos PI type rand s.particleCount
    ∧ out.length = s.particleCount * 3
    ∧ (∀ c ∈ out, c ≠ none)
    ∧ (∀ i, i < s.particleCount →
        out[i * 3]?
          = some (patternPoint cbrt sin cos acos PI type rand (drawsPerPoint type * i)).1.1
        ∧ out[i * 3 + 1]?
          = some (patternPoint cbrt sin cos acos PI type rand (drawsPerPoint type * i)).1.2.1
        ∧ out[i * 3 + 2]?
          = some (patternPoint cbrt sin cos acos PI type rand (drawsPerPoint type * i)).1.2.2)
    ∧ (positionArray = none → s1.positions = out ∧ s1.originalPositions = out)
    ∧ (s.particleCount = 0 → out = []) := by
  have hlen := length_generatedCells cbrt sin cos acos PI type rand s.particleCount
  have hsome : ∀ c ∈ generatedCells cbrt sin cos acos PI type rand s.particleCount,
      c ≠ none := by
    intro c hc
    rw [generatedCells, List.mem_flatMap] at hc
    obtain ⟨i, _, hci⟩ := hc
    exact patternPoint_supported cbrt sin cos acos PI type rand _ hk c hci
  have hcells := getElem?_generatedCells cbrt sin cos acos PI type rand s.particleCount
  have hzero : s.particleCount = 0 →
      generatedCells cbrt sin cos acos PI type rand s.particleCount = [] := by
    intro h0; rw [h0]; rfl
  cases positionArray with
  | some arr =>
    exact ⟨_, _, generatePattern_some cbrt sin cos acos PI rand s type arr (hpa arr rfl), rfl,
      hlen, hsome, hcells, fun h => Option.noConfusion h, hzero⟩
  | none =>
    exact ⟨_, _, generatePattern_none cbrt sin cos acos PI rand s type hs, rfl,
      hlen, hsome, hcells, fun _ => ⟨rfl, rfl⟩, hzero⟩

theorem generatedCells_unsupported (cbrt sin cos acos : ℝ → ℝ) (PI : ℝ) (type : String)
    (rand : ℕ → ℝ) (n : ℕ) (hk : ¬ supportedPattern type) :
    generatedCells cbrt sin cos acos PI type rand n = List.replicate (n * 3) none := by
  unfold generatedCells
  induction n with
  | zero => rfl
  | succ n ih =>
    rw [List.range_succ, List.flatMap_append, ih]
    simp only [List.flatMap_cons, List.flatMap_nil, List.append_nil,
      patternPoint_unsupported cbrt sin cos acos PI type rand _ hk, pointCells]
    rw [show (n + 1) * 3 = n * 3 + 3 by ring, List.replicate_add]
    rfl

end Loops


/-! ## Pattern generation -/

section Patterns

theorem sphere_norm_sq (r phi theta : ℝ) :
    (r * Real.sin phi * Real.cos theta) ^ 2 + (r * Real.sin phi * Real.sin theta) ^ 2
      + (r * Real.cos phi) ^ 2 = r ^ 2 := by
  have h1 := Real.sin_sq_add_cos_sq phi
  have h2 := Real.sin_sq_add_cos_sq theta
  calc (r * Real.sin phi * Real.cos theta) ^ 2 + (r * Real.sin phi * Real.sin theta) ^ 2
        + (r * Real.cos phi) ^ 2
      = r ^ 2 * (Real.sin phi ^ 2 * (Real.sin theta ^ 2 + Real.cos theta ^ 2)
          + Real.cos phi ^ 2) := by ring
    _ = r ^ 2 := by rw [h2, mul_one, h1, mul_one]

theorem cube_root_lt_one (c u : ℝ) (hcu : c ^ 3 = u) (hu : u < 1) : c < 1 := by
  by_contra hge
  push_neg at hge
  have h2 : 1 ≤ c ^ 3 := one_le_pow₀ hge
  linarith

theorem rpow_third_cube (x : ℝ) (hx : 0 ≤ x) :
    0 ≤ x ^ ((1 : ℝ) / 3) ∧ (x ^ ((1 : ℝ) / 3)) ^ 3 = x := by
  refine ⟨Real.rpow_nonneg hx _, ?_⟩
  rw [← Real.rpow_natCast, ← Real.rpow_mul hx]
  norm_num

/-- C5: the `i`-th point `setPattern('sphere')` generates from draws `u1, u2, u3` (in
that order) is `r sin φ cos θ, r sin φ sin θ, r cos φ` with `r = 10 cbrt(u1)`,
`θ = u2 * 2π`, `φ = acos(2 u3 - 1)`; its squared norm is `r ^ 2`, and for `u1` in
`[0, 1)` its distance from the origin is `10 cbrt(u1)`, strictly below `10`. -/
theorem C5_sphere_point_within_radius (cbrt : ℝ → ℝ) (rand : ℕ → ℝ) (s : ParticleSystem ℝ)
    (i : ℕ) (hcbrt : ∀ u, 0 ≤ u → 0 ≤ cbrt u ∧ cbrt u ^ 3 = u)
    (hrand : ∀ j, 0 ≤ rand j ∧ rand j < 1) (hs : s.WellSized) (hi : i < s.particleCount) :
    ∃ s1 x y z,
      setPattern cbrt Real.sin Real.cos Real.arccos Real.pi rand s "sphere" = .normal s1
      ∧ s1.positions[i * 3]? = some (some x)
      ∧ s1.positions[i * 3 + 1]? = some (some y)
      ∧ s1.positions[i * 3 + 2]? = some (some z)
      ∧ x = 10 * cbrt (rand (3 * i)) * Real.sin (Real.arccos (2 * rand (3 * i + 2) - 1))
            * Real.cos (rand (3 * i + 1) * 2 * Real.pi)
      ∧ y = 10 * cbrt (rand (3 * i)) * Real.sin (Real.arccos (2 * rand (3 * i + 2) - 1))
            * Real.sin (rand (3 * i + 1) * 2 * Real.pi)
      ∧ z = 10 * cbrt (rand (3 * i)) * Real.cos (Real.arccos (2 * rand (3 * i + 2) - 1))
      ∧ rand (3 * i + 1) * 2 * Real.pi = 2 * Real.pi * rand (3 * i + 1)
      ∧ x ^ 2 + y ^ 2 + z ^ 2 = (10 * cbrt (rand (3 * i))) ^ 2
      ∧ Real.sqrt (x ^ 2 + y ^ 2 + z ^ 2) = 10 * cbrt (rand (3 * i))
      ∧ Real.sqrt (x ^ 2 + y ^ 2 + z ^ 2) < 10
      ∧ Real.sqrt (x ^ 2 + y ^ 2 + z ^ 2) ≤ 10 := by
  obtain ⟨hc0, hc3⟩ := hcbrt (rand (3 * i)) (hrand (3 * i)).1
  have hc1 : cbrt (rand (3 * i)) < 1 := cube_root_lt_one _ _ hc3 (hrand (3 * i)).2
  have hcells := getElem?_generatedCells cbrt Real.sin Real.cos Real.arccos Real.pi "sphere"
    rand s.particleCount i hi
  have hd : drawsPerPoint "sphere" = 3 := by decide
  rw [hd] at hcells
  have hnorm := sphere_norm_sq (10 * cbrt (rand (3 * i)))
    (Real.arccos (2 * rand (3 * i + 2) - 1)) (rand (3 * i + 1) * 2 * Real.pi)
  have hsqrt : Real.sqrt ((10 * cbrt (rand (3 * i))
        * Real.sin (Real.arccos (2 * rand (3 * i + 2) - 1))
        * Real.cos (rand (3 * i + 1) * 2 * Real.pi)) ^ 2
      + (10 * cbrt (rand (3 * i)) * Real.sin (Real.arccos (2 * rand (3 * i + 2) - 1))
        * Real.sin (rand (3 * i + 1) * 2 * Real.pi)) ^ 2
      + (10 * cbrt (rand (3 * i)) * Real.cos (Real.arccos (2 * rand (3 * i + 2) - 1))) ^ 2)
      = 10 * cbrt (rand (3 * i)) := by
    rw [hnorm, Real.sqrt_sq (by linarith)]
  refine ⟨_, _, _, _, setPattern_wellSized cbrt Real.sin Real.cos Real.arccos Real.pi rand s
    "sphere" hs, ?_, ?_, ?_, rfl, rfl, rfl, by ring, hnorm, hsqrt, ?_, ?_⟩
  · simpa [patternPoint] using hcells.1
  · simpa [patternPoint] using hcells.2.1
  · simpa [patternPoint] using hcells.2.2
  · rw [hsqrt]; linarith
  · rw [hsqrt]; linarith

theorem sampleRand_mem (j : ℕ) : 0 ≤ (sampleRand j : ℝ) ∧ (sampleRand j : ℝ) < 1 := by
  unfold sampleRand
  have hpos : (0 : ℝ) < (j : ℝ) + 3 := by positivity
  refine ⟨by positivity, ?_⟩
  rw [div_lt_one hpos]
  have : (0 : ℝ) ≤ (j : ℝ) := Nat.cast_nonneg j
  linarith

theorem sampleSystem_wellSized : (sampleSystem : ParticleSystem ℝ).WellSized := by
  simp [ParticleSystem.WellSized, sampleSystem]

/-- Witness of C4: the cube pattern on the one-particle sample system. -/
theorem C4_generatePattern_writes_all_points_witness :
    supportedPattern "cube"
    ∧ (sampleSystem : ParticleSystem ℝ).WellSized
    ∧ ∃ s1 out,
        generatePattern (fun u => u ^ ((1 : ℝ) / 3)) Real.sin Real.cos Real.arccos Real.pi
          sampleRand (sampleSystem : ParticleSystem ℝ) "cube" none = .normal (s1, out)
        ∧ out.length = (sampleSystem : ParticleSystem ℝ).particleCount * 3
        ∧ ∀ c ∈ out, c ≠ none :=
  ⟨by decide, sampleSystem_wellSized,
    match C4_generatePattern_writes_all_points (fun u => u ^ ((1 : ℝ) / 3)) Real.sin Real.cos
        Real.arccos Real.pi sampleRand (sampleSystem : ParticleSystem ℝ) "cube" none
        (by decide) sampleSystem_wellSized (fun _ h => Option.noConfusion h) with
    | ⟨s1, out, h1, _, h3, h4, _⟩ => ⟨s1, out, h1, h3, h4⟩⟩

/-- Witness of C5: the first sphere point of the one-particle sample system. -/
theorem C5_sphere_point_within_radius_witness :
    (∀ u : ℝ, 0 ≤ u → 0 ≤ u ^ ((1 : ℝ) / 3) ∧ (u ^ ((1 : ℝ) / 3)) ^ 3 = u)
    ∧ (∀ j, 0 ≤ (sampleRand j : ℝ) ∧ (sampleRand j : ℝ) < 1)
    ∧ (sampleSystem : ParticleSystem ℝ).WellSized
    ∧ 0 < (sampleSystem : ParticleSystem ℝ).particleCount
    ∧ ∃ s1 x y z,
        setPattern (fun u => u ^ ((1 : ℝ) / 3)) Real.sin Real.cos Real.arccos Real.pi
          sampleRand (sampleSystem : ParticleSystem ℝ) "sphere" = .normal s1
        ∧ s1.positions[0 * 3]? = some (some x)
        ∧ s1.positions[0 * 3 + 1]? = some (some y)
        ∧ s1.positions[0 * 3 + 2]? = some (some z)
        ∧ Real.sqrt (x ^ 2 + y ^ 2 + z ^ 2) < 10 :=
  ⟨rpow_third_cube, sampleRand_mem, sampleSystem_wellSized, by simp [sampleSystem],
    match C5_sphere_point_within_radius (fun u => u ^ ((1 : ℝ) / 3)) sampleRand
        (sampleSystem : ParticleSystem ℝ) 0 rpow_third_cube sampleRand_mem
        sampleSystem_wellSized (by simp [sampleSystem]) with
    | ⟨s1, x, y, z, h1, hx, hy, hz, _, _, _, _, _, _, hlt, _⟩ =>
      ⟨s1, x, y, z, h1, hx, hy, hz, hlt⟩⟩

/-- C8: on a system whose buffers have the constructor's size, `setPattern` returns
normally; the reference array (and the position array) becomes the list of the
`3 * particleCount` newly generated coordinates, while the expansion, the rotation, the
base colour, the colour buffer and the particle count keep their values; so an
absent-sample update after `setPattern` gives the expansion `e * 0.9` that the update
alone gives. -/
theorem C8_setPattern_keeps_motion_state (cbrt sin cos acos : ℝ → ℝ) (PI : ℝ)
    (rand rand2 : ℕ → ℝ) (now : ℝ) (s : ParticleSystem ℝ) (type : String) (rot : Option ℝ)
    (hs : s.WellSized) :
    ∃ s1, setPattern cbrt sin cos acos PI rand s type = .normal s1
      ∧ s1.originalPositions = generatedCells cbrt sin cos acos PI type rand s.particleCount
      ∧ s1.positions = generatedCells cbrt sin cos acos PI type rand s.particleCount
      ∧ s1.originalPositions.length = s.particleCount * 3
      ∧ s1.currentPattern = type
      ∧ s1.expansionFactor = s.expansionFactor
      ∧ s1.rotation = s.rotation
      ∧ s1.baseColor = s.baseColor
      ∧ s1.colors = s.colors
      ∧ s1.particleCount = s.particleCount
      ∧ (update sin PI rand2 now s1 0 none rot).expansionFactor
          = (update sin PI rand2 now s 0 none rot).expansionFactor
      ∧ (update sin PI rand2 now s1 0 none rot).expansionFactor = s.expansionFactor * 0.9
      ∧ (update sin PI rand2 now s1 0 none rot).rotation
          = (update sin PI rand2 now s 0 none rot).rotation := by
  refine ⟨_, setPattern_wellSized cbrt sin cos acos PI rand s type hs, rfl, rfl,
    length_generatedCells _ _ _ _ _ _ _ _, rfl, rfl, rfl, rfl, rfl, rfl, rfl, ?_, rfl⟩
  rw [update_expansionFactor]
  ring

/-- Witness of C8: switching the sample system to the ring pattern. -/
theorem C8_setPattern_keeps_motion_state_witness :
    (sampleSystem : ParticleSystem ℝ).WellSized
    ∧ ∃ s1, setPattern (fun u => u ^ ((1 : ℝ) / 3)) Real.sin Real.cos Real.arccos Real.pi
          sampleRand (sampleSystem : ParticleSystem ℝ) "ring" = .normal s1
        ∧ s1.expansionFactor = (sampleSystem : ParticleSystem ℝ).expansionFactor
        ∧ s1.rotation = (sampleSystem : ParticleSystem ℝ).rotation :=
  ⟨sampleSystem_wellSized,
    match C8_setPattern_keeps_motion_state (fun u => u ^ ((1 : ℝ) / 3)) Real.sin Real.cos
        Real.arccos Real.pi sampleRand sampleRand 0 (sampleSystem : ParticleSystem ℝ) "ring"
        none sampleSystem_wellSized with
    | ⟨s1, h1, _, _, _, _, he, hr, _⟩ => ⟨s1, h1, he, hr⟩⟩

/-- C7, as stated, fails: `setPattern('torus')` on the sample system does not throw; it
makes `'torus'` the current pattern and fills both buffers with NaN. -/
theorem C7_unsupported_pattern_is_not_rejected :
    ¬ supportedPattern "torus"
    ∧ (setPattern (fun u => u ^ ((1 : ℝ) / 3)) Real.sin Real.cos Real.arccos Real.pi
        sampleRand (sampleSystem : ParticleSystem ℝ) "torus").isThrow = false
    ∧ (sampleSystem : ParticleSystem ℝ).currentPattern = "sphere"
    ∧ (setPattern (fun u => u ^ ((1 : ℝ) / 3)) Real.sin Real.cos Real.arccos Real.pi
        sampleRand (sampleSystem : ParticleSystem ℝ) "torus").state.currentPattern = "torus"
    ∧ (sampleSystem : ParticleSystem ℝ).positions = [some 1, some 2, some 3]
    ∧ (setPattern (fun u => u ^ ((1 : ℝ) / 3)) Real.sin Real.cos Real.arccos Real.pi
        sampleRand (sampleSystem : ParticleSystem ℝ) "torus").state.positions
        = [none, none, none]
    ∧ (sampleSystem : ParticleSystem ℝ).originalPositions = [some 1, some 2, some 3]
    ∧ (setPattern (fun u => u ^ ((1 : ℝ) / 3)) Real.sin Real.cos Real.arccos Real.pi
        sampleRand (sampleSystem : ParticleSystem ℝ) "torus").state.originalPositions
        = [none, none, none] := by
  have hk : ¬ supportedPattern "torus" := by decide
  rw [setPattern_wellSized _ _ _ _ _ _ _ _ sampleSystem_wellSized,
    generatedCells_unsupported _ _ _ _ _ _ _ _ hk]
  exact ⟨hk, rfl, rfl, rfl, rfl, rfl, rfl, rfl⟩

/-- C7, amended: for a pattern kind with no branch in `generatePattern`, `setPattern`
(and `generatePattern` on a passed array) returns normally; the kind becomes the current
pattern and every cell of the written array, hence of the position and of the reference
buffer, becomes NaN; expansion, rotation, colours and particle count are unchanged. -/
theorem C7_unsupported_pattern_writes_nan (cbrt sin cos acos : ℝ → ℝ) (PI : ℝ)
    (rand : ℕ → ℝ) (s : ParticleSystem ℝ) (type : String) (arr : Float32Array ℝ)
    (hk : ¬ supportedPattern type) (hs : s.WellSized)
    (harr : arr.length = s.particleCount * 3) :
    setPattern cbrt sin cos acos PI rand s type
        = .normal { s with
            currentPattern := type
            positions := List.replicate (s.particleCount * 3) none
            originalPositions := List.replicate (s.particleCount * 3) none }
    ∧ generatePattern cbrt sin cos acos PI rand s type (some arr)
        = .normal ({ s with currentPattern := type },
            List.replicate (s.particleCount * 3) none)
    ∧ (setPattern cbrt sin cos acos PI rand s type).isThrow = false
    ∧ (setPattern cbrt sin cos acos PI rand s type).state.expansionFactor = s.expansionFactor
    ∧ (setPattern cbrt sin cos acos PI rand s type).state.rotation = s.rotation
    ∧ (setPattern cbrt sin cos acos PI rand s type).state.colors = s.colors := by
  have h1 := setPattern_wellSized cbrt sin cos acos PI rand s type hs
  have h2 := generatePattern_some cbrt sin cos acos PI rand s type arr harr
  rw [generatedCells_unsupported _ _ _ _ _ _ _ _ hk] at h1 h2
  rw [h1]
  exact ⟨rfl, h2, rfl, rfl, rfl, rfl⟩

/-- Witness of the amended C7: the kind `'torus'` on the sample system. -/
theorem C7_unsupported_pattern_writes_nan_witness :
    ¬ supportedPattern "torus"
    ∧ (sampleSystem : ParticleSystem ℝ).WellSized
    ∧ ([none, none, none] : Float32Array ℝ).length
        = (sampleSystem : ParticleSystem ℝ).particleCount * 3
    ∧ setPattern (fun u => u ^ ((1 : ℝ) / 3)) Real.sin Real.cos Real.arccos Real.pi
        sampleRand (sampleSystem : ParticleSystem ℝ) "torus"
        = .normal { (sampleSystem : ParticleSystem ℝ) with
            currentPattern := "torus"
            positions := List.replicate ((sampleSystem : ParticleSystem ℝ).particleCount * 3)
              none
            originalPositions :=
              List.replicate ((sampleSystem : ParticleSystem ℝ).particleCount * 3) none } :=
  ⟨by decide, sampleSystem_wellSized, rfl,
    (C7_unsupported_pattern_writes_nan (fun u => u ^ ((1 : ℝ) / 3)) Real.sin Real.cos
      Real.arccos Real.pi sampleRand (sampleSystem : ParticleSystem ℝ) "torus"
      [none, none, none] (by decide) sampleSystem_wellSized rfl).1⟩

end Patterns


/-! ## Landmark count -/

section LandmarkCount

theorem calculateOpenness_short (sqrt : ℝ → ℝ) (lm : List (Landmark ℝ))
    (h : lm.length < 21) : calculateOpenness sqrt lm = .error .typeError := by
  have h20 : lm[20]? = none := List.getElem?_eq_none (by omega)
  simp only [calculateOpenness, tipDistance, List.foldlM, h20]
  generalize lm[0]? = w
  generalize lm[8]? = a
  generalize lm[12]? = b
  generalize lm[16]? = c
  cases w <;> cases a <;> cases b <;> cases c <;> rfl

theorem calculateOpenness_error_iff (sqrt : ℝ → ℝ) (lm : List (Landmark ℝ)) :
    calculateOpenness sqrt lm = .error .typeError ↔ lm.length < 21 := by
  constructor
  · intro he
    by_contra hlen
    rw [calculateOpenness_of_length sqrt lm (by omega)] at he
    cases he
  · exact calculateOpenness_short sqrt lm

theorem processResults_short (sqrt : ℝ → ℝ) (atan2 : ℝ → ℝ → ℝ) (ht : HandTracker ℝ)
    (hand : List (Landmark ℝ)) (rest : List (List (Landmark ℝ))) (h : hand.length < 21) :
    processResults sqrt atan2 ht { landmarks := some (hand :: rest) }
      = .threw .typeError { ht with
          results := some { landmarks := some (hand :: rest) }
          isHandPresent := true } := by
  simp only [processResults, calculateOpenness_short sqrt hand h]

theorem processResults_long (sqrt : ℝ → ℝ) (atan2 : ℝ → ℝ → ℝ) (ht : HandTracker ℝ)
    (hand : List (Landmark ℝ)) (rest : List (List (Landmark ℝ))) (h : 21 ≤ hand.length) :
    processResults sqrt atan2 ht { landmarks := some (hand :: rest) }
      = .normal
          { results := some { landmarks := some (hand :: rest) }
            isHandPresent := true
            gestureValue := opennessSpec sqrt hand[0] hand[8] hand[12] hand[16] hand[20]
            handPosition := { x := hand[0].x, y := hand[0].y }
            handRotation := atan2 (hand[5].y - hand[0].y) (hand[5].x - hand[0].x) } := by
  have h0 : hand[0]? = some hand[0] := List.getElem?_eq_getElem _
  have h5 : hand[5]? = some hand[5] := List.getElem?_eq_getElem _
  simp only [processResults, calculateOpenness_of_length sqrt hand h, h0, h5]

theorem calculateOpenness_take (sqrt : ℝ → ℝ) (lm : List (Landmark ℝ))
    (h : 21 ≤ lm.length) :
    calculateOpenness sqrt (lm.take 21) = calculateOpenness sqrt lm := by
  have hlen : (lm.take 21).length = 21 := by rw [List.length_take]; omega
  rw [calculateOpenness_of_length sqrt lm h,
    calculateOpenness_of_length sqrt (lm.take 21) (by omega)]
  simp [List.getElem_take]

/-- C6, as stated, fails for sequences longer than 21: on 22 landmarks
`calculateOpenness` returns an openness and `processResults` completes normally,
recording a present hand. -/
theorem C6_long_landmark_sequence_is_accepted :
    (longHand : List (Landmark ℝ)).length = 22
    ∧ calculateOpenness Real.sqrt (longHand : List (Landmark ℝ)) = .ok 0
    ∧ (processResults Real.sqrt (fun y x => Complex.arg { re := x, im := y })
        (initialTracker : HandTracker ℝ) { landmarks := some [longHand] }).isThrow = false
    ∧ (processResults Real.sqrt (fun y x => Complex.arg { re := x, im := y })
        (initialTracker : HandTracker ℝ) { landmarks := some [longHand] }).state.isHandPresent
        = true := by
  have hlen : (longHand : List (Landmark ℝ)).length = 22 := by simp [longHand]
  refine ⟨hlen, ?_, ?_, ?_⟩
  · rw [calculateOpenness_of_length Real.sqrt longHand (by omega)]
    simp only [longHand, List.getElem_replicate, opennessSpec, euclideanDistance, clamp]
    norm_num
  · rw [processResults_long _ _ _ _ _ (by omega)]; rfl
  · rw [processResults_long _ _ _ _ _ (by omega)]; rfl

/-- C6, amended: the estimator throws exactly when the hand has fewer than 21 landmarks
(a `TypeError`, raised while reading a missing fingertip; `processResults` then stores no
openness, position or roll).  A longer sequence is accepted: the estimate is the one of
its first 21 landmarks. -/
theorem C6_estimator_throws_iff_short (sqrt : ℝ → ℝ) (atan2 : ℝ → ℝ → ℝ)
    (ht : HandTracker ℝ) (hand : List (Landmark ℝ)) (rest : List (List (Landmark ℝ))) :
    (calculateOpenness sqrt hand = .error .typeError ↔ hand.length < 21)
    ∧ ((processResults sqrt atan2 ht { landmarks := some (hand :: rest) }).isThrow = true
        ↔ hand.length < 21)
    ∧ (hand.length < 21 →
        processResults sqrt atan2 ht { landmarks := some (hand :: rest) }
          = .threw .typeError { ht with
              results := some { landmarks := some (hand :: rest) }
              isHandPresent := true })
    ∧ (21 ≤ hand.length →
        calculateOpenness sqrt hand = calculateOpenness sqrt (hand.take 21)
        ∧ ∃ g, calculateOpenness sqrt hand = .ok g
          ∧ (processResults sqrt atan2 ht
              { landmarks := some (hand :: rest) }).state.gestureValue = g) := by
  refine ⟨calculateOpenness_error_iff sqrt hand, ?_, processResults_short sqrt atan2 ht hand rest,
    ?_⟩
  · constructor
    · intro hthrow
      by_contra hlen
      rw [processResults_long sqrt atan2 ht hand rest (by omega)] at hthrow
      cases hthrow
    · intro hlen
      rw [processResults_short sqrt atan2 ht hand rest hlen]
      rfl
  · intro hlen
    refine ⟨(calculateOpenness_take sqrt hand hlen).symm, _,
      calculateOpenness_of_length sqrt hand hlen, ?_⟩
    rw [processResults_long sqrt atan2 ht hand rest hlen]
    rfl

/-- Witness of the amended C6: a sequence of 20 landmarks makes both methods throw. -/
theorem C6_estimator_throws_iff_short_witness :
    (shortHand : List (Landmark ℝ)).length < 21
    ∧ calculateOpenness Real.sqrt (shortHand : List (Landmark ℝ)) = .error .typeError
    ∧ (processResults Real.sqrt (fun y x => Complex.arg { re := x, im := y })
        (initialTracker : HandTracker ℝ) { landmarks := some [shortHand] }).isThrow = true :=
  have hlen : (shortHand : List (Landmark ℝ)).length < 21 := by simp [shortHand]
  ⟨hlen,
    (C6_estimator_throws_iff_short Real.sqrt (fun y x => Complex.arg { re := x, im := y })
      initialTracker shortHand []).1.mpr hlen,
    (C6_estimator_throws_iff_short Real.sqrt (fun y x => Complex.arg { re := x, im := y })
      initialTracker shortHand []).2.1.mpr hlen⟩

end LandmarkCount


/-! ## Live positions -/

section LivePositions

theorem updatePositions_eq (rand : ℕ → ℝ) (n : ℕ) (e : ℝ) (orig positions : Float32Array ℝ)
    (h : positions.length = n * 3) :
    updatePositions rand n e orig positions
      = (List.range n).flatMap (fun i => pointCells (updatedPoint rand e orig i)) := by
  unfold updatePositions
  rw [foldl_storePoint _ _ _ (by omega), ← h, List.drop_length, List.append_nil]

theorem update_positions_cell (sin : ℝ → ℝ) (PI : ℝ) (rand : ℕ → ℝ) (now : ℝ)
    (s : ParticleSystem ℝ) (g : ℝ) (pos : Option (Vec2 ℝ)) (rot : Option ℝ) (i j : ℕ)
    (hp : s.positions.length = s.particleCount * 3) (hi : i < s.particleCount) (hj : j < 3) :
    (update sin PI rand now s g pos rot).positions[i * 3 + j]?
      = some ((readCell s.originalPositions (i * 3 + j)).map (fun o =>
          o * particleScale (update sin PI rand now s g pos rot).expansionFactor
            + particleNoise rand (update sin PI rand now s g pos rot).expansionFactor i)) := by
  have hpos : (update sin PI rand now s g pos rot).positions
      = (List.range s.particleCount).flatMap (fun i => pointCells
          (updatedPoint rand (update sin PI rand now s g pos rot).expansionFactor
            s.originalPositions i)) :=
    updatePositions_eq rand s.particleCount _ s.originalPositions s.positions hp
  rw [hpos, getElem?_flatMap_pointCells _ _ _ _ hi hj]
  interval_cases j <;> simp [pointCells, updatedPoint]

theorem abs_particleNoise_le (rand : ℕ → ℝ) (e : ℝ) (i : ℕ)
    (hr : 0 ≤ rand i ∧ rand i < 1) : |particleNoise rand e i| ≤ |e| * 0.05 := by
  unfold particleNoise
  have h1 : |rand i - 0.5| ≤ 0.5 := by
    rw [abs_le]; constructor <;> linarith [hr.1, hr.2]
  rw [abs_mul, abs_mul, abs_of_pos (by norm_num : (0 : ℝ) < 0.1)]
  have h2 : 0 ≤ |e| := abs_nonneg e
  nlinarith [mul_le_mul_of_nonneg_left h1 h2]

theorem particleScale_range (e : ℝ) (h0 : 0 ≤ e) (h1 : e ≤ 1) :
    0.2 ≤ particleScale e ∧ particleScale e ≤ 2.5 := by
  unfold particleScale
  constructor <;> linarith

/-- C9: after the smoothing step to `e'`, every cell `update` writes holds its reference
coordinate times `scale = 0.2 + e' * 2.3` plus the perturbation
`e' * 0.1 * (draw - 0.5)`, whose absolute value is at most `|e'| * 0.05`, hence at most
`e' * 0.1` for `e' ≥ 0` and zero for `e' = 0` (a NaN reference cell gives a NaN live
cell); `scale` is affine in `e'` and lies in `[0.2, 2.5]` for `e'` in `[0, 1]`; the
reference positions are not modified. -/
theorem C9_update_scales_reference_positions (sin : ℝ → ℝ) (PI : ℝ) (rand : ℕ → ℝ)
    (now : ℝ) (s : ParticleSystem ℝ) (g : ℝ) (pos : Option (Vec2 ℝ)) (rot : Option ℝ)
    (i j : ℕ) (hrand : ∀ k, 0 ≤ rand k ∧ rand k < 1) (hs : s.WellSized)
    (hi : i < s.particleCount) (hj : j < 3) :
    (update sin PI rand now s g pos rot).positions[i * 3 + j]?
        = some ((readCell s.originalPositions (i * 3 + j)).map (fun o =>
            o * particleScale (update sin PI rand now s g pos rot).expansionFactor
              + particleNoise rand (update sin PI rand now s g pos rot).expansionFactor i))
    ∧ (∀ o, s.originalPositions[i * 3 + j]? = some (some o) →
        (update sin PI rand now s g pos rot).positions[i * 3 + j]?
          = some (some
              (o * (0.2 + (update sin PI rand now s g pos rot).expansionFactor * 2.3)
                + particleNoise rand (update sin PI rand now s g pos rot).expansionFactor i)))
    ∧ |particleNoise rand (update sin PI rand now s g pos rot).expansionFactor i|
        ≤ |(update sin PI rand now s g pos rot).expansionFactor| * 0.05
    ∧ |particleNoise rand (update sin PI rand now s g pos rot).expansionFactor i|
        ≤ |(update sin PI rand now s g pos rot).expansionFactor| * 0.1
    ∧ (0 ≤ (update sin PI rand now s g pos rot).expansionFactor →
        |particleNoise rand (update sin PI rand now s g pos rot).expansionFactor i|
          ≤ (update sin PI rand now s g pos rot).expansionFactor * 0.1)
    ∧ ((update sin PI rand now s g pos rot).expansionFactor = 0 →
        particleNoise rand (update sin PI rand now s g pos rot).expansionFactor i = 0)
    ∧ (∀ a b : ℝ, particleScale a - particleScale b = 2.3 * (a - b))
    ∧ particleScale (0 : ℝ) = 0.2
    ∧ particleScale (1 : ℝ) = 2.5
    ∧ (∀ e : ℝ, 0 ≤ e → e ≤ 1 → 0.2 ≤ particleScale e ∧ particleScale e ≤ 2.5)
    ∧ (update sin PI rand now s g pos rot).originalPositions = s.originalPositions
    ∧ (update sin PI rand now s g pos rot).positions.length = s.particleCount * 3 := by
  have hcell := update_positions_cell sin PI rand now s g pos rot i j hs.2.1 hi hj
  have hnoise := abs_particleNoise_le rand (update sin PI rand now s g pos rot).expansionFactor
    i (hrand i)
  have habs : 0 ≤ |(update sin PI rand now s g pos rot).expansionFactor| := abs_nonneg _
  refine ⟨hcell, ?_, hnoise, by linarith, ?_, ?_, ?_, ?_, ?_, particleScale_range, rfl, ?_⟩
  · intro o ho
    rw [hcell]
    simp [readCell, ho, particleScale]
  · intro he
    rw [abs_of_nonneg he] at hnoise
    linarith
  · intro he
    simp [particleNoise, he]
  · intro a b
    unfold particleScale
    ring
  · unfold particleScale; norm_num
  · unfold particleScale; norm_num
  · have hpos : (update sin PI rand now s g pos rot).positions
        = (List.range s.particleCount).flatMap (fun i => pointCells
            (updatedPoint rand (update sin PI rand now s g pos rot).expansionFactor
              s.originalPositions i)) :=
      updatePositions_eq rand s.particleCount _ s.originalPositions s.positions hs.2.1
    rw [hpos, length_flatMap_pointCells]

/-- Witness of C9: the x coordinate of the sample system's point after one update with
openness 1. -/
theorem C9_update_scales_reference_positions_witness :
    (∀ k, 0 ≤ (sampleRand k : ℝ) ∧ (sampleRand k : ℝ) < 1)
    ∧ (sampleSystem : ParticleSystem ℝ).WellSized
    ∧ 0 < (sampleSystem : ParticleSystem ℝ).particleCount
    ∧ (0 : ℕ) < 3
    ∧ (update Real.sin Real.pi sampleRand 0 (sampleSystem : ParticleSystem ℝ) 1 none
        none).positions[0 * 3 + 0]?
        = some ((readCell (sampleSystem : ParticleSystem ℝ).originalPositions (0 * 3 + 0)).map
            (fun o =>
              o * particleScale (update Real.sin Real.pi sampleRand 0
                  (sampleSystem : ParticleSystem ℝ) 1 none none).expansionFactor
                + particleNoise sampleRand (update Real.sin Real.pi sampleRand 0
                    (sampleSystem : ParticleSystem ℝ) 1 none none).expansionFactor 0)) :=
  ⟨sampleRand_mem, sampleSystem_wellSized, by simp [sampleSystem], by norm_num,
    (C9_update_scales_reference_positions Real.sin Real.pi sampleRand 0 sampleSystem 1 none
      none 0 0 sampleRand_mem sampleSystem_wellSized (by simp [sampleSystem])
      (by norm_num)).1⟩

theorem update_sampleSystem_positions (rand : ℕ → ℝ) :
    (update Real.sin Real.pi rand 0 (sampleSystem : ParticleSystem ℝ) 1 none none).positions
      = [some (1 * particleScale 0.1 + particleNoise rand 0.1 0),
          some (2 * particleScale 0.1 + particleNoise rand 0.1 0),
          some (3 * particleScale 0.1 + particleNoise rand 0.1 0)] := by
  have he : (sampleSystem : ParticleSystem ℝ).expansionFactor
      + (1 - (sampleSystem : ParticleSystem ℝ).expansionFactor) * 0.1 = 0.1 := by
    simp [sampleSystem]
  simp only [update, he]
  rw [updatePositions_eq _ _ _ _ _ sampleSystem_wellSized.2.1]
  simp [sampleSystem, List.range_succ, pointCells, updatedPoint, readCell]

/-- C10, as stated, fails: on the sample system (reference point `(1, 2, 3)`, expansion
`0.1` after the step) no random stream makes two of the three offsets differ; with the
pairwise different draws `1/3, 1/4, 1/5, ...` the three offsets are all `-1/600`, the
perturbation built from the first draw. -/
theorem C10_offsets_of_a_point_coincide :
    (¬ ∃ rand : ℕ → ℝ, ∃ lx ly lz : ℝ,
        (update Real.sin Real.pi rand 0 (sampleSystem : ParticleSystem ℝ) 1 none
          none).positions = [some lx, some ly, some lz]
        ∧ (lx - 1 * particleScale 0.1 ≠ ly - 2 * particleScale 0.1
          ∨ ly - 2 * particleScale 0.1 ≠ lz - 3 * particleScale 0.1
          ∨ lx - 1 * particleScale 0.1 ≠ lz - 3 * particleScale 0.1))
    ∧ (update Real.sin Real.pi sampleRand 0 (sampleSystem : ParticleSystem ℝ) 1 none
        none).positions
        = [some (1 * particleScale 0.1 + -1 / 600), some (2 * particleScale 0.1 + -1 / 600),
            some (3 * particleScale 0.1 + -1 / 600)]
    ∧ (sampleRand 0 : ℝ) ≠ sampleRand 1 ∧ (sampleRand 1 : ℝ) ≠ sampleRand 2
    ∧ (sampleRand 0 : ℝ) ≠ sampleRand 2 := by
  refine ⟨?_, ?_, ?_, ?_, ?_⟩
  · rintro ⟨rand, lx, ly, lz, hpos, hne⟩
    rw [update_sampleSystem_positions] at hpos
    simp only [List.cons.injEq, Option.some.injEq, and_true] at hpos
    obtain ⟨hx, hy, hz⟩ := hpos
    subst hx hy hz
    rcases hne with h | h | h <;> exact h (by ring)
  · rw [update_sampleSystem_positions]
    have hn : particleNoise (sampleRand : ℕ → ℝ) 0.1 0 = -1 / 600 := by
      simp only [particleNoise, sampleRand]; norm_num
    rw [hn]
  · simp only [sampleRand]; norm_num
  · simp only [sampleRand]; norm_num
  · simp only [sampleRand]; norm_num

/-- C10, amended: the perturbation is per point, not per coordinate: `update` makes one
draw for point `i` (the `i`-th draw of the call) and adds the same `noise` to its three
coordinates, so the three offsets of a point are equal; the live positions depend on no
draw beyond the first `particleCount`. -/
theorem C10_one_noise_draw_per_point (sin : ℝ → ℝ) (PI : ℝ) (rand rand2 : ℕ → ℝ)
    (now : ℝ) (s : ParticleSystem ℝ) (g : ℝ) (pos : Option (Vec2 ℝ)) (rot : Option ℝ)
    (i : ℕ) (ox oy oz : ℝ) (hs : s.WellSized) (hi : i < s.particleCount)
    (hx : s.originalPositions[i * 3]? = some (some ox))
    (hy : s.originalPositions[i * 3 + 1]? = some (some oy))
    (hz : s.originalPositions[i * 3 + 2]? = some (some oz)) :
    ∃ lx ly lz : ℝ,
      (update sin PI rand now s g pos rot).positions[i * 3]? = some (some lx)
      ∧ (update sin PI rand now s g pos rot).positions[i * 3 + 1]? = some (some ly)
      ∧ (update sin PI rand now s g pos rot).positions[i * 3 + 2]? = some (some lz)
      ∧ lx - ox * particleScale (update sin PI rand now s g pos rot).expansionFactor
          = particleNoise rand (update sin PI rand now s g pos rot).expansionFactor i
      ∧ ly - oy * particleScale (update sin PI rand now s g pos rot).expansionFactor
          = particleNoise rand (update sin PI rand now s g pos rot).expansionFactor i
      ∧ lz - oz * particleScale (update sin PI rand now s g pos rot).expansionFactor
          = particleNoise rand (update sin PI rand now s g pos rot).expansionFactor i
      ∧ particleNoise rand (update sin PI rand now s g pos rot).expansionFactor i
          = (update sin PI rand now s g pos rot).expansionFactor * 0.1 * (rand i - 0.5)
      ∧ ((∀ k, k < s.particleCount → rand2 k = rand k) →
          (update sin PI rand2 now s g pos rot).positions
            = (update sin PI rand now s g pos rot).positions) := by
  have h0 := update_positions_cell sin PI rand now s g pos rot i 0 hs.2.1 hi (by norm_num)
  have h1 := update_positions_cell sin PI rand now s g pos rot i 1 hs.2.1 hi (by norm_num)
  have h2 := update_positions_cell sin PI rand now s g pos rot i 2 hs.2.1 hi (by norm_num)
  simp only [add_zero, readCell, hx, hy, hz, Option.join, Option.map_some', Option.bind,
    id] at h0 h1 h2
  refine ⟨_, _, _, h0, h1, h2, by ring, by ring, by ring, rfl, ?_⟩
  intro hagree
  have hp : ∀ r : ℕ → ℝ, (update sin PI r now s g pos rot).positions
      = (List.range s.particleCount).flatMap (fun i => pointCells
          (updatedPoint r (s.expansionFactor + (g - s.expansionFactor) * 0.1)
            s.originalPositions i)) :=
    fun r => updatePositions_eq r s.particleCount _ s.originalPositions s.positions hs.2.1
  rw [hp rand2, hp rand]
  simp only [List.flatMap]
  congr 1
  apply List.map_congr_left
  intro k hk
  have hk' : k < s.particleCount := List.mem_range.mp hk
  simp only [updatedPoint, particleNoise, hagree k hk']

/-- Witness of the amended C10 on the sample system's point `(1, 2, 3)`. -/
theorem C10_one_noise_draw_per_point_witness :
    (sampleSystem : ParticleSystem ℝ).WellSized
    ∧ 0 < (sampleSystem : ParticleSystem ℝ).particleCount
    ∧ (sampleSystem : ParticleSystem ℝ).originalPositions[0 * 3]? = some (some 1)
    ∧ (sampleSystem : ParticleSystem ℝ).originalPositions[0 * 3 + 1]? = some (some 2)
    ∧ (sampleSystem : ParticleSystem ℝ).originalPositions[0 * 3 + 2]? = some (some 3)
    ∧ ∃ lx ly lz : ℝ,
        (update Real.sin Real.pi sampleRand 0 (sampleSystem : ParticleSystem ℝ) 1 none
          none).positions[0 * 3]? = some (some lx)
        ∧ (update Real.sin Real.pi sampleRand 0 (sampleSystem : ParticleSystem ℝ) 1 none
          none).positions[0 * 3 + 1]? = some (some ly)
        ∧ (update Real.sin Real.pi sampleRand 0 (sampleSystem : ParticleSystem ℝ) 1 none
          none).positions[0 * 3 + 2]? = some (some lz)
        ∧ lx - 1 * particleScale (update Real.sin Real.pi sampleRand 0
              (sampleSystem : ParticleSystem ℝ) 1 none none).expansionFactor
            = ly - 2 * particleScale (update Real.sin Real.pi sampleRand 0
              (sampleSystem : ParticleSystem ℝ) 1 none none).expansionFactor :=
  ⟨sampleSystem_wellSized, by simp [sampleSystem], by simp [sampleSystem],
    by simp [sampleSystem], by simp [sampleSystem],
    match C10_one_noise_draw_per_point Real.sin Real.pi sampleRand sampleRand 0
        (sampleSystem : ParticleSystem ℝ) 1 none none 0 1 2 3 sampleSystem_wellSized
        (by simp [sampleSystem]) (by simp [sampleSystem]) (by simp [sampleSystem])
        (by simp [sampleSystem]) with
    | ⟨lx, ly, lz, h0, h1, h2, hx, hy, _⟩ => ⟨lx, ly, lz, h0, h1, h2, hx.trans hy.symm⟩⟩

end LivePositions


/-! ## Colours -/

section Colours

theorem updateColors_colors (rand : ℕ → ℝ) (s : ParticleSystem ℝ)
    (h : s.colors.length = s.particleCount * 3) :
    (updateColors rand s).colors
      = (List.range s.particleCount).flatMap (fun i => pointCells
          (some (s.baseColor.r + rand i * 0.2), some (s.baseColor.g + rand i * 0.2),
            some (s.baseColor.b + rand i * 0.2))) := by
  have key := foldl_storePoint (fun i =>
    (some (s.baseColor.r + rand i * 0.2), some (s.baseColor.g + rand i * 0.2),
      some (s.baseColor.b + rand i * 0.2))) s.particleCount s.colors (by omega)
  rw [← h, List.drop_length, List.append_nil] at key
  exact key

theorem updateColors_cells (rand : ℕ → ℝ) (s : ParticleSystem ℝ)
    (h : s.colors.length = s.particleCount * 3) (i : ℕ) (hi : i < s.particleCount) :
    (updateColors rand s).colors[i * 3]? = some (some (s.baseColor.r + rand i * 0.2))
    ∧ (updateColors rand s).colors[i * 3 + 1]? = some (some (s.baseColor.g + rand i * 0.2))
    ∧ (updateColors rand s).colors[i * 3 + 2]? = some (some (s.baseColor.b + rand i * 0.2)) := by
  rw [updateColors_colors rand s h]
  have h0 := getElem?_flatMap_pointCells (fun i =>
    (some (s.baseColor.r + rand i * 0.2), some (s.baseColor.g + rand i * 0.2),
      some (s.baseColor.b + rand i * 0.2))) s.particleCount i 0 hi (by omega)
  have h1 := getElem?_flatMap_pointCells (fun i =>
    (some (s.baseColor.r + rand i * 0.2), some (s.baseColor.g + rand i * 0.2),
      some (s.baseColor.b + rand i * 0.2))) s.particleCount i 1 hi (by omega)
  have h2 := getElem?_flatMap_pointCells (fun i =>
    (some (s.baseColor.r + rand i * 0.2), some (s.baseColor.g + rand i * 0.2),
      some (s.baseColor.b + rand i * 0.2))) s.particleCount i 2 hi (by omega)
  exact ⟨by simpa [pointCells] using h0, by simpa [pointCells] using h1,
    by simpa [pointCells] using h2⟩

theorem setColor_sampleSystem_colors (rand : ℕ → ℝ) :
    (setColor sampleColorSet rand (sampleSystem : ParticleSystem ℝ) "#ff0000").colors
      = [some (1 + rand 0 * 0.2), some (0 + rand 0 * 0.2), some (0 + rand 0 * 0.2)] := by
  unfold setColor
  rw [updateColors_colors rand
    { (sampleSystem : ParticleSystem ℝ) with
      baseColor := sampleColorSet (sampleSystem : ParticleSystem ℝ).baseColor "#ff0000" }
    sampleSystem_wellSized.2.2]
  simp [sampleSystem, sampleColorSet, List.range_succ, pointCells]

/-- C11, as stated, fails: on the sample system recoloured to red `(1, 0, 0)` no random
stream makes two of the three channel offsets of the point differ; with the pairwise
different draws `1/3, 1/4, 1/5, ...` the three offsets are all `1/15`, the jitter built
from the first draw. -/
theorem C11_channel_offsets_coincide :
    (¬ ∃ rand : ℕ → ℝ, ∃ cr cg cb : ℝ,
        (setColor sampleColorSet rand (sampleSystem : ParticleSystem ℝ) "#ff0000").colors
          = [some cr, some cg, some cb]
        ∧ (cr - 1 ≠ cg - 0 ∨ cg - 0 ≠ cb - 0 ∨ cr - 1 ≠ cb - 0))
    ∧ (setColor sampleColorSet sampleRand (sampleSystem : ParticleSystem ℝ) "#ff0000").baseColor
        = { r := 1, g := 0, b := 0 }
    ∧ (setColor sampleColorSet sampleRand (sampleSystem : ParticleSystem ℝ) "#ff0000").colors
        = [some (1 + 1 / 15), some (0 + 1 / 15), some (0 + 1 / 15)]
    ∧ (sampleRand 0 : ℝ) ≠ sampleRand 1 ∧ (sampleRand 1 : ℝ) ≠ sampleRand 2
    ∧ (sampleRand 0 : ℝ) ≠ sampleRand 2 := by
  refine ⟨?_, rfl, ?_, ?_, ?_, ?_⟩
  · rintro ⟨rand, cr, cg, cb, hcol, hne⟩
    rw [setColor_sampleSystem_colors] at hcol
    simp only [List.cons.injEq, Option.some.injEq, and_true] at hcol
    obtain ⟨hr, hg, hb⟩ := hcol
    subst hr hg hb
    rcases hne with h | h | h <;> exact h (by ring)
  · rw [setColor_sampleSystem_colors]
    have hm : (sampleRand 0 : ℝ) * 0.2 = 1 / 15 := by
      simp only [sampleRand]; norm_num
    rw [hm]
  · simp only [sampleRand]; norm_num
  · simp only [sampleRand]; norm_num
  · simp only [sampleRand]; norm_num

/-- C11, amended: `setColor` sets `baseColor` to the colour `Color.set` yields and
rewrites the colour of every point: each channel is the `baseColor` channel plus a jitter
in `[0, 0.2)` that is one draw per point, the same for the three channels (so the red,
green and blue offsets of a point are equal); the colours depend on no draw beyond the
first `particleCount`; positions, reference positions, expansion and rotation are
unchanged. -/
theorem C11_setColor_one_jitter_per_point (colorSet : Color ℝ → String → Color ℝ)
    (rand rand2 : ℕ → ℝ) (s : ParticleSystem ℝ) (hex : String) (i : ℕ)
    (hrand : ∀ k, 0 ≤ rand k ∧ rand k < 1) (hs : s.WellSized) (hi : i < s.particleCount) :
    (setColor colorSet rand s hex).baseColor = colorSet s.baseColor hex
    ∧ (setColor colorSet rand s hex).colors[i * 3]?
        = some (some ((colorSet s.baseColor hex).r + rand i * 0.2))
    ∧ (setColor colorSet rand s hex).colors[i * 3 + 1]?
        = some (some ((colorSet s.baseColor hex).g + rand i * 0.2))
    ∧ (setColor colorSet rand s hex).colors[i * 3 + 2]?
        = some (some ((colorSet s.baseColor hex).b + rand i * 0.2))
    ∧ 0 ≤ rand i * 0.2 ∧ rand i * 0.2 < 0.2
    ∧ (setColor colorSet rand s hex).colors.length = s.particleCount * 3
    ∧ ((∀ k, k < s.particleCount → rand2 k = rand k) →
        (setColor colorSet rand2 s hex).colors = (setColor colorSet rand s hex).colors)
    ∧ (setColor colorSet rand s hex).positions = s.positions
    ∧ (setColor colorSet rand s hex).originalPositions = s.originalPositions
    ∧ (setColor colorSet rand s hex).expansionFactor = s.expansionFactor
    ∧ (setColor colorSet rand s hex).rotation = s.rotation
    ∧ (setColor colorSet rand s hex).currentPattern = s.currentPattern
    ∧ (setColor colorSet rand s hex).particleCount = s.particleCount := by
  have hc : ({ s with baseColor := colorSet s.baseColor hex } : ParticleSystem ℝ).colors.length
      = ({ s with baseColor := colorSet s.baseColor hex } : ParticleSystem ℝ).particleCount * 3 :=
    hs.2.2
  have hcells := updateColors_cells rand { s with baseColor := colorSet s.baseColor hex } hc i hi
  have hcol : ∀ r : ℕ → ℝ, (setColor colorSet r s hex).colors
      = (List.range s.particleCount).flatMap (fun i => pointCells
          (some ((colorSet s.baseColor hex).r + r i * 0.2),
            some ((colorSet s.baseColor hex).g + r i * 0.2),
            some ((colorSet s.baseColor hex).b + r i * 0.2))) :=
    fun r => updateColors_colors r { s with baseColor := colorSet s.baseColor hex } hc
  refine ⟨rfl, hcells.1, hcells.2.1, hcells.2.2, ?_, ?_, ?_, ?_, rfl, rfl, rfl, rfl, rfl, rfl⟩
  · have := (hrand i).1
    positivity
  · have := (hrand i).2
    linarith
  · rw [hcol rand, length_flatMap_pointCells]
  · intro hagree
    rw [hcol rand2, hcol rand]
    simp only [List.flatMap]
    congr 1
    apply List.map_congr_left
    intro k hk
    rw [hagree k (List.mem_range.mp hk)]

/-- Witness of the amended C11: recolouring the sample system to red. -/
theorem C11_setColor_one_jitter_per_point_witness :
    (∀ k, 0 ≤ (sampleRand k : ℝ) ∧ (sampleRand k : ℝ) < 1)
    ∧ (sampleSystem : ParticleSystem ℝ).WellSized
    ∧ 0 < (sampleSystem : ParticleSystem ℝ).particleCount
    ∧ (setColor sampleColorSet sampleRand (sampleSystem : ParticleSystem ℝ)
        "#ff0000").colors[0 * 3]?
        = some (some ((sampleColorSet (sampleSystem : ParticleSystem ℝ).baseColor "#ff0000").r
            + sampleRand 0 * 0.2))
    ∧ (setColor sampleColorSet sampleRand (sampleSystem : ParticleSystem ℝ)
        "#ff0000").colors[0 * 3 + 1]?
        = some (some ((sampleColorSet (sampleSystem : ParticleSystem ℝ).baseColor "#ff0000").g
            + sampleRand 0 * 0.2)) :=
  ⟨sampleRand_mem, sampleSystem_wellSized, by simp [sampleSystem],
    (C11_setColor_one_jitter_per_point sampleColorSet sampleRand sampleRand sampleSystem
      "#ff0000" 0 sampleRand_mem sampleSystem_wellSized (by simp [sampleSystem])).2.1,
    (C11_setColor_one_jitter_per_point sampleColorSet sampleRand sampleRand sampleSystem
      "#ff0000" 0 sampleRand_mem sampleSystem_wellSized (by simp [sampleSystem])).2.2.1⟩

end Colours


/-! ## Runs of updates -/

section Runs

/-- A quantity that every update of a run moves toward `T` by the factor `c` is, after
the run, at `c ^ n` times its initial offset from `T`. -/
theorem runUpdates_track (sin : ℝ → ℝ) (PI : ℝ) (proj : ParticleSystem ℝ → ℝ) (c T : ℝ)
    (P : Tick ℝ → Prop)
    (hstep : ∀ (s : ParticleSystem ℝ) (tk : Tick ℝ), P tk →
      proj (update sin PI tk.rand tk.now s tk.gestureValue tk.handPosition tk.handRotation) - T
        = c * (proj s - T))
    (ticks : List (Tick ℝ)) :
    ∀ s : ParticleSystem ℝ, (∀ tk ∈ ticks, P tk) →
      proj (runUpdates sin PI s ticks) - T = c ^ ticks.length * (proj s - T) := by
  induction ticks with
  | nil => intro s _; simp [runUpdates]
  | cons tk rest ih =>
    intro s h
    have hfold : runUpdates sin PI s (tk :: rest)
        = runUpdates sin PI (update sin PI tk.rand tk.now s tk.gestureValue tk.handPosition
            tk.handRotation) rest := rfl
    rw [hfold, ih _ (fun x hx => h x (List.mem_cons_of_mem _ hx)),
      hstep s tk (h tk (List.mem_cons_self _ _)), List.length_cons, pow_succ]
    ring

theorem update_rotation_hand (sin : ℝ → ℝ) (PI : ℝ) (rand : ℕ → ℝ) (now : ℝ)
    (s : ParticleSystem ℝ) (g : ℝ) (hp : Vec2 ℝ) (rot : Option ℝ) :
    (update sin PI rand now s g (some hp) rot).rotation.y
        = s.rotation.y + ((hp.x - 0.5) * PI * 4 - s.rotation.y) * 0.1
    ∧ (update sin PI rand now s g (some hp) rot).rotation.x
        = s.rotation.x + ((hp.y - 0.5) * PI * 4 - s.rotation.x) * 0.1 := by
  cases rot <;> exact ⟨rfl, rfl⟩

theorem update_rotation_roll (sin : ℝ → ℝ) (PI : ℝ) (rand : ℕ → ℝ) (now : ℝ)
    (s : ParticleSystem ℝ) (g : ℝ) (hp : Vec2 ℝ) (r : ℝ) :
    (update sin PI rand now s g (some hp) (some r)).rotation.z
      = s.rotation.z + (r + PI / 2 - s.rotation.z) * 0.1 := rfl

theorem update_rotation_idle (sin : ℝ → ℝ) (PI : ℝ) (rand : ℕ → ℝ) (now : ℝ)
    (s : ParticleSystem ℝ) (g : ℝ) (rot : Option ℝ) :
    (update sin PI rand now s g none rot).rotation
      = { x := sin (now * 0.001) * 0.1, y := s.rotation.y + 0.002,
          z := s.rotation.z * 0.95 } := rfl

theorem pow_small_of_lt_one (c a ε : ℝ) (hc0 : 0 ≤ c) (hc1 : c < 1) (hε : 0 < ε) :
    ∃ K : ℕ, ∀ n : ℕ, K ≤ n → c ^ n * a < ε := by
  have hpos : 0 < ε / (|a| + 1) := div_pos hε (by positivity)
  obtain ⟨K, hK⟩ := exists_pow_lt_of_lt_one hpos hc1
  refine ⟨K, fun n hn => ?_⟩
  have h1 : c ^ n ≤ c ^ K := pow_le_pow_of_le_one hc0 hc1.le hn
  have h2 : 0 ≤ c ^ n := pow_nonneg hc0 n
  have h3 : c ^ n < ε / (|a| + 1) := lt_of_le_of_lt h1 hK
  have h4 : 0 < |a| + 1 := by positivity
  have h5 : c ^ n * (|a| + 1) < ε := (lt_div_iff₀ h4).mp h3
  have h6 : a ≤ |a| := le_abs_self a
  nlinarith [mul_le_mul_of_nonneg_left h6 h2]

/-- C12: under a repeated absent sample (target 0, what the frame loop passes when no
hand is present) the expansion after `n` updates is `e0 * 0.9 ^ n`; for every `ε > 0`
there is a `K` such that after any `n ≥ K` such updates `|expansion| < ε`; and the
expansion `0` is a fixed point of the absent-sample update. -/
theorem C12_absent_sample_converges_to_zero (sin : ℝ → ℝ) (PI : ℝ) (s : ParticleSystem ℝ)
    (ε : ℝ) (hε : 0 < ε) :
    (∀ ticks : List (Tick ℝ), (∀ tk ∈ ticks, tk.gestureValue = 0) →
        (runUpdates sin PI s ticks).expansionFactor
          = s.expansionFactor * 0.9 ^ ticks.length)
    ∧ (∃ K : ℕ, ∀ ticks : List (Tick ℝ), (∀ tk ∈ ticks, tk.gestureValue = 0) →
        K ≤ ticks.length → |(runUpdates sin PI s ticks).expansionFactor| < ε)
    ∧ (∀ (rand : ℕ → ℝ) (now : ℝ) (pos : Option (Vec2 ℝ)) (rot : Option ℝ),
        (update sin PI rand now { s with expansionFactor := 0 } 0 pos rot).expansionFactor
          = 0)
    ∧ (∀ (rand : ℕ → ℝ) (now : ℝ) (ht : HandTracker ℝ),
        animate sin PI rand now { ht with isHandPresent := false } s
          = update sin PI rand now s 0 none (some 0)) := by
  have hclosed : ∀ ticks : List (Tick ℝ), (∀ tk ∈ ticks, tk.gestureValue = 0) →
      (runUpdates sin PI s ticks).expansionFactor
        = s.expansionFactor * 0.9 ^ ticks.length := by
    intro ticks h
    have := runUpdates_expansion_sub sin PI 0 ticks s h
    simp only [sub_zero] at this
    rw [this]; ring
  refine ⟨hclosed, ?_, ?_, ?_⟩
  · obtain ⟨K, hK⟩ := pow_small_of_lt_one 0.9 |s.expansionFactor| ε (by norm_num)
      (by norm_num) hε
    refine ⟨K, fun ticks h hlen => ?_⟩
    rw [hclosed ticks h, abs_mul, abs_of_pos (by positivity : (0 : ℝ) < 0.9 ^ ticks.length),
      mul_comm]
    exact hK _ hlen
  · intro rand now pos rot
    rw [update_expansionFactor]; norm_num
  · intro rand now ht
    simp [animate]

/-- Witness of C12: the sample system with `ε = 1/2`. -/
theorem C12_absent_sample_converges_to_zero_witness :
    (0 : ℝ) < 1 / 2
    ∧ ∃ K : ℕ, ∀ ticks : List (Tick ℝ), (∀ tk ∈ ticks, tk.gestureValue = 0) →
        K ≤ ticks.length →
        |(runUpdates Real.sin Real.pi (sampleSystem : ParticleSystem ℝ) ticks).expansionFactor|
          < 1 / 2 :=
  ⟨by norm_num,
    (C12_absent_sample_converges_to_zero Real.sin Real.pi sampleSystem (1 / 2)
      (by norm_num)).2.1⟩

end Runs


/-! ## Construction -/

section Construction

theorem init_normal (cbrt sin cos acos : ℝ → ℝ) (PI : ℝ) (rand : ℕ → ℝ)
    (s : ParticleSystem ℝ) (ho : s.originalPositions.length = s.particleCount * 3) :
    init cbrt sin cos acos PI rand s
      = .normal (updateColors (fun j => rand (drawsPerPoint "sphere" * s.particleCount + j))
          { s with
            currentPattern := "sphere"
            originalPositions :=
              generatedCells cbrt sin cos acos PI "sphere" rand s.particleCount
            positions := generatedCells cbrt sin cos acos PI "sphere" rand s.particleCount
            colors := List.replicate (s.particleCount * 3) (some 0)
            rotation := { x := 0, y := 0, z := 0 } }) := by
  have hz : (List.replicate (s.particleCount * 3) (some (0 : ℝ))).length
      = s.particleCount * 3 := List.length_replicate _ _
  simp only [init]
  rw [generatePattern_some cbrt sin cos acos PI rand s "sphere" _ hz]
  simp only
  rw [typedSet_same_length _ _ (by rw [length_generatedCells, ho]), generateLoop_eq]

theorem init_facts (cbrt sin cos acos : ℝ → ℝ) (PI : ℝ) (rand : ℕ → ℝ)
    (s : ParticleSystem ℝ) (ho : s.originalPositions.length = s.particleCount * 3) :
    ∃ s0, init cbrt sin cos acos PI rand s = .normal s0
      ∧ s0.expansionFactor = s.expansionFactor
      ∧ s0.rotation = { x := 0, y := 0, z := 0 }
      ∧ s0.particleCount = s.particleCount
      ∧ s0.baseColor = s.baseColor
      ∧ s0.currentPattern = "sphere"
      ∧ s0.WellSized := by
  refine ⟨_, init_normal cbrt sin cos acos PI rand s ho, rfl, rfl, rfl, rfl, rfl, ?_⟩
  refine ⟨length_generatedCells _ _ _ _ _ _ _ _, length_generatedCells _ _ _ _ _ _ _ _, ?_⟩
  rw [updateColors_colors _ _ (List.length_replicate _ _)]
  exact length_flatMap_pointCells _ _

theorem constructor_facts (cbrt sin cos acos : ℝ → ℝ) (PI : ℝ)
    (newColor : String → Color ℝ) (rand : ℕ → ℝ) :
    ∃ s0, constructor cbrt sin cos acos PI newColor rand = .normal s0
      ∧ s0.expansionFactor = 0
      ∧ s0.rotation = { x := 0, y := 0, z := 0 }
      ∧ s0.particleCount = 15000
      ∧ s0.baseColor = newColor "#00ffff"
      ∧ s0.currentPattern = "sphere"
      ∧ s0.WellSized :=
  init_facts cbrt sin cos acos PI rand _ (List.length_replicate _ _)

theorem runUpdates_yaw (sin : ℝ → ℝ) (PI : ℝ) (hp : Vec2 ℝ) (ticks : List (Tick ℝ))
    (s : ParticleSystem ℝ) (h : ∀ tk ∈ ticks, tk.handPosition = some hp) :
    (runUpdates sin PI s ticks).rotation.y - (hp.x - 0.5) * PI * 4
      = 0.9 ^ ticks.length * (s.rotation.y - (hp.x - 0.5) * PI * 4) := by
  refine runUpdates_track sin PI (fun s => s.rotation.y) 0.9 _
    (fun tk => tk.handPosition = some hp) ?_ ticks s h
  intro s tk htk
  simp only [htk, (update_rotation_hand sin PI tk.rand tk.now s tk.gestureValue hp
    tk.handRotation).1]
  ring

theorem runUpdates_pitch (sin : ℝ → ℝ) (PI : ℝ) (hp : Vec2 ℝ) (ticks : List (Tick ℝ))
    (s : ParticleSystem ℝ) (h : ∀ tk ∈ ticks, tk.handPosition = some hp) :
    (runUpdates sin PI s ticks).rotation.x - (hp.y - 0.5) * PI * 4
      = 0.9 ^ ticks.length * (s.rotation.x - (hp.y - 0.5) * PI * 4) := by
  refine runUpdates_track sin PI (fun s => s.rotation.x) 0.9 _
    (fun tk => tk.handPosition = some hp) ?_ ticks s h
  intro s tk htk
  simp only [htk, (update_rotation_hand sin PI tk.rand tk.now s tk.gestureValue hp
    tk.handRotation).2]
  ring

/-- C13: the constructed system has expansion 0 and rotation 0; after 50 updates with
openness 1, position `(0.5, 0.5)` and roll 0 its expansion is `1 - 0.9 ^ 50`, above
`0.98`, the scale `0.2 + expansion * 2.3` lies between `2.45` and `2.5`, and yaw
(`rotation.y`) and pitch (`rotation.x`) are still 0. -/
theorem C13_fifty_open_updates (cbrt : ℝ → ℝ) (newColor : String → Color ℝ)
    (rand : ℕ → ℝ) (ticks : List (Tick ℝ)) (hlen : ticks.length = 50)
    (hticks : ∀ tk ∈ ticks, tk.gestureValue = 1
      ∧ tk.handPosition = some { x := 0.5, y := 0.5 } ∧ tk.handRotation = some 0) :
    ∃ s0, constructor cbrt Real.sin Real.cos Real.arccos Real.pi newColor rand = .normal s0
      ∧ s0.expansionFactor = 0
      ∧ s0.rotation = { x := 0, y := 0, z := 0 }
      ∧ (runUpdates Real.sin Real.pi s0 ticks).expansionFactor = 1 - 0.9 ^ 50
      ∧ 0.98 < (runUpdates Real.sin Real.pi s0 ticks).expansionFactor
      ∧ particleScale (runUpdates Real.sin Real.pi s0 ticks).expansionFactor
          = 0.2 + (runUpdates Real.sin Real.pi s0 ticks).expansionFactor * 2.3
      ∧ 2.45 < particleScale (runUpdates Real.sin Real.pi s0 ticks).expansionFactor
      ∧ particleScale (runUpdates Real.sin Real.pi s0 ticks).expansionFactor < 2.5
      ∧ (runUpdates Real.sin Real.pi s0 ticks).rotation.y = 0
      ∧ (runUpdates Real.sin Real.pi s0 ticks).rotation.x = 0 := by
  obtain ⟨s0, hs0, he, hr, _⟩ :=
    constructor_facts cbrt Real.sin Real.cos Real.arccos Real.pi newColor rand
  have hexp : (runUpdates Real.sin Real.pi s0 ticks).expansionFactor = 1 - 0.9 ^ 50 := by
    have := runUpdates_expansion_sub Real.sin Real.pi 1 ticks s0 (fun x hx => (hticks x hx).1)
    rw [he, hlen] at this
    linarith
  have hyaw := runUpdates_yaw Real.sin Real.pi { x := 0.5, y := 0.5 } ticks s0
    (fun x hx => (hticks x hx).2.1)
  have hpitch := runUpdates_pitch Real.sin Real.pi { x := 0.5, y := 0.5 } ticks s0
    (fun x hx => (hticks x hx).2.1)
  simp only [hr, sub_self, zero_mul, sub_zero, mul_zero] at hyaw hpitch
  refine ⟨s0, hs0, he, hr, hexp, ?_, rfl, ?_, ?_, hyaw, hpitch⟩
  · rw [hexp]; norm_num
  · rw [hexp]; unfold particleScale; norm_num
  · rw [hexp]; unfold particleScale; norm_num

/-- Witness of C13: fifty copies of the open-hand tick. -/
theorem C13_fifty_open_updates_witness :
    (List.replicate 50 (openTick : Tick ℝ)).length = 50
    ∧ (∀ tk ∈ List.replicate 50 (openTick : Tick ℝ), tk.gestureValue = 1
        ∧ tk.handPosition = some { x := 0.5, y := 0.5 } ∧ tk.handRotation = some 0)
    ∧ ∃ s0, constructor (fun u => u ^ ((1 : ℝ) / 3)) Real.sin Real.cos Real.arccos Real.pi
          sampleNewColor sampleRand = .normal s0
        ∧ 0.98 < (runUpdates Real.sin Real.pi s0
            (List.replicate 50 (openTick : Tick ℝ))).expansionFactor :=
  have hlen : (List.replicate 50 (openTick : Tick ℝ)).length = 50 := List.length_replicate _ _
  have hticks : ∀ tk ∈ List.replicate 50 (openTick : Tick ℝ), tk.gestureValue = 1
      ∧ tk.handPosition = some { x := 0.5, y := 0.5 } ∧ tk.handRotation = some 0 := by
    intro tk htk
    rw [List.eq_of_mem_replicate htk]
    exact ⟨rfl, rfl, rfl⟩
  ⟨hlen, hticks,
    match C13_fifty_open_updates (fun u => u ^ ((1 : ℝ) / 3)) sampleNewColor sampleRand
        (List.replicate 50 (openTick : Tick ℝ)) hlen hticks with
    | ⟨s0, h0, _, _, _, hgt, _⟩ => ⟨s0, h0, hgt⟩⟩

end Construction


/-! ## Rotation -/

section Rotation

theorem arg_straight_up (dx dy : ℝ) (hx : dx = 0) (hy : dy < 0) :
    Complex.arg { re := dx, im := dy } = -(Real.pi / 2) :=
  Complex.arg_eq_neg_pi_div_two_iff.mpr ⟨hx, hy⟩

/-- C14: with a hand position and a roll `r` supplied, `rotation.z` becomes
`z + (r + π/2 - z) * 0.1`; from `z = 0` with `r = 0` one tick gives `0.1 * (π/2)`; for an
upright hand (index-finger base straight above the wrist on screen) `processResults`
stores the roll `atan2(dy, dx) = -π/2`, so the target roll of the next frame is 0. -/
theorem C14_roll_smoothing (rand : ℕ → ℝ) (now : ℝ) (s : ParticleSystem ℝ) (g : ℝ)
    (hp : Vec2 ℝ) (r : ℝ) (ht : HandTracker ℝ) (hand : List (Landmark ℝ))
    (rest : List (List (Landmark ℝ))) (hlen : hand.length = 21)
    (hx : hand[5].x = hand[0].x) (hy : hand[5].y < hand[0].y) :
    (update Real.sin Real.pi rand now s g (some hp) (some r)).rotation.z
        = s.rotation.z + (r + Real.pi / 2 - s.rotation.z) * 0.1
    ∧ (update Real.sin Real.pi rand now { s with rotation := { s.rotation with z := 0 } } g
        (some hp) (some 0)).rotation.z = 0.1 * (Real.pi / 2)
    ∧ (processResults Real.sqrt (fun y x => Complex.arg { re := x, im := y }) ht
        { landmarks := some (hand :: rest) }).state.handRotation = -(Real.pi / 2)
    ∧ (processResults Real.sqrt (fun y x => Complex.arg { re := x, im := y }) ht
        { landmarks := some (hand :: rest) }).state.handRotation + Real.pi / 2 = 0
    ∧ (animate Real.sin Real.pi rand now
        (processResults Real.sqrt (fun y x => Complex.arg { re := x, im := y }) ht
          { landmarks := some (hand :: rest) }).state s).rotation.z
        = s.rotation.z + (0 - s.rotation.z) * 0.1 := by
  have hroll : (processResults Real.sqrt (fun y x => Complex.arg { re := x, im := y }) ht
      { landmarks := some (hand :: rest) }).state.handRotation = -(Real.pi / 2) := by
    rw [processResults_long _ _ _ _ _ (by omega)]
    exact arg_straight_up _ _ (by rw [hx]; ring) (by linarith)
  have hpresent : (processResults Real.sqrt (fun y x => Complex.arg { re := x, im := y }) ht
      { landmarks := some (hand :: rest) }).state.isHandPresent = true := by
    rw [processResults_long _ _ _ _ _ (by omega)]; rfl
  refine ⟨rfl, ?_, hroll, by rw [hroll]; ring, ?_⟩
  · rw [update_rotation_roll]; simp only; ring
  · simp only [animate, hpresent, if_true, update_rotation_roll, hroll]
    ring

/-- Witness of C14: the upright sample hand. -/
theorem C14_roll_smoothing_witness :
    (uprightHand : List (Landmark ℝ)).length = 21
    ∧ (processResults Real.sqrt (fun y x => Complex.arg { re := x, im := y })
        (initialTracker : HandTracker ℝ)
        { landmarks := some [uprightHand] }).state.handRotation = -(Real.pi / 2)
    ∧ (update Real.sin Real.pi sampleRand 0 (sampleSystem : ParticleSystem ℝ) 1
        (some { x := 0.5, y := 0.5 }) (some 0)).rotation.z
        = (sampleSystem : ParticleSystem ℝ).rotation.z
          + (0 + Real.pi / 2 - (sampleSystem : ParticleSystem ℝ).rotation.z) * 0.1 :=
  have hlen : (uprightHand : List (Landmark ℝ)).length = 21 := by simp [uprightHand]
  ⟨hlen,
    (C14_roll_smoothing sampleRand 0 sampleSystem 1 { x := 0.5, y := 0.5 } 0 initialTracker
      uprightHand [] hlen (by simp [uprightHand]) (by simp [uprightHand]; norm_num)).2.2.1,
    (C14_roll_smoothing sampleRand 0 sampleSystem 1 { x := 0.5, y := 0.5 } 0 initialTracker
      uprightHand [] hlen (by simp [uprightHand]) (by simp [uprightHand]; norm_num)).1⟩

theorem abs_sign_of_scaled (c d v : ℝ) (hc : 0 < c) (h : v = c * d) :
    |v| = c * |d| ∧ SignType.sign v = SignType.sign d := by
  subst h
  exact ⟨by rw [abs_mul, abs_of_pos hc], by rw [sign_mul, sign_pos hc, one_mul]⟩

theorem runUpdates_idle_roll (sin : ℝ → ℝ) (PI : ℝ) (ticks : List (Tick ℝ))
    (s : ParticleSystem ℝ) (h : ∀ tk ∈ ticks, tk.handPosition = none) :
    (runUpdates sin PI s ticks).rotation.z = 0.95 ^ ticks.length * s.rotation.z := by
  have key := runUpdates_track sin PI (fun s => s.rotation.z) 0.95 0
    (fun tk => tk.handPosition = none) (by
      intro s tk htk
      simp only [htk, update_rotation_idle]
      ring) ticks s h
  simpa using key

/-- C18, as stated, fails: on a system whose roll is 0 (the sample system, like every
freshly constructed one) an idle frame leaves the roll at 0, so its magnitude does not
strictly decrease. -/
theorem C18_zero_roll_does_not_decrease :
    (initialTracker : HandTracker ℝ).isHandPresent = false
    ∧ (sampleSystem : ParticleSystem ℝ).rotation.z = 0
    ∧ (animate Real.sin Real.pi sampleRand 0 (initialTracker : HandTracker ℝ)
        (sampleSystem : ParticleSystem ℝ)).rotation.z = 0
    ∧ ¬ |(animate Real.sin Real.pi sampleRand 0 (initialTracker : HandTracker ℝ)
          (sampleSystem : ParticleSystem ℝ)).rotation.z|
        < |(sampleSystem : ParticleSystem ℝ).rotation.z| := by
  have hz : (animate Real.sin Real.pi sampleRand 0 (initialTracker : HandTracker ℝ)
      (sampleSystem : ParticleSystem ℝ)).rotation.z = 0 := by
    simp [animate, initialTracker, update_rotation_idle, sampleSystem]
  refine ⟨rfl, rfl, hz, ?_⟩
  rw [hz]
  simp [sampleSystem]

/-- C18, amended: with no position supplied, yaw increases by `0.002`, pitch is set to
`0.1 * sin(0.001 * t)` (so `|pitch| ≤ 0.1`) and roll is multiplied by `0.95`; after `n`
idle frames roll is `0.95 ^ n` times its starting value, it never changes sign, its
magnitude tends to 0, and it strictly decreases when the starting roll is not 0 (a roll
of 0 stays 0). -/
theorem C18_idle_rotation (rand : ℕ → ℝ) (now : ℝ) (s : ParticleSystem ℝ) (g : ℝ)
    (rot : Option ℝ) (ticks : List (Tick ℝ)) (tk : Tick ℝ)
    (hticks : ∀ x ∈ ticks, x.handPosition = none) (htk : tk.handPosition = none) :
    (update Real.sin Real.pi rand now s g none rot).rotation.y = s.rotation.y + 0.002
    ∧ (update Real.sin Real.pi rand now s g none rot).rotation.x
        = 0.1 * Real.sin (0.001 * now)
    ∧ |(update Real.sin Real.pi rand now s g none rot).rotation.x| ≤ 0.1
    ∧ (update Real.sin Real.pi rand now s g none rot).rotation.z = s.rotation.z * 0.95
    ∧ (runUpdates Real.sin Real.pi s ticks).rotation.z = 0.95 ^ ticks.length * s.rotation.z
    ∧ |(runUpdates Real.sin Real.pi s ticks).rotation.z|
        = 0.95 ^ ticks.length * |s.rotation.z|
    ∧ SignType.sign (runUpdates Real.sin Real.pi s ticks).rotation.z
        = SignType.sign s.rotation.z
    ∧ |(runUpdates Real.sin Real.pi s (ticks ++ [tk])).rotation.z|
        = 0.95 * |(runUpdates Real.sin Real.pi s ticks).rotation.z|
    ∧ (s.rotation.z ≠ 0 →
        |(runUpdates Real.sin Real.pi s (ticks ++ [tk])).rotation.z|
          < |(runUpdates Real.sin Real.pi s ticks).rotation.z|)
    ∧ (s.rotation.z = 0 → (runUpdates Real.sin Real.pi s ticks).rotation.z = 0)
    ∧ (∀ ε : ℝ, 0 < ε → ∃ K : ℕ, ∀ idle : List (Tick ℝ),
        (∀ x ∈ idle, x.handPosition = none) → K ≤ idle.length →
        |(runUpdates Real.sin Real.pi s idle).rotation.z| < ε) := by
  have hrun := runUpdates_idle_roll Real.sin Real.pi ticks s hticks
  have hpow : (0 : ℝ) < 0.95 ^ ticks.length := by positivity
  have hnext : (runUpdates Real.sin Real.pi s (ticks ++ [tk])).rotation.z
      = 0.95 * (runUpdates Real.sin Real.pi s ticks).rotation.z := by
    rw [runUpdates_append, htk, update_rotation_idle]; simp only; ring
  have habs := (abs_sign_of_scaled _ _ _ hpow hrun).1
  have hnabs := (abs_sign_of_scaled _ _ _ (by norm_num : (0 : ℝ) < 0.95) hnext).1
  refine ⟨rfl, ?_, ?_, rfl, hrun, habs, (abs_sign_of_scaled _ _ _ hpow hrun).2, hnabs,
    ?_, ?_, ?_⟩
  · rw [update_rotation_idle]; simp only; ring_nf
  · rw [update_rotation_idle]; simp only
    rw [abs_mul, abs_of_pos (by norm_num : (0 : ℝ) < 0.1)]
    have := Real.abs_sin_le_one (now * 0.001)
    linarith
  · intro hz
    rw [hnabs]
    have h0 : 0 < |(runUpdates Real.sin Real.pi s ticks).rotation.z| := by
      rw [habs]; exact mul_pos hpow (abs_pos.mpr hz)
    linarith
  · intro hz
    rw [hrun, hz, mul_zero]
  · intro ε hε
    obtain ⟨K, hK⟩ := pow_small_of_lt_one 0.95 |s.rotation.z| ε (by norm_num)
      (by norm_num) hε
    refine ⟨K, fun idle hidle hlen => ?_⟩
    have h1 := runUpdates_idle_roll Real.sin Real.pi idle s hidle
    rw [(abs_sign_of_scaled _ _ _ (by positivity : (0 : ℝ) < 0.95 ^ idle.length) h1).1]
    exact hK _ hlen

/-- Witness of the amended C18: two idle ticks on the sample system. -/
theorem C18_idle_rotation_witness :
    (∀ x ∈ [(idleTick : Tick ℝ)], x.handPosition = none)
    ∧ (idleTick : Tick ℝ).handPosition = none
    ∧ (runUpdates Real.sin Real.pi (sampleSystem : ParticleSystem ℝ) [idleTick]).rotation.z
        = 0.95 ^ [(idleTick : Tick ℝ)].length * (sampleSystem : ParticleSystem ℝ).rotation.z :=
  ⟨by simp [idleTick], rfl,
    (C18_idle_rotation sampleRand 0 sampleSystem 0 none [idleTick] idleTick
      (by simp [idleTick]) rfl).2.2.2.2.1⟩

/-- C20, as stated, fails: from rotation 0 the position `(0, 0)` moves yaw and pitch
toward `-2π` (one tick gives `(-2π) * 0.1`), not toward `-π` and `-π/2`, and the
position `(1, 1)` moves them toward `2π`, not toward `π` and `π/2`. -/
theorem C20_position_targets_are_two_pi :
    (sampleSystem : ParticleSystem ℝ).rotation = { x := 0, y := 0, z := 0 }
    ∧ (update Real.sin Real.pi sampleRand 0 (sampleSystem : ParticleSystem ℝ) 0
        (some { x := 0, y := 0 }) none).rotation.y = 0 + (-(2 * Real.pi) - 0) * 0.1
    ∧ (update Real.sin Real.pi sampleRand 0 (sampleSystem : ParticleSystem ℝ) 0
        (some { x := 0, y := 0 }) none).rotation.y ≠ 0 + (-Real.pi - 0) * 0.1
    ∧ (update Real.sin Real.pi sampleRand 0 (sampleSystem : ParticleSystem ℝ) 0
        (some { x := 0, y := 0 }) none).rotation.x = 0 + (-(2 * Real.pi) - 0) * 0.1
    ∧ (update Real.sin Real.pi sampleRand 0 (sampleSystem : ParticleSystem ℝ) 0
        (some { x := 0, y := 0 }) none).rotation.x ≠ 0 + (-(Real.pi / 2) - 0) * 0.1
    ∧ (update Real.sin Real.pi sampleRand 0 (sampleSystem : ParticleSystem ℝ) 0
        (some { x := 1, y := 1 }) none).rotation.y = 0 + (2 * Real.pi - 0) * 0.1
    ∧ (update Real.sin Real.pi sampleRand 0 (sampleSystem : ParticleSystem ℝ) 0
        (some { x := 1, y := 1 }) none).rotation.y ≠ 0 + (Real.pi - 0) * 0.1
    ∧ (update Real.sin Real.pi sampleRand 0 (sampleSystem : ParticleSystem ℝ) 0
        (some { x := 1, y := 1 }) none).rotation.x = 0 + (2 * Real.pi - 0) * 0.1
    ∧ (update Real.sin Real.pi sampleRand 0 (sampleSystem : ParticleSystem ℝ) 0
        (some { x := 1, y := 1 }) none).rotation.x ≠ 0 + (Real.pi / 2 - 0) * 0.1 := by
  have hpi := Real.pi_pos
  have h00 := update_rotation_hand Real.sin Real.pi sampleRand 0
    (sampleSystem : ParticleSystem ℝ) 0 { x := 0, y := 0 } none
  have h11 := update_rotation_hand Real.sin Real.pi sampleRand 0
    (sampleSystem : ParticleSystem ℝ) 0 { x := 1, y := 1 } none
  have hr : (sampleSystem : ParticleSystem ℝ).rotation = { x := 0, y := 0, z := 0 } := rfl
  simp only [hr] at h00 h11
  have a1 : (update Real.sin Real.pi sampleRand 0 (sampleSystem : ParticleSystem ℝ) 0
      (some { x := 0, y := 0 }) none).rotation.y = 0 + (-(2 * Real.pi) - 0) * 0.1 := by
    rw [h00.1]; ring
  have a2 : (update Real.sin Real.pi sampleRand 0 (sampleSystem : ParticleSystem ℝ) 0
      (some { x := 0, y := 0 }) none).rotation.x = 0 + (-(2 * Real.pi) - 0) * 0.1 := by
    rw [h00.2]; ring
  have a3 : (update Real.sin Real.pi sampleRand 0 (sampleSystem : ParticleSystem ℝ) 0
      (some { x := 1, y := 1 }) none).rotation.y = 0 + (2 * Real.pi - 0) * 0.1 := by
    rw [h11.1]; ring
  have a4 : (update Real.sin Real.pi sampleRand 0 (sampleSystem : ParticleSystem ℝ) 0
      (some { x := 1, y := 1 }) none).rotation.x = 0 + (2 * Real.pi - 0) * 0.1 := by
    rw [h11.2]; ring
  refine ⟨rfl, a1, ?_, a2, ?_, a3, ?_, a4, ?_⟩
  · rw [a1]; intro h; linarith
  · rw [a2]; intro h; linarith
  · rw [a3]; intro h; linarith
  · rw [a4]; intro h; linarith

/-- C20, amended: a hand position in `[0, 1]` is mapped to a target angle in
`[-2π, 2π]`: yaw moves toward `(x - 0.5) * 4π`, which is `-2π` for `x = 0` and `2π` for
`x = 1`, and pitch moves toward `(y - 0.5) * 4π`, which is `-2π` for `y = 0` and `2π`
for `y = 1`. -/
theorem C20_position_maps_to_amplified_range (rand : ℕ → ℝ) (now : ℝ)
    (s : ParticleSystem ℝ) (g : ℝ) (hp : Vec2 ℝ) (rot : Option ℝ) :
    (update Real.sin Real.pi rand now s g (some hp) rot).rotation.y
        = s.rotation.y + ((hp.x - 0.5) * (4 * Real.pi) - s.rotation.y) * 0.1
    ∧ (update Real.sin Real.pi rand now s g (some hp) rot).rotation.x
        = s.rotation.x + ((hp.y - 0.5) * (4 * Real.pi) - s.rotation.x) * 0.1
    ∧ (0 ≤ hp.x → hp.x ≤ 1 →
        -(2 * Real.pi) ≤ (hp.x - 0.5) * (4 * Real.pi)
        ∧ (hp.x - 0.5) * (4 * Real.pi) ≤ 2 * Real.pi)
    ∧ (0 ≤ hp.y → hp.y ≤ 1 →
        -(2 * Real.pi) ≤ (hp.y - 0.5) * (4 * Real.pi)
        ∧ (hp.y - 0.5) * (4 * Real.pi) ≤ 2 * Real.pi)
    ∧ (update Real.sin Real.pi rand now s g (some { x := 0, y := hp.y }) rot).rotation.y
        = s.rotation.y + (-(2 * Real.pi) - s.rotation.y) * 0.1
    ∧ (update Real.sin Real.pi rand now s g (some { x := 1, y := hp.y }) rot).rotation.y
        = s.rotation.y + (2 * Real.pi - s.rotation.y) * 0.1
    ∧ (update Real.sin Real.pi rand now s g (some { x := hp.x, y := 0 }) rot).rotation.x
        = s.rotation.x + (-(2 * Real.pi) - s.rotation.x) * 0.1
    ∧ (update Real.sin Real.pi rand now s g (some { x := hp.x, y := 1 }) rot).rotation.x
        = s.rotation.x + (2 * Real.pi - s.rotation.x) * 0.1 := by
  have hpi := Real.pi_pos
  have h := update_rotation_hand Real.sin Real.pi rand now s g hp rot
  have h0 := update_rotation_hand Real.sin Real.pi rand now s g { x := 0, y := hp.y } rot
  have h1 := update_rotation_hand Real.sin Real.pi rand now s g { x := 1, y := hp.y } rot
  have h2 := update_rotation_hand Real.sin Real.pi rand now s g { x := hp.x, y := 0 } rot
  have h3 := update_rotation_hand Real.sin Real.pi rand now s g { x := hp.x, y := 1 } rot
  simp only at h0 h1 h2 h3
  refine ⟨by rw [h.1]; ring, by rw [h.2]; ring, ?_, ?_, by rw [h0.1]; ring,
    by rw [h1.1]; ring, by rw [h2.2]; ring, by rw [h3.2]; ring⟩
  · intro ha hb
    constructor <;> nlinarith
  · intro ha hb
    constructor <;> nlinarith

end Rotation


/-! ## Saturation of the openness -/

section Saturation

theorem clamp_unit_eq_one_iff (v : ℝ) : clamp v 0 1 = 1 ↔ 1 ≤ v := by
  unfold clamp
  constructor
  · intro h
    by_contra hv
    push_neg at hv
    have h1 : max v 0 < 1 := max_lt hv zero_lt_one
    rw [min_eq_left h1.le] at h
    linarith
  · intro h
    rw [max_eq_left (by linarith), min_eq_right h]

theorem clamp_unit_eq_zero_iff (v : ℝ) : clamp v 0 1 = 0 ↔ v ≤ 0 := by
  unfold clamp
  constructor
  · intro h
    by_contra hv
    push_neg at hv
    rw [max_eq_left hv.le] at h
    rcases le_total v 1 with h1 | h1
    · rw [min_eq_left h1] at h; linarith
    · rw [min_eq_right h1] at h; linarith
  · intro h
    rw [max_eq_right h, min_eq_left zero_le_one]

theorem clamp_unit_mono (v w : ℝ) (h : v ≤ w) : clamp v 0 1 ≤ clamp w 0 1 := by
  unfold clamp
  exact min_le_min (max_le_max h le_rfl) le_rfl

theorem opennessSpec_eq (sqrt : ℝ → ℝ) (w a b c d : Landmark ℝ) :
    opennessSpec sqrt w a b c d
      = clamp ((averageTipDistance sqrt w a b c d - 0.2) / (0.5 - 0.2)) 0 1 := rfl

theorem remap_ge_one_iff (d : ℝ) : 1 ≤ (d - 0.2) / (0.5 - 0.2) ↔ 0.5 ≤ d := by
  rw [le_div_iff₀ (by norm_num)]
  constructor <;> intro h <;> linarith

theorem remap_le_zero_iff (d : ℝ) : (d - 0.2) / (0.5 - 0.2) ≤ 0 ↔ d ≤ 0.2 := by
  rw [div_le_iff₀ (by norm_num)]
  constructor <;> intro h <;> linarith

theorem remap_mono (d e : ℝ) (h : d ≤ e) : (d - 0.2) / (0.5 - 0.2) ≤ (e - 0.2) / (0.5 - 0.2) := by
  apply div_le_div_of_nonneg_right _ (by norm_num)
  linarith

/-- C15: on 21 landmarks `calculateOpenness` returns exactly 1 if and only if the
average wrist-to-fingertip distance is at least `0.5`, exactly 0 if and only if it is at
most `0.2`, and it is monotonically non-decreasing in that average. -/
theorem C15_openness_saturates (lm lm2 : List (Landmark ℝ)) (h : lm.length = 21)
    (h2 : lm2.length = 21) :
    (calculateOpenness Real.sqrt lm = .ok 1
        ↔ (0.5 : ℝ) ≤ averageTipDistance Real.sqrt lm[0] lm[8] lm[12] lm[16] lm[20])
    ∧ (calculateOpenness Real.sqrt lm = .ok 0
        ↔ averageTipDistance Real.sqrt lm[0] lm[8] lm[12] lm[16] lm[20] ≤ 0.2)
    ∧ (averageTipDistance Real.sqrt lm[0] lm[8] lm[12] lm[16] lm[20]
          ≤ averageTipDistance Real.sqrt lm2[0] lm2[8] lm2[12] lm2[16] lm2[20] →
        ∃ v v2, calculateOpenness Real.sqrt lm = .ok v
          ∧ calculateOpenness Real.sqrt lm2 = .ok v2 ∧ v ≤ v2)
    ∧ averageTipDistance Real.sqrt lm[0] lm[8] lm[12] lm[16] lm[20]
        = (euclideanDistance Real.sqrt lm[0] lm[8] + euclideanDistance Real.sqrt lm[0] lm[12]
          + euclideanDistance Real.sqrt lm[0] lm[16]
          + euclideanDistance Real.sqrt lm[0] lm[20]) / 4 := by
  have hc := calculateOpenness_of_length Real.sqrt lm (by omega)
  have hc2 := calculateOpenness_of_length Real.sqrt lm2 (by omega)
  refine ⟨?_, ?_, ?_, rfl⟩
  · rw [hc, opennessSpec_eq, Except.ok.injEq, clamp_unit_eq_one_iff, remap_ge_one_iff]
  · rw [hc, opennessSpec_eq, Except.ok.injEq, clamp_unit_eq_zero_iff, remap_le_zero_iff]
  · intro hle
    refine ⟨_, _, hc, hc2, ?_⟩
    rw [opennessSpec_eq, opennessSpec_eq]
    exact clamp_unit_mono _ _ (remap_mono _ _ hle)

/-- Witness of C15: the wide hand (fingertips at distance 1) has openness 1. -/
theorem C15_openness_saturates_witness :
    (wideHand : List (Landmark ℝ)).length = 21
    ∧ (closedHand : List (Landmark ℝ)).length = 21
    ∧ calculateOpenness Real.sqrt (wideHand : List (Landmark ℝ)) = .ok 1 :=
  have h : (wideHand : List (Landmark ℝ)).length = 21 := by simp [wideHand]
  have h2 : (closedHand : List (Landmark ℝ)).length = 21 := by simp [closedHand]
  ⟨h, h2, (C15_openness_saturates wideHand closedHand h h2).1.mpr (by
    simp [wideHand, averageTipDistance, euclideanDistance]
    norm_num)⟩

end Saturation


/-! ## Heart pattern -/

section Heart

theorem heart_x_bound (u v : ℝ) :
    |0.8 * (16 * Real.sin u ^ 3) * Real.sin v| ≤ 12.8 := by
  have h1 : |Real.sin u ^ 3| ≤ 1 := by
    rw [abs_pow]
    exact pow_le_one₀ (abs_nonneg _) (Real.abs_sin_le_one u)
  have h2 : |Real.sin v| ≤ 1 := Real.abs_sin_le_one v
  have h3 : |Real.sin u ^ 3| * |Real.sin v| ≤ 1 :=
    mul_le_one₀ h1 (abs_nonneg _) h2
  have h4 : |0.8 * (16 * Real.sin u ^ 3) * Real.sin v|
      = 12.8 * (|Real.sin u ^ 3| * |Real.sin v|) := by
    rw [abs_mul, abs_mul, abs_mul, abs_of_pos (by norm_num : (0 : ℝ) < 0.8),
      abs_of_pos (by norm_num : (0 : ℝ) < 16)]
    ring
  rw [h4]
  linarith

theorem heart_z_bound (v : ℝ) : |0.8 * 6 * Real.cos v| ≤ 4.8 := by
  have h1 : |Real.cos v| ≤ 1 := Real.abs_cos_le_one v
  rw [abs_mul, abs_of_pos (by norm_num : (0 : ℝ) < 0.8 * 6)]
  linarith

/-- C16: the `i`-th point `setPattern('love')` generates from draws `r1, r2` (in that
order), with `u = 2π r1` in `[0, 2π)` and `v = π r2` in `[0, π)`, is
`(0.8 hx sin v, 0.8 hy sin v, 0.8 * 6 * cos v)` with `hx = 16 sin(u)^3` and
`hy = 13 cos u - 5 cos 2u - 2 cos 3u - cos 4u`; hence `|x| ≤ 12.8` and `|z| ≤ 4.8`. -/
theorem C16_heart_point_formula (cbrt : ℝ → ℝ) (rand : ℕ → ℝ) (s : ParticleSystem ℝ)
    (i : ℕ) (hrand : ∀ j, 0 ≤ rand j ∧ rand j < 1) (hs : s.WellSized)
    (hi : i < s.particleCount) :
    ∃ s1 u v x y z,
      setPattern cbrt Real.sin Real.cos Real.arccos Real.pi rand s "love" = .normal s1
      ∧ u = 2 * Real.pi * rand (2 * i) ∧ v = Real.pi * rand (2 * i + 1)
      ∧ 0 ≤ u ∧ u < 2 * Real.pi ∧ 0 ≤ v ∧ v < Real.pi
      ∧ s1.positions[i * 3]? = some (some x)
      ∧ s1.positions[i * 3 + 1]? = some (some y)
      ∧ s1.positions[i * 3 + 2]? = some (some z)
      ∧ x = 0.8 * (16 * Real.sin u ^ 3) * Real.sin v
      ∧ y = 0.8 * (13 * Real.cos u - 5 * Real.cos (2 * u) - 2 * Real.cos (3 * u)
            - Real.cos (4 * u)) * Real.sin v
      ∧ z = 0.8 * 6 * Real.cos v
      ∧ |x| ≤ 12.8 ∧ |z| ≤ 4.8 := by
  have hpi := Real.pi_pos
  have hcells := getElem?_generatedCells cbrt Real.sin Real.cos Real.arccos Real.pi "love"
    rand s.particleCount i hi
  have hd : drawsPerPoint "love" = 2 := by decide
  rw [hd] at hcells
  have hu : rand (2 * i) * Real.pi * 2 = 2 * Real.pi * rand (2 * i) := by ring
  have hv : rand (2 * i + 1) * Real.pi = Real.pi * rand (2 * i + 1) := by ring
  have hlove : patternPoint cbrt Real.sin Real.cos Real.arccos Real.pi "love" rand (2 * i)
      = ((some (0.8 * (16 * Real.sin (2 * Real.pi * rand (2 * i)) ^ 3)
            * Real.sin (Real.pi * rand (2 * i + 1))),
          some (0.8 * (13 * Real.cos (2 * Real.pi * rand (2 * i))
              - 5 * Real.cos (2 * (2 * Real.pi * rand (2 * i)))
              - 2 * Real.cos (3 * (2 * Real.pi * rand (2 * i)))
              - Real.cos (4 * (2 * Real.pi * rand (2 * i))))
            * Real.sin (Real.pi * rand (2 * i + 1))),
          some (0.8 * 6 * Real.cos (Real.pi * rand (2 * i + 1)))), 2 * i + 2) := by
    simp [patternPoint, hu, hv]
  rw [hlove] at hcells
  refine ⟨_, _, _, _, _, _, setPattern_wellSized cbrt Real.sin Real.cos Real.arccos Real.pi
    rand s "love" hs, rfl, rfl, ?_, ?_, ?_, ?_, hcells.1, hcells.2.1, hcells.2.2, rfl, rfl,
    rfl, heart_x_bound _ _, heart_z_bound _⟩
  · have := (hrand (2 * i)).1
    positivity
  · have := (hrand (2 * i)).2
    nlinarith
  · have := (hrand (2 * i + 1)).1
    positivity
  · have := (hrand (2 * i + 1)).2
    nlinarith

/-- Witness of C16: the first heart point of the one-particle sample system. -/
theorem C16_heart_point_formula_witness :
    (∀ j, 0 ≤ (sampleRand j : ℝ) ∧ (sampleRand j : ℝ) < 1)
    ∧ (sampleSystem : ParticleSystem ℝ).WellSized
    ∧ 0 < (sampleSystem : ParticleSystem ℝ).particleCount
    ∧ ∃ (s1 : ParticleSystem ℝ) (x z : ℝ),
        setPattern (fun u => u ^ ((1 : ℝ) / 3)) Real.sin Real.cos Real.arccos Real.pi
          sampleRand (sampleSystem : ParticleSystem ℝ) "love" = .normal s1
        ∧ s1.positions[0 * 3]? = some (some x)
        ∧ s1.positions[0 * 3 + 2]? = some (some z)
        ∧ |x| ≤ 12.8 ∧ |z| ≤ 4.8 :=
  ⟨sampleRand_mem, sampleSystem_wellSized, by simp [sampleSystem],
    match C16_heart_point_formula (fun u => u ^ ((1 : ℝ) / 3)) sampleRand
        (sampleSystem : ParticleSystem ℝ) 0 sampleRand_mem sampleSystem_wellSized
        (by simp [sampleSystem]) with
    | ⟨s1, _, _, x, _, z, h1, _, _, _, _, _, _, hx, _, hz, _, _, _, hbx, hbz⟩ =>
      ⟨s1, x, z, h1, hx, hz, hbx, hbz⟩⟩

end Heart

/-! ## Range of the expansion -/

section ExpansionRange

theorem setPattern_state_expansionFactor (cbrt sin cos acos : ℝ → ℝ) (PI : ℝ)
    (rand : ℕ → ℝ) (s : ParticleSystem ℝ) (type : String) :
    (setPattern cbrt sin cos acos PI rand s type).state.expansionFactor
      = s.expansionFactor := by
  simp only [setPattern, generatePattern]
  cases typedSet s.originalPositions
    (generateLoop cbrt sin cos acos PI type rand s.particleCount s.positions).1 <;> rfl

theorem update_expansion_mem (sin : ℝ → ℝ) (PI : ℝ) (rand : ℕ → ℝ) (now : ℝ)
    (s : ParticleSystem ℝ) (g : ℝ) (pos : Option (Vec2 ℝ)) (rot : Option ℝ)
    (h0 : 0 ≤ s.expansionFactor) (h1 : s.expansionFactor ≤ 1) (hg0 : 0 ≤ g) (hg1 : g ≤ 1) :
    0 ≤ (update sin PI rand now s g pos rot).expansionFactor
    ∧ (update sin PI rand now s g pos rot).expansionFactor ≤ 1 := by
  rw [update_expansionFactor]
  constructor <;> nlinarith

theorem calculateOpenness_mem (sqrt : ℝ → ℝ) (lm : List (Landmark ℝ)) (v : ℝ)
    (h : calculateOpenness sqrt lm = .ok v) : 0 ≤ v ∧ v ≤ 1 := by
  by_cases hlen : lm.length < 21
  · rw [calculateOpenness_short sqrt lm hlen] at h
    cases h
  · rw [calculateOpenness_of_length sqrt lm (by omega)] at h
    cases h
    exact opennessSpec_mem _ _ _ _ _ _

theorem reachable_expansion_mem (cbrt sin cos acos : ℝ → ℝ) (PI : ℝ)
    (newColor : String → Color ℝ) (colorSet : Color ℝ → String → Color ℝ)
    (s : ParticleSystem ℝ) (h : Reachable cbrt sin cos acos PI newColor colorSet s) :
    0 ≤ s.expansionFactor ∧ s.expansionFactor ≤ 1 := by
  induction h with
  | constructed s hc =>
    obtain ⟨rand, hrand⟩ := hc
    obtain ⟨s0, hs0, he, _⟩ := constructor_facts cbrt sin cos acos PI newColor rand
    rw [hs0] at hrand
    cases hrand
    rw [he]
    exact ⟨le_rfl, zero_le_one⟩
  | afterUpdate rand now s g pos rot _ hg0 hg1 ih =>
    exact update_expansion_mem sin PI rand now s g pos rot ih.1 ih.2 hg0 hg1
  | afterSetPattern rand s type _ ih =>
    rw [setPattern_state_expansionFactor]
    exact ih
  | afterSetColor rand s hex _ ih => exact ih

/-- C19: the expansion of every reachable state lies in `[0, 1]`: it is 0 after
construction, an `update` whose target openness is in `[0, 1]` keeps it in `[0, 1]`
(every value `calculateOpenness` returns and the absent-sample target 0, the two targets
the frame loop passes, are in `[0, 1]`), and `setPattern` and `setColor` do not change
it. -/
theorem C19_expansion_stays_in_unit_interval (cbrt : ℝ → ℝ)
    (newColor : String → Color ℝ) (colorSet : Color ℝ → String → Color ℝ)
    (s : ParticleSystem ℝ)
    (h : Reachable cbrt Real.sin Real.cos Real.arccos Real.pi newColor colorSet s) :
    0 ≤ s.expansionFactor ∧ s.expansionFactor ≤ 1
    ∧ (∀ (rand : ℕ → ℝ) (s0 : ParticleSystem ℝ),
        constructor cbrt Real.sin Real.cos Real.arccos Real.pi newColor rand = .normal s0 →
        s0.expansionFactor = 0)
    ∧ (∀ (rand : ℕ → ℝ) (now g : ℝ) (pos : Option (Vec2 ℝ)) (rot : Option ℝ),
        0 ≤ g → g ≤ 1 →
        0 ≤ (update Real.sin Real.pi rand now s g pos rot).expansionFactor
        ∧ (update Real.sin Real.pi rand now s g pos rot).expansionFactor ≤ 1)
    ∧ (∀ (lm : List (Landmark ℝ)) (v : ℝ), calculateOpenness Real.sqrt lm = .ok v →
        0 ≤ v ∧ v ≤ 1)
    ∧ (∀ (rand : ℕ → ℝ) (now : ℝ) (ht : HandTracker ℝ),
        0 ≤ ht.gestureValue → ht.gestureValue ≤ 1 →
        0 ≤ (animate Real.sin Real.pi rand now ht s).expansionFactor
        ∧ (animate Real.sin Real.pi rand now ht s).expansionFactor ≤ 1)
    ∧ (∀ (rand : ℕ → ℝ) (type : String),
        (setPattern cbrt Real.sin Real.cos Real.arccos Real.pi rand s type).state.expansionFactor
          = s.expansionFactor)
    ∧ (∀ (rand : ℕ → ℝ) (hex : String),
        (setColor colorSet rand s hex).expansionFactor = s.expansionFactor) := by
  have hmem := reachable_expansion_mem cbrt Real.sin Real.cos Real.arccos Real.pi newColor
    colorSet s h
  refine ⟨hmem.1, hmem.2, ?_, ?_, calculateOpenness_mem Real.sqrt, ?_, ?_, fun _ _ => rfl⟩
  · intro rand s0 hs0
    obtain ⟨s1, hs1, he, _⟩ :=
      constructor_facts cbrt Real.sin Real.cos Real.arccos Real.pi newColor rand
    rw [hs1] at hs0
    cases hs0
    exact he
  · intro rand now g pos rot hg0 hg1
    exact update_expansion_mem _ _ _ _ _ _ _ _ hmem.1 hmem.2 hg0 hg1
  · intro rand now ht hg0 hg1
    unfold animate
    split
    · exact update_expansion_mem _ _ _ _ _ _ _ _ hmem.1 hmem.2 hg0 hg1
    · exact update_expansion_mem _ _ _ _ _ _ _ _ hmem.1 hmem.2 le_rfl zero_le_one
  · intro rand type
    exact setPattern_state_expansionFactor _ _ _ _ _ _ _ _

/-- Witness of C19: the constructed system after one update with openness 1. -/
theorem C19_expansion_stays_in_unit_interval_witness :
    ∃ s0 : ParticleSystem ℝ,
      constructor (fun u => u ^ ((1 : ℝ) / 3)) Real.sin Real.cos Real.arccos Real.pi
        sampleNewColor sampleRand = .normal s0
      ∧ Reachable (fun u => u ^ ((1 : ℝ) / 3)) Real.sin Real.cos Real.arccos Real.pi
          sampleNewColor sampleColorSet
          (update Real.sin Real.pi sampleRand 0 s0 1 none none)
      ∧ 0 ≤ (update Real.sin Real.pi sampleRand 0 s0 1 none none).expansionFactor
      ∧ (update Real.sin Real.pi sampleRand 0 s0 1 none none).expansionFactor ≤ 1 :=
  match constructor_facts (fun u => u ^ ((1 : ℝ) / 3)) Real.sin Real.cos Real.arccos Real.pi
      sampleNewColor sampleRand with
  | ⟨s0, hs0, _⟩ =>
    have hr : Reachable (fun u => u ^ ((1 : ℝ) / 3)) Real.sin Real.cos Real.arccos Real.pi
        sampleNewColor sampleColorSet (update Real.sin Real.pi sampleRand 0 s0 1 none none) :=
      Reachable.afterUpdate sampleRand 0 s0 1 none none
        (Reachable.constructed s0 ⟨sampleRand, hs0⟩) zero_le_one le_rfl
    ⟨s0, hs0, hr,
      (C19_expansion_stays_in_unit_interval (fun u => u ^ ((1 : ℝ) / 3)) sampleNewColor
        sampleColorSet _ hr).1,
      (C19_expansion_stays_in_unit_interval (fun u => u ^ ((1 : ℝ) / 3)) sampleNewColor
        sampleColorSet _ hr).2.1⟩

end ExpansionRange


/-! ## Translation and scaling of the hand -/

section HandGeometry

theorem euclideanDistance_translate (sqrt : ℝ → ℝ) (d p q : Landmark ℝ) :
    euclideanDistance sqrt (translatePoint d p) (translatePoint d q)
      = euclideanDistance sqrt p q := by
  simp [euclideanDistance, translatePoint]

theorem euclideanDistance_scale (k : ℝ) (hk : 0 ≤ k) (w p : Landmark ℝ) :
    euclideanDistance Real.sqrt (scalePoint k w w) (scalePoint k w p)
      = k * euclideanDistance Real.sqrt w p := by
  unfold euclideanDistance scalePoint
  have h : (w.x + k * (w.x - w.x) - (w.x + k * (p.x - w.x))) ^ 2
      + (w.y + k * (w.y - w.y) - (w.y + k * (p.y - w.y))) ^ 2
      + (w.z + k * (w.z - w.z) - (w.z + k * (p.z - w.z))) ^ 2
      = k ^ 2 * ((w.x - p.x) ^ 2 + (w.y - p.y) ^ 2 + (w.z - p.z) ^ 2) := by ring
  simp only
  rw [h, Real.sqrt_mul (sq_nonneg k), Real.sqrt_sq hk]

theorem averageTipDistance_translate (sqrt : ℝ → ℝ) (d w a b c e : Landmark ℝ) :
    averageTipDistance sqrt (translatePoint d w) (translatePoint d a) (translatePoint d b)
        (translatePoint d c) (translatePoint d e)
      = averageTipDistance sqrt w a b c e := by
  simp only [averageTipDistance, euclideanDistance_translate]

theorem averageTipDistance_scale (k : ℝ) (hk : 0 ≤ k) (w a b c e : Landmark ℝ) :
    averageTipDistance Real.sqrt (scalePoint k w w) (scalePoint k w a) (scalePoint k w b)
        (scalePoint k w c) (scalePoint k w e)
      = k * averageTipDistance Real.sqrt w a b c e := by
  simp only [averageTipDistance, euclideanDistance_scale k hk]
  ring

theorem calculateOpenness_translateHand (sqrt : ℝ → ℝ) (d : Landmark ℝ)
    (lm : List (Landmark ℝ)) (h : 21 ≤ lm.length) :
    calculateOpenness sqrt (translateHand d lm) = calculateOpenness sqrt lm := by
  have hlen : (translateHand d lm).length = lm.length := List.length_map _ _
  rw [calculateOpenness_of_length sqrt lm h,
    calculateOpenness_of_length sqrt (translateHand d lm) (by omega)]
  simp only [translateHand, List.getElem_map, opennessSpec_eq, averageTipDistance_translate]

theorem calculateOpenness_scaleHand (k : ℝ) (hk : 0 ≤ k) (lm : List (Landmark ℝ))
    (h : 21 ≤ lm.length) :
    calculateOpenness Real.sqrt (scaleHand k lm)
      = .ok (clamp ((k * averageTipDistance Real.sqrt lm[0] lm[8] lm[12] lm[16] lm[20] - 0.2)
          / (0.5 - 0.2)) 0 1) := by
  have h0 : lm[0]? = some lm[0] := List.getElem?_eq_getElem _
  have hs : scaleHand k lm = lm.map (scalePoint k lm[0]) := by
    simp only [scaleHand, h0]
  have hlen : (lm.map (scalePoint k lm[0])).length = lm.length := List.length_map _ _
  rw [hs, calculateOpenness_of_length Real.sqrt (lm.map (scalePoint k lm[0])) (by omega)]
  simp only [List.getElem_map, opennessSpec_eq, averageTipDistance_scale k hk]

theorem processResults_translateHand (sqrt : ℝ → ℝ) (atan2 : ℝ → ℝ → ℝ)
    (ht : HandTracker ℝ) (d : Landmark ℝ) (lm : List (Landmark ℝ))
    (rest : List (List (Landmark ℝ))) (h : 21 ≤ lm.length) :
    (processResults sqrt atan2 ht { landmarks := some (translateHand d lm :: rest) }).state
      = { (processResults sqrt atan2 ht { landmarks := some (lm :: rest) }).state with
          results := some { landmarks := some (translateHand d lm :: rest) }
          handPosition := { x := lm[0].x + d.x, y := lm[0].y + d.y } } := by
  have hlen : (translateHand d lm).length = lm.length := List.length_map _ _
  rw [processResults_long sqrt atan2 ht lm rest h,
    processResults_long sqrt atan2 ht (translateHand d lm) rest (by omega)]
  simp only [Completion.state, translateHand, List.getElem_map, opennessSpec_eq,
    averageTipDistance_translate]
  simp [translatePoint]

theorem averageTipDistance_wideHand :
    averageTipDistance Real.sqrt ({ x := 0, y := 0, z := 0 } : Landmark ℝ)
      { x := 1, y := 0, z := 0 } { x := 1, y := 0, z := 0 } { x := 1, y := 0, z := 0 }
      { x := 1, y := 0, z := 0 } = 1 := by
  simp [averageTipDistance, euclideanDistance]
  norm_num

theorem wideHand_openness_depends_on_size :
    calculateOpenness Real.sqrt (wideHand : List (Landmark ℝ)) = .ok 1
    ∧ calculateOpenness Real.sqrt (scaleHand (1 / 10) (wideHand : List (Landmark ℝ))) = .ok 0 := by
  have hlen : (wideHand : List (Landmark ℝ)).length = 21 := by simp [wideHand]
  have havg : averageTipDistance Real.sqrt (wideHand : List (Landmark ℝ))[0] wideHand[8]
      wideHand[12] wideHand[16] wideHand[20] = 1 := by
    simpa [wideHand] using averageTipDistance_wideHand
  constructor
  · rw [calculateOpenness_of_length Real.sqrt wideHand (by omega), opennessSpec_eq, havg,
      Except.ok.injEq, clamp_unit_eq_one_iff]
    norm_num
  · rw [calculateOpenness_scaleHand (1 / 10) (by norm_num) wideHand (by omega), havg,
      Except.ok.injEq, clamp_unit_eq_zero_iff]
    norm_num

/-- C21: on 21 landmarks the estimate depends only on landmark differences: adding an
offset vector `d` to all landmarks leaves the openness of `calculateOpenness` and the
roll `atan2(dy, dx)` of `processResults` unchanged and moves the reported wrist position
by `d`; scaling all landmarks by `k > 0` about the wrist multiplies the average fingertip
distance by `k`, so the openness becomes `clamp((k d - 0.2) / (0.5 - 0.2), 0, 1)` and is
not invariant to the size of the hand (a hand with openness 1 has openness 0 at a tenth
of its size). -/
theorem C21_estimate_depends_on_differences (atan2 : ℝ → ℝ → ℝ) (ht : HandTracker ℝ)
    (lm : List (Landmark ℝ)) (rest : List (List (Landmark ℝ))) (d : Landmark ℝ) (k : ℝ)
    (h : lm.length = 21) (hk : 0 < k) :
    calculateOpenness Real.sqrt (translateHand d lm) = calculateOpenness Real.sqrt lm
    ∧ (processResults Real.sqrt atan2 ht
        { landmarks := some (translateHand d lm :: rest) }).state.gestureValue
        = (processResults Real.sqrt atan2 ht
          { landmarks := some (lm :: rest) }).state.gestureValue
    ∧ (processResults Real.sqrt atan2 ht
        { landmarks := some (translateHand d lm :: rest) }).state.handRotation
        = (processResults Real.sqrt atan2 ht
          { landmarks := some (lm :: rest) }).state.handRotation
    ∧ (processResults Real.sqrt atan2 ht
        { landmarks := some (lm :: rest) }).state.handRotation
        = atan2 (lm[5].y - lm[0].y) (lm[5].x - lm[0].x)
    ∧ (processResults Real.sqrt atan2 ht
        { landmarks := some (lm :: rest) }).state.handPosition
        = { x := lm[0].x, y := lm[0].y }
    ∧ (processResults Real.sqrt atan2 ht
        { landmarks := some (translateHand d lm :: rest) }).state.handPosition
        = { x := lm[0].x + d.x, y := lm[0].y + d.y }
    ∧ scaleHand k lm = lm.map (scalePoint k lm[0])
    ∧ averageTipDistance Real.sqrt (scalePoint k lm[0] lm[0]) (scalePoint k lm[0] lm[8])
          (scalePoint k lm[0] lm[12]) (scalePoint k lm[0] lm[16]) (scalePoint k lm[0] lm[20])
        = k * averageTipDistance Real.sqrt lm[0] lm[8] lm[12] lm[16] lm[20]
    ∧ calculateOpenness Real.sqrt lm
        = .ok (clamp ((averageTipDistance Real.sqrt lm[0] lm[8] lm[12] lm[16] lm[20] - 0.2)
            / (0.5 - 0.2)) 0 1)
    ∧ calculateOpenness Real.sqrt (scaleHand k lm)
        = .ok (clamp ((k * averageTipDistance Real.sqrt lm[0] lm[8] lm[12] lm[16] lm[20] - 0.2)
            / (0.5 - 0.2)) 0 1)
    ∧ (∃ (hand : List (Landmark ℝ)) (k0 : ℝ), hand.length = 21 ∧ 0 < k0
        ∧ calculateOpenness Real.sqrt (scaleHand k0 hand)
          ≠ calculateOpenness Real.sqrt hand) := by
  have h21 : 21 ≤ lm.length := by omega
  have htr := processResults_translateHand Real.sqrt atan2 ht d lm rest h21
  have hl := processResults_long Real.sqrt atan2 ht lm rest h21
  have h0 : lm[0]? = some lm[0] := List.getElem?_eq_getElem _
  refine ⟨calculateOpenness_translateHand Real.sqrt d lm h21, by rw [htr], by rw [htr],
    by rw [hl]; rfl, by rw [hl]; rfl, by rw [htr], by simp only [scaleHand, h0],
    averageTipDistance_scale k hk.le _ _ _ _ _,
    by rw [calculateOpenness_of_length Real.sqrt lm h21, opennessSpec_eq],
    calculateOpenness_scaleHand k hk.le lm h21, ?_⟩
  refine ⟨wideHand, 1 / 10, by simp [wideHand], by norm_num, ?_⟩
  rw [wideHand_openness_depends_on_size.1, wideHand_openness_depends_on_size.2]
  intro hne
  rw [Except.ok.injEq] at hne
  norm_num at hne

/-- Witness of C21: the wide hand moved by `(1, 1, 1)` and scaled by 2. -/
theorem C21_estimate_depends_on_differences_witness :
    (wideHand : List (Landmark ℝ)).length = 21
    ∧ (0 : ℝ) < 2
    ∧ calculateOpenness Real.sqrt
        (translateHand { x := 1, y := 1, z := 1 } (wideHand : List (Landmark ℝ)))
        = calculateOpenness Real.sqrt (wideHand : List (Landmark ℝ))
    ∧ (processResults Real.sqrt (fun y x => Complex.arg { re := x, im := y })
        (initialTracker : HandTracker ℝ)
        { landmarks := some [translateHand { x := 1, y := 1, z := 1 }
          (wideHand : List (Landmark ℝ))] }).state.handRotation
        = (processResults Real.sqrt (fun y x => Complex.arg { re := x, im := y })
          (initialTracker : HandTracker ℝ)
          { landmarks := some [(wideHand : List (Landmark ℝ))] }).state.handRotation :=
  have hlen : (wideHand : List (Landmark ℝ)).length = 21 := by simp [wideHand]
  ⟨hlen, by norm_num,
    (C21_estimate_depends_on_differences (fun y x => Complex.arg { re := x, im := y })
      initialTracker wideHand [] { x := 1, y := 1, z := 1 } 2 hlen (by norm_num)).1,
    (C21_estimate_depends_on_differences (fun y x => Complex.arg { re := x, im := y })
      initialTracker wideHand [] { x := 1, y := 1, z := 1 } 2 hlen (by norm_num)).2.2.1⟩

end HandGeometry


/-! ## Rounding to double -/

section DoubleRounding

theorem roundHalfEven_cases (z : ℝ) :
    roundHalfEven z = ⌊z⌋ ∧ z - ⌊z⌋ ≤ 1 / 2 ∨ roundHalfEven z = ⌊z⌋ + 1 ∧ 1 / 2 ≤ z - ⌊z⌋ := by
  unfold roundHalfEven
  simp only
  split_ifs with h1 h2 h3
  · exact Or.inl ⟨rfl, h1.le⟩
  · exact Or.inr ⟨rfl, h2.le⟩
  · exact Or.inl ⟨rfl, not_lt.mp h2⟩
  · exact Or.inr ⟨rfl, not_lt.mp h1⟩

theorem roundHalfEven_intCast (n : ℤ) : roundHalfEven ((n : ℤ) : ℝ) = n := by
  unfold roundHalfEven
  simp

theorem roundHalfEven_eq_of_near (z : ℝ) (m : ℤ) (h1 : (m : ℝ) - 1 / 2 < z)
    (h2 : z < (m : ℝ) + 1 / 2) : roundHalfEven z = m := by
  have hfl := Int.floor_le z
  have hlt := Int.lt_floor_add_one z
  rcases roundHalfEven_cases z with ⟨h, hf⟩ | ⟨h, hf⟩
  · rw [h]
    have a1 : ((⌊z⌋ : ℤ) : ℝ) < (m : ℝ) + 1 := by linarith
    have a2 : (m : ℝ) - 1 < ((⌊z⌋ : ℤ) : ℝ) := by linarith
    have b1 : ⌊z⌋ < m + 1 := by exact_mod_cast a1
    have b2 : m - 1 < ⌊z⌋ := by exact_mod_cast a2
    omega
  · rw [h]
    have a1 : ((⌊z⌋ : ℤ) : ℝ) + 1 < (m : ℝ) + 1 := by linarith
    have a2 : (m : ℝ) - 1 < ((⌊z⌋ : ℤ) : ℝ) + 1 := by linarith
    have b1 : ⌊z⌋ + 1 < m + 1 := by exact_mod_cast a1
    have b2 : m - 1 < ⌊z⌋ + 1 := by exact_mod_cast a2
    omega

theorem roundHalfEven_mono (z w : ℝ) (h : z ≤ w) : roundHalfEven z ≤ roundHalfEven w := by
  have hfm : ⌊z⌋ ≤ ⌊w⌋ := Int.floor_mono h
  rcases lt_or_eq_of_le hfm with hlt | heq
  · have hz : roundHalfEven z ≤ ⌊z⌋ + 1 := by
      rcases roundHalfEven_cases z with ⟨h1, _⟩ | ⟨h1, _⟩ <;> omega
    have hw : ⌊w⌋ ≤ roundHalfEven w := by
      rcases roundHalfEven_cases w with ⟨h1, _⟩ | ⟨h1, _⟩ <;> omega
    omega
  · unfold roundHalfEven
    simp only
    rw [← heq]
    have hfr : z - ⌊z⌋ ≤ w - ⌊z⌋ := by linarith
    split_ifs <;> first | omega | linarith

theorem roundHalfEven_le_two_mul (z : ℝ) (hz : 0 ≤ z) : (roundHalfEven z : ℝ) ≤ 2 * z := by
  have hfl := Int.floor_le z
  have hf0 : 0 ≤ ⌊z⌋ := Int.floor_nonneg.mpr hz
  have hf0r : (0 : ℝ) ≤ ((⌊z⌋ : ℤ) : ℝ) := by exact_mod_cast hf0
  unfold roundHalfEven
  simp only
  split_ifs with h1 h2 h3
  · linarith
  · push_cast; linarith
  · linarith
  · -- tie with odd floor: the floor is at least 1
    have hodd : ⌊z⌋ ≠ 0 := by intro h0; rw [h0] at h3; simp at h3
    have h1le : (1 : ℤ) ≤ ⌊z⌋ := by omega
    have : (1 : ℝ) ≤ ((⌊z⌋ : ℤ) : ℝ) := by exact_mod_cast h1le
    push_cast; linarith

theorem roundHalfEven_nonneg (z : ℝ) (hz : 0 ≤ z) : 0 ≤ roundHalfEven z := by
  have := roundHalfEven_mono 0 z hz
  have h0 : roundHalfEven (0 : ℝ) = 0 := by
    have := roundHalfEven_intCast 0
    simpa using this
  omega

theorem two_zpow_pos (e : ℤ) : (0 : ℝ) < 2 ^ e := zpow_pos (by norm_num) e

theorem roundMagnitude_zero : roundMagnitude (0 : ℝ) = 0 := by
  unfold roundMagnitude
  have h0 : roundHalfEven ((0 : ℝ) / 2 ^ ulpExponent (0 : ℝ)) = 0 := by
    rw [zero_div]
    have := roundHalfEven_intCast 0
    simpa using this
  rw [h0]; simp

theorem roundMagnitude_nonneg (x : ℝ) (hx : 0 ≤ x) : 0 ≤ roundMagnitude x := by
  unfold roundMagnitude
  have hp := two_zpow_pos (ulpExponent x)
  have hz : 0 ≤ x / 2 ^ ulpExponent x := div_nonneg hx hp.le
  have hr : (0 : ℝ) ≤ (roundHalfEven (x / 2 ^ ulpExponent x) : ℝ) := by
    exact_mod_cast roundHalfEven_nonneg _ hz
  exact mul_nonneg hr hp.le

theorem roundMagnitude_le_two_mul (x : ℝ) (hx : 0 ≤ x) : roundMagnitude x ≤ 2 * x := by
  unfold roundMagnitude
  have hp := two_zpow_pos (ulpExponent x)
  have hz : 0 ≤ x / 2 ^ ulpExponent x := div_nonneg hx hp.le
  have h := roundHalfEven_le_two_mul _ hz
  calc (roundHalfEven (x / 2 ^ ulpExponent x) : ℝ) * 2 ^ ulpExponent x
      ≤ (2 * (x / 2 ^ ulpExponent x)) * 2 ^ ulpExponent x :=
        mul_le_mul_of_nonneg_right h hp.le
    _ = 2 * x := by field_simp

theorem lt_two_zpow_ulpExponent (x : ℝ) : x < 2 ^ (ulpExponent x + 53) := by
  have h1 : x < ((2 : ℕ) : ℝ) ^ (Int.log 2 x + 1) := Int.lt_zpow_succ_log_self (by norm_num) x
  have h2 : Int.log 2 x + 1 ≤ ulpExponent x + 53 := by
    unfold ulpExponent
    have := le_max_right (-1074 : ℤ) (Int.log 2 x - 52)
    omega
  have h3 : ((2 : ℕ) : ℝ) ^ (Int.log 2 x + 1) ≤ (2 : ℝ) ^ (ulpExponent x + 53) := by
    rw [Nat.cast_ofNat]
    exact zpow_le_zpow_right₀ (by norm_num) h2
  linarith

theorem roundMagnitude_le_top (x : ℝ) :
    roundMagnitude x ≤ 2 ^ (ulpExponent x + 53) := by
  have hp := two_zpow_pos (ulpExponent x)
  have hlt := lt_two_zpow_ulpExponent x
  have hz : x / 2 ^ ulpExponent x ≤ (((2 : ℤ) ^ 53 : ℤ) : ℝ) := by
    rw [div_le_iff₀ hp]
    have : (((2 : ℤ) ^ 53 : ℤ) : ℝ) * 2 ^ ulpExponent x = 2 ^ (ulpExponent x + 53) := by
      rw [zpow_add₀ (by norm_num : (2 : ℝ) ≠ 0)]
      push_cast
      rw [mul_comm]
      norm_cast
    rw [this]
    exact hlt.le
  have hr := roundHalfEven_mono _ _ hz
  rw [roundHalfEven_intCast] at hr
  have hr' : (roundHalfEven (x / 2 ^ ulpExponent x) : ℝ) ≤ (((2 : ℤ) ^ 53 : ℤ) : ℝ) := by
    exact_mod_cast hr
  unfold roundMagnitude
  calc (roundHalfEven (x / 2 ^ ulpExponent x) : ℝ) * 2 ^ ulpExponent x
      ≤ (((2 : ℤ) ^ 53 : ℤ) : ℝ) * 2 ^ ulpExponent x := mul_le_mul_of_nonneg_right hr' hp.le
    _ = 2 ^ (ulpExponent x + 53) := by
      rw [zpow_add₀ (by norm_num : (2 : ℝ) ≠ 0)]
      push_cast
      rw [mul_comm]
      norm_cast

theorem roundMagnitude_ge_bottom (y : ℝ) (hy : 0 < y) (he : ulpExponent y = Int.log 2 y - 52) :
    (2 : ℝ) ^ (ulpExponent y + 52) ≤ roundMagnitude y := by
  have hp := two_zpow_pos (ulpExponent y)
  have h1 : ((2 : ℕ) : ℝ) ^ Int.log 2 y ≤ y := Int.zpow_log_le_self (by norm_num) hy
  rw [Nat.cast_ofNat] at h1
  have h2 : (2 : ℝ) ^ (ulpExponent y + 52) ≤ y := by
    rw [he]; simpa using h1
  have hz : (((2 : ℤ) ^ 52 : ℤ) : ℝ) ≤ y / 2 ^ ulpExponent y := by
    rw [le_div_iff₀ hp]
    have : (((2 : ℤ) ^ 52 : ℤ) : ℝ) * 2 ^ ulpExponent y = 2 ^ (ulpExponent y + 52) := by
      rw [zpow_add₀ (by norm_num : (2 : ℝ) ≠ 0)]
      push_cast
      rw [mul_comm]
      norm_cast
    rw [this]
    exact h2
  have hr := roundHalfEven_mono _ _ hz
  rw [roundHalfEven_intCast] at hr
  have hr' : (((2 : ℤ) ^ 52 : ℤ) : ℝ) ≤ (roundHalfEven (y / 2 ^ ulpExponent y) : ℝ) := by
    exact_mod_cast hr
  unfold roundMagnitude
  calc (2 : ℝ) ^ (ulpExponent y + 52)
      = (((2 : ℤ) ^ 52 : ℤ) : ℝ) * 2 ^ ulpExponent y := by
        rw [zpow_add₀ (by norm_num : (2 : ℝ) ≠ 0)]
        push_cast
        rw [mul_comm]
        norm_cast
    _ ≤ (roundHalfEven (y / 2 ^ ulpExponent y) : ℝ) * 2 ^ ulpExponent y :=
        mul_le_mul_of_nonneg_right hr' hp.le

theorem ulpExponent_mono (x y : ℝ) (hx : 0 < x) (h : x ≤ y) :
    ulpExponent x ≤ ulpExponent y := by
  unfold ulpExponent
  have := Int.log_mono_right (b := 2) hx h
  exact max_le_max le_rfl (by omega)

theorem roundMagnitude_mono (x y : ℝ) (hx : 0 ≤ x) (h : x ≤ y) :
    roundMagnitude x ≤ roundMagnitude y := by
  rcases eq_or_lt_of_le hx with h0 | hpos
  · rw [← h0, roundMagnitude_zero]
    exact roundMagnitude_nonneg y (le_trans hx h)
  · have hy : 0 < y := lt_of_lt_of_le hpos h
    have hexp := ulpExponent_mono x y hpos h
    rcases eq_or_lt_of_le hexp with heq | hlt
    · unfold roundMagnitude
      rw [← heq]
      have hp := two_zpow_pos (ulpExponent x)
      have hz : x / 2 ^ ulpExponent x ≤ y / 2 ^ ulpExponent x :=
        div_le_div_of_nonneg_right h hp.le
      have hr := roundHalfEven_mono _ _ hz
      have hr' : (roundHalfEven (x / 2 ^ ulpExponent x) : ℝ)
          ≤ (roundHalfEven (y / 2 ^ ulpExponent x) : ℝ) := by exact_mod_cast hr
      exact mul_le_mul_of_nonneg_right hr' hp.le
    · have hey : ulpExponent y = Int.log 2 y - 52 := by
        have hge : (-1074 : ℤ) ≤ ulpExponent x := le_max_left _ _
        unfold ulpExponent at hlt hge ⊢
        rcases max_choice (-1074 : ℤ) (Int.log 2 y - 52) with hc | hc
        · rw [hc] at hlt; omega
        · exact hc
      have h1 := roundMagnitude_le_top x
      have h2 := roundMagnitude_ge_bottom y hy hey
      have h3 : (2 : ℝ) ^ (ulpExponent x + 53) ≤ 2 ^ (ulpExponent y + 52) :=
        zpow_le_zpow_right₀ (by norm_num) (by omega)
      linarith

/-- A number `m * 2 ^ e` with `m < 2 ^ 53` and `e ≥ -1074` is a double: rounding
returns it. -/
theorem roundMagnitude_of_representable (m : ℕ) (e : ℤ) (hm : m < 2 ^ 53)
    (he : -1074 ≤ e) : roundMagnitude ((m : ℝ) * 2 ^ e) = (m : ℝ) * 2 ^ e := by
  rcases Nat.eq_zero_or_pos m with h0 | hpos
  · rw [h0]; simp [roundMagnitude_zero]
  · have hpe := two_zpow_pos e
    have hmr : (0 : ℝ) < (m : ℝ) := by exact_mod_cast hpos
    have hv : (0 : ℝ) < (m : ℝ) * 2 ^ e := mul_pos hmr hpe
    have hlt : (m : ℝ) * 2 ^ e < ((2 : ℕ) : ℝ) ^ (e + 53) := by
      rw [Nat.cast_ofNat, zpow_add₀ (by norm_num : (2 : ℝ) ≠ 0)]
      have hm' : (m : ℝ) < 2 ^ (53 : ℤ) := by
        have h53 : (m : ℝ) < (2 : ℝ) ^ (53 : ℕ) := by exact_mod_cast hm
        have e53 : (2 : ℝ) ^ (53 : ℤ) = (2 : ℝ) ^ (53 : ℕ) := by norm_num
        rw [e53]; exact h53
      calc (m : ℝ) * 2 ^ e < 2 ^ (53 : ℤ) * 2 ^ e := mul_lt_mul_of_pos_right hm' hpe
        _ = 2 ^ e * 2 ^ (53 : ℤ) := mul_comm _ _
    have hlog : Int.log 2 ((m : ℝ) * 2 ^ e) < e + 53 :=
      (Int.lt_zpow_iff_log_lt (by norm_num) hv).mp hlt
    have hle : ulpExponent ((m : ℝ) * 2 ^ e) ≤ e := by
      unfold ulpExponent
      exact max_le he (by omega)
    obtain ⟨j, hj⟩ : ∃ j : ℕ, e = ulpExponent ((m : ℝ) * 2 ^ e) + j :=
      ⟨(e - ulpExponent ((m : ℝ) * 2 ^ e)).toNat, by omega⟩
    have hp' := two_zpow_pos (ulpExponent ((m : ℝ) * 2 ^ e))
    have hsplit : (2 : ℝ) ^ e = 2 ^ ulpExponent ((m : ℝ) * 2 ^ e) * 2 ^ j := by
      conv_lhs => rw [hj]
      rw [zpow_add₀ (by norm_num : (2 : ℝ) ≠ 0), zpow_natCast]
    have hquot : (m : ℝ) * 2 ^ e / 2 ^ ulpExponent ((m : ℝ) * 2 ^ e)
        = (((m * 2 ^ j : ℕ) : ℤ) : ℝ) := by
      rw [div_eq_iff hp'.ne']
      conv_lhs => rw [hsplit]
      push_cast
      ring
    unfold roundMagnitude
    rw [hquot, roundHalfEven_intCast]
    conv_rhs => rw [hsplit]
    push_cast
    ring

theorem roundMagnitude_idem (x : ℝ) (hx : 0 ≤ x) :
    roundMagnitude (roundMagnitude x) = roundMagnitude x := by
  have hp := two_zpow_pos (ulpExponent x)
  have hz : 0 ≤ x / 2 ^ ulpExponent x := div_nonneg hx hp.le
  have hn := roundHalfEven_nonneg _ hz
  have hexp : (-1074 : ℤ) ≤ ulpExponent x := le_max_left _ _
  -- the rounded significand is a natural number, at most `2 ^ 53`
  obtain ⟨m, hm⟩ : ∃ m : ℕ, roundHalfEven (x / 2 ^ ulpExponent x) = (m : ℤ) :=
    ⟨(roundHalfEven (x / 2 ^ ulpExponent x)).toNat, by omega⟩
  have hval : roundMagnitude x = (m : ℝ) * 2 ^ ulpExponent x := by
    unfold roundMagnitude
    rw [hm]; push_cast; rfl
  have htop := roundMagnitude_le_top x
  rw [hval, zpow_add₀ (by norm_num : (2 : ℝ) ≠ 0)] at htop
  have hmle : (m : ℝ) ≤ 2 ^ (53 : ℤ) := by
    have := le_of_mul_le_mul_right (by linarith : (m : ℝ) * 2 ^ ulpExponent x
      ≤ 2 ^ (53 : ℤ) * 2 ^ ulpExponent x) hp
    exact this
  have hmle' : m ≤ 2 ^ 53 := by
    have e53 : (2 : ℝ) ^ (53 : ℤ) = (2 : ℝ) ^ (53 : ℕ) := by norm_num
    rw [e53] at hmle
    exact_mod_cast hmle
  rw [hval]
  rcases Nat.lt_or_eq_of_le hmle' with hlt | heq
  · exact roundMagnitude_of_representable m _ hlt hexp
  · have hre : (m : ℝ) * 2 ^ ulpExponent x
        = ((2 ^ 52 : ℕ) : ℝ) * 2 ^ (ulpExponent x + 1) := by
      rw [heq, zpow_add₀ (by norm_num : (2 : ℝ) ≠ 0)]
      push_cast
      ring
    rw [hre]
    exact roundMagnitude_of_representable (2 ^ 52) _ (by norm_num) (by omega)

theorem roundDouble_of_nonneg (x : ℝ) (hx : 0 ≤ x) : roundDouble x = roundMagnitude x := by
  unfold roundDouble; rw [if_pos hx]

theorem roundDouble_of_neg (x : ℝ) (hx : x < 0) : roundDouble x = -roundMagnitude (-x) := by
  unfold roundDouble; rw [if_neg (not_le.mpr hx)]

theorem roundDouble_zero : roundDouble (0 : ℝ) = 0 := by
  rw [roundDouble_of_nonneg 0 le_rfl, roundMagnitude_zero]

theorem roundDouble_nonneg (x : ℝ) (hx : 0 ≤ x) :
    0 ≤ roundDouble x ∧ roundDouble x ≤ 2 * x := by
  rw [roundDouble_of_nonneg x hx]
  exact ⟨roundMagnitude_nonneg x hx, roundMagnitude_le_two_mul x hx⟩

theorem roundDouble_nonpos (x : ℝ) (hx : x ≤ 0) :
    2 * x ≤ roundDouble x ∧ roundDouble x ≤ 0 := by
  rcases eq_or_lt_of_le hx with h0 | hneg
  · rw [h0, roundDouble_zero]; simp
  · rw [roundDouble_of_neg x hneg]
    have h1 := roundMagnitude_nonneg (-x) (by linarith)
    have h2 := roundMagnitude_le_two_mul (-x) (by linarith)
    constructor <;> linarith

theorem roundDouble_mono (x y : ℝ) (h : x ≤ y) : roundDouble x ≤ roundDouble y := by
  rcases le_or_lt 0 x with hx | hx
  · rw [roundDouble_of_nonneg x hx, roundDouble_of_nonneg y (le_trans hx h)]
    exact roundMagnitude_mono x y hx h
  · rcases le_or_lt 0 y with hy | hy
    · exact le_trans (roundDouble_nonpos x hx.le).2 (roundDouble_nonneg y hy).1
    · rw [roundDouble_of_neg x hx, roundDouble_of_neg y hy]
      have := roundMagnitude_mono (-y) (-x) (by linarith) (by linarith)
      linarith

theorem roundDouble_idem (x : ℝ) : roundDouble (roundDouble x) = roundDouble x := by
  rcases le_or_lt 0 x with hx | hx
  · rw [roundDouble_of_nonneg x hx,
      roundDouble_of_nonneg _ (roundMagnitude_nonneg x hx), roundMagnitude_idem x hx]
  · rw [roundDouble_of_neg x hx]
    have hv := roundMagnitude_nonneg (-x) (by linarith)
    rcases eq_or_lt_of_le hv with h0 | hpos
    · rw [← h0]; simp [roundDouble_zero]
    · rw [roundDouble_of_neg _ (by linarith), neg_neg, roundMagnitude_idem (-x) (by linarith)]

theorem isDouble_roundDouble (x : ℝ) : IsDouble (roundDouble x) := roundDouble_idem x

theorem isDouble_of_representable (m : ℕ) (e : ℤ) (hm : m < 2 ^ 53) (he : -1074 ≤ e) :
    IsDouble ((m : ℝ) * 2 ^ e) := by
  unfold IsDouble
  rw [roundDouble_of_nonneg _ (mul_nonneg (Nat.cast_nonneg m) (two_zpow_pos e).le)]
  exact roundMagnitude_of_representable m e hm he

theorem roundDouble_tenth_bounds :
    0 ≤ roundDouble (0.1 : ℝ) ∧ roundDouble (0.1 : ℝ) ≤ 0.2 := by
  have h := roundDouble_nonneg (0.1 : ℝ) (by norm_num)
  exact ⟨h.1, by linarith [h.2]⟩

theorem smoothDouble_between_up (e t : ℝ) (he : IsDouble e) (ht : IsDouble t) (h : e ≤ t) :
    e ≤ smoothDouble e t ∧ smoothDouble e t ≤ t := by
  have hc := roundDouble_tenth_bounds
  have hd1 := roundDouble_nonneg (t - e) (by linarith)
  have hprod : 0 ≤ roundDouble (t - e) * roundDouble (0.1 : ℝ) := mul_nonneg hd1.1 hc.1
  have hd2 := roundDouble_nonneg _ hprod
  have hprod_le : roundDouble (t - e) * roundDouble (0.1 : ℝ) ≤ 2 * (t - e) * 0.2 :=
    mul_le_mul hd1.2 hc.2 hc.1 (by linarith)
  unfold smoothDouble smoothWith
  constructor
  · have := roundDouble_mono e (e + roundDouble (roundDouble (t - e) * roundDouble 0.1))
      (by linarith [hd2.1])
    rwa [he] at this
  · have := roundDouble_mono (e + roundDouble (roundDouble (t - e) * roundDouble 0.1)) t
      (by linarith [hd2.2])
    rwa [ht] at this

theorem smoothDouble_between_down (e t : ℝ) (he : IsDouble e) (ht : IsDouble t) (h : t ≤ e) :
    t ≤ smoothDouble e t ∧ smoothDouble e t ≤ e := by
  have hc := roundDouble_tenth_bounds
  have hd1 := roundDouble_nonpos (t - e) (by linarith)
  have hprod : roundDouble (t - e) * roundDouble (0.1 : ℝ) ≤ 0 :=
    mul_nonpos_of_nonpos_of_nonneg hd1.2 hc.1
  have hd2 := roundDouble_nonpos _ hprod
  have hprod_ge : 2 * (t - e) * 0.2 ≤ roundDouble (t - e) * roundDouble (0.1 : ℝ) := by
    have h1 : roundDouble (t - e) * 0.2 ≤ roundDouble (t - e) * roundDouble (0.1 : ℝ) :=
      mul_le_mul_of_nonpos_left hc.2 hd1.2
    have h2 : 2 * (t - e) * 0.2 ≤ roundDouble (t - e) * 0.2 := by nlinarith [hd1.1]
    linarith
  unfold smoothDouble smoothWith
  constructor
  · have := roundDouble_mono t (e + roundDouble (roundDouble (t - e) * roundDouble 0.1))
      (by linarith [hd2.1])
    rwa [ht] at this
  · have := roundDouble_mono (e + roundDouble (roundDouble (t - e) * roundDouble 0.1)) e
      (by linarith [hd2.2])
    rwa [he] at this

theorem isDouble_smoothDouble (e t : ℝ) : IsDouble (smoothDouble e t) :=
  roundDouble_idem _

theorem isDouble_runSmoothDouble (t e0 : ℝ) (he : IsDouble e0) (n : ℕ) :
    IsDouble (runSmoothDouble t n e0) := by
  cases n with
  | zero => exact he
  | succ n => exact isDouble_smoothDouble _ _

theorem runSmoothDouble_up (t e0 : ℝ) (he : IsDouble e0) (ht : IsDouble t) (h : e0 ≤ t)
    (n : ℕ) :
    e0 ≤ runSmoothDouble t n e0 ∧ runSmoothDouble t n e0 ≤ runSmoothDouble t (n + 1) e0
      ∧ runSmoothDouble t (n + 1) e0 ≤ t := by
  induction n with
  | zero =>
    have := smoothDouble_between_up e0 t he ht h
    exact ⟨le_rfl, this.1, this.2⟩
  | succ n ih =>
    have hd := isDouble_runSmoothDouble t e0 he (n + 1)
    have := smoothDouble_between_up (runSmoothDouble t (n + 1) e0) t hd ht ih.2.2
    exact ⟨le_trans ih.1 ih.2.1, this.1, this.2⟩

theorem runSmoothDouble_down (t e0 : ℝ) (he : IsDouble e0) (ht : IsDouble t) (h : t ≤ e0)
    (n : ℕ) :
    runSmoothDouble t n e0 ≤ e0 ∧ runSmoothDouble t (n + 1) e0 ≤ runSmoothDouble t n e0
      ∧ t ≤ runSmoothDouble t (n + 1) e0 := by
  induction n with
  | zero =>
    have := smoothDouble_between_down e0 t he ht h
    exact ⟨le_rfl, this.2, this.1⟩
  | succ n ih =>
    have hd := isDouble_runSmoothDouble t e0 he (n + 1)
    have := smoothDouble_between_down (runSmoothDouble t (n + 1) e0) t hd ht ih.2.2
    exact ⟨le_trans ih.2.1 ih.1, this.2, this.1⟩

theorem runSmoothDouble_dist (t e0 : ℝ) (he : IsDouble e0) (ht : IsDouble t) (n : ℕ) :
    |runSmoothDouble t (n + 1) e0 - t| ≤ |runSmoothDouble t n e0 - t| := by
  rcases le_total e0 t with h | h
  · have := runSmoothDouble_up t e0 he ht h n
    have hn : runSmoothDouble t n e0 ≤ t := le_trans this.2.1 this.2.2
    rw [abs_of_nonpos (by linarith), abs_of_nonpos (by linarith)]
    linarith
  · have := runSmoothDouble_down t e0 he ht h n
    have hn : t ≤ runSmoothDouble t n e0 := le_trans this.2.2 this.2.1
    rw [abs_of_nonneg (by linarith), abs_of_nonneg (by linarith)]
    linarith

theorem log_two_eq (x : ℝ) (k : ℤ) (hx : 0 < x) (h1 : (2 : ℝ) ^ k ≤ x)
    (h2 : x < (2 : ℝ) ^ (k + 1)) : Int.log 2 x = k := by
  have a : k ≤ Int.log 2 x :=
    (Int.zpow_le_iff_le_log (by norm_num) hx).mp (by rw [Nat.cast_ofNat]; exact h1)
  have b : Int.log 2 x < k + 1 :=
    (Int.lt_zpow_iff_log_lt (by norm_num) hx).mp (by rw [Nat.cast_ofNat]; exact h2)
  omega

/-- Evaluation of the rounding of a positive number `x` of binary exponent `k` whose
scaled value is within `1/2` of the integer `m`. -/
theorem roundMagnitude_eq_of_near (x : ℝ) (k m : ℤ) (hx : 0 < x) (h1 : (2 : ℝ) ^ k ≤ x)
    (h2 : x < (2 : ℝ) ^ (k + 1)) (hk : -1074 ≤ k - 52)
    (hm1 : (m : ℝ) - 1 / 2 < x / 2 ^ (k - 52)) (hm2 : x / 2 ^ (k - 52) < (m : ℝ) + 1 / 2) :
    roundMagnitude x = (m : ℝ) * 2 ^ (k - 52) := by
  have he : ulpExponent x = k - 52 := by
    unfold ulpExponent
    rw [log_two_eq x k hx h1 h2]
    exact max_eq_right hk
  unfold roundMagnitude
  rw [he, roundHalfEven_eq_of_near _ m hm1 hm2]

theorem roundDouble_tenth :
    roundDouble (0.1 : ℝ) = 7205759403792794 * 2 ^ (-56 : ℤ) := by
  rw [roundDouble_of_nonneg _ (by norm_num)]
  have := roundMagnitude_eq_of_near (0.1 : ℝ) (-4) 7205759403792794 (by norm_num)
    (by norm_num) (by norm_num) (by norm_num) (by norm_num) (by norm_num)
  simpa using this

/-- The double just below the point where smoothing toward 1 stops: `1 - 2 ^ (-51)`,
printed `0.9999999999999996`. -/
theorem smoothDouble_frozen :
    smoothDouble ((1 : ℝ) - 2 ^ (-51 : ℤ)) 1 = (1 : ℝ) - 2 ^ (-51 : ℤ) := by
  have hd1 : roundDouble ((1 : ℝ) - ((1 : ℝ) - 2 ^ (-51 : ℤ))) = 2 ^ (-51 : ℤ) := by
    have h := isDouble_of_representable 1 (-51) (by norm_num) (by norm_num)
    unfold IsDouble at h
    simp only [Nat.cast_one, one_mul] at h
    rw [show (1 : ℝ) - ((1 : ℝ) - 2 ^ (-51 : ℤ)) = 2 ^ (-51 : ℤ) by ring]
    exact h
  have hd2 : roundDouble ((2 : ℝ) ^ (-51 : ℤ) * (7205759403792794 * 2 ^ (-56 : ℤ)))
      = 7205759403792794 * 2 ^ (-107 : ℤ) := by
    have h := isDouble_of_representable 7205759403792794 (-107) (by norm_num) (by norm_num)
    unfold IsDouble at h
    rw [show (2 : ℝ) ^ (-51 : ℤ) * (7205759403792794 * 2 ^ (-56 : ℤ))
      = ((7205759403792794 : ℕ) : ℝ) * 2 ^ (-107 : ℤ) by norm_num]
    rw [h]; norm_num
  have hsum : roundDouble ((1 : ℝ) - 2 ^ (-51 : ℤ) + 7205759403792794 * 2 ^ (-107 : ℤ))
      = (1 : ℝ) - 2 ^ (-51 : ℤ) := by
    rw [roundDouble_of_nonneg _ (by norm_num)]
    have := roundMagnitude_eq_of_near
      ((1 : ℝ) - 2 ^ (-51 : ℤ) + 7205759403792794 * 2 ^ (-107 : ℤ)) (-1) 9007199254740988
      (by norm_num) (by norm_num) (by norm_num) (by norm_num) (by norm_num) (by norm_num)
    rw [this]; norm_num
  unfold smoothDouble smoothWith
  rw [hd1, roundDouble_tenth, hd2, hsum]

end DoubleRounding


/-! ## Smoothing over many frames -/

section LongRuns

theorem update_expansion_smoothWith (sin : ℝ → ℝ) (PI : ℝ) (rand : ℕ → ℝ) (now : ℝ)
    (s : ParticleSystem ℝ) (g : ℝ) (pos : Option (Vec2 ℝ)) (rot : Option ℝ) :
    (update sin PI rand now s g pos rot).expansionFactor
      = smoothWith id s.expansionFactor g := rfl

theorem smoothWith_id (e t : ℝ) : smoothWith id e t = e + (t - e) * 0.1 := rfl

theorem isDouble_zero : IsDouble (0 : ℝ) := roundDouble_zero

theorem isDouble_one : IsDouble (1 : ℝ) := by
  have h := isDouble_of_representable 1 0 (by norm_num) (by norm_num)
  simpa using h

theorem isDouble_frozen : IsDouble ((1 : ℝ) - 2 ^ (-51 : ℤ)) := by
  have h := isDouble_of_representable 2251799813685247 (-51) (by norm_num) (by norm_num)
  have e : ((2251799813685247 : ℕ) : ℝ) * 2 ^ (-51 : ℤ) = (1 : ℝ) - 2 ^ (-51 : ℤ) := by
    norm_num
  rwa [e] at h

theorem runSmoothDouble_frozen (n : ℕ) :
    runSmoothDouble (1 : ℝ) n ((1 : ℝ) - 2 ^ (-51 : ℤ)) = (1 : ℝ) - 2 ^ (-51 : ℤ) := by
  induction n with
  | zero => rfl
  | succ n ih =>
    show smoothDouble (runSmoothDouble (1 : ℝ) n ((1 : ℝ) - 2 ^ (-51 : ℤ))) 1 = _
    rw [ih, smoothDouble_frozen]

theorem smoothDouble_first_tick : smoothDouble (0 : ℝ) 1 = roundDouble (0.1 : ℝ) := by
  unfold smoothDouble smoothWith
  have h1 : roundDouble ((1 : ℝ) - 0) = 1 := by
    rw [sub_zero]; exact isDouble_one
  rw [h1, one_mul, zero_add, roundDouble_idem, roundDouble_idem]

/-- C2, as stated, fails in the double arithmetic the code runs on: the expansion
`1 - 2 ^ (-51)` (printed `0.9999999999999996`), a double in `[0, 1]` different from the
target 1, is left unchanged by an update toward 1, and by every later one, so its
distance to the target is not strictly smaller after the update. -/
theorem C2_expansion_freezes_below_target :
    IsDouble ((1 : ℝ) - 2 ^ (-51 : ℤ)) ∧ IsDouble (1 : ℝ)
    ∧ (1 : ℝ) - 2 ^ (-51 : ℤ) ≠ 1
    ∧ (0 : ℝ) ≤ 1 - 2 ^ (-51 : ℤ) ∧ (1 : ℝ) - 2 ^ (-51 : ℤ) ≤ 1
    ∧ smoothDouble ((1 : ℝ) - 2 ^ (-51 : ℤ)) 1 = (1 : ℝ) - 2 ^ (-51 : ℤ)
    ∧ ¬ |smoothDouble ((1 : ℝ) - 2 ^ (-51 : ℤ)) 1 - 1| < |((1 : ℝ) - 2 ^ (-51 : ℤ)) - 1|
    ∧ (∀ n : ℕ, runSmoothDouble (1 : ℝ) n ((1 : ℝ) - 2 ^ (-51 : ℤ))
        = (1 : ℝ) - 2 ^ (-51 : ℤ)) := by
  refine ⟨isDouble_frozen, isDouble_one, by norm_num, by norm_num, by norm_num,
    smoothDouble_frozen, ?_, runSmoothDouble_frozen⟩
  rw [smoothDouble_frozen]
  exact lt_irrefl _

/-- C2, amended: one update computes `e + (t - e) * 0.1`, which in exact arithmetic
multiplies `e - t` by `0.9`.  In the double arithmetic of the code, with a constant
target `t`, the expansion never overshoots: after every update it lies between its
previous value and `t`, so the distance `|e - t|` is never larger than before and `e`
never crosses `t`.  The decrease is strict on the first tick from 0 toward 1 but not on
every tick: at `1 - 2 ^ (-51)` the expansion stops moving. -/
theorem C2_smoothing_never_overshoots (sin : ℝ → ℝ) (PI : ℝ) (rand : ℕ → ℝ) (now : ℝ)
    (s : ParticleSystem ℝ) (pos : Option (Vec2 ℝ)) (rot : Option ℝ) (e0 t : ℝ) (n : ℕ)
    (he : IsDouble e0) (ht : IsDouble t) :
    (update sin PI rand now s t pos rot).expansionFactor = smoothWith id s.expansionFactor t
    ∧ smoothWith id e0 t = e0 + (t - e0) * 0.1
    ∧ smoothWith id e0 t - t = 0.9 * (e0 - t)
    ∧ smoothDouble e0 t = smoothWith roundDouble e0 t
    ∧ runSmoothDouble t (n + 1) e0 = smoothDouble (runSmoothDouble t n e0) t
    ∧ IsDouble (runSmoothDouble t (n + 1) e0)
    ∧ |runSmoothDouble t (n + 1) e0 - t| ≤ |runSmoothDouble t n e0 - t|
    ∧ (e0 ≤ t → e0 ≤ runSmoothDouble t n e0
        ∧ runSmoothDouble t n e0 ≤ runSmoothDouble t (n + 1) e0
        ∧ runSmoothDouble t (n + 1) e0 ≤ t)
    ∧ (t ≤ e0 → runSmoothDouble t n e0 ≤ e0
        ∧ runSmoothDouble t (n + 1) e0 ≤ runSmoothDouble t n e0
        ∧ t ≤ runSmoothDouble t (n + 1) e0)
    ∧ smoothDouble (0 : ℝ) 1 = roundDouble (0.1 : ℝ)
    ∧ |smoothDouble (0 : ℝ) 1 - 1| < |(0 : ℝ) - 1|
    ∧ smoothDouble ((1 : ℝ) - 2 ^ (-51 : ℤ)) 1 = (1 : ℝ) - 2 ^ (-51 : ℤ) := by
  refine ⟨rfl, rfl, ?_, rfl, rfl, isDouble_runSmoothDouble t e0 he (n + 1),
    runSmoothDouble_dist t e0 he ht n, fun h => runSmoothDouble_up t e0 he ht h n,
    fun h => runSmoothDouble_down t e0 he ht h n, smoothDouble_first_tick, ?_,
    smoothDouble_frozen⟩
  · rw [smoothWith_id]; ring
  · rw [smoothDouble_first_tick, roundDouble_tenth]
    norm_num [abs_lt]

/-- Witness of the amended C2: from expansion 0 toward the target 1. -/
theorem C2_smoothing_never_overshoots_witness :
    IsDouble (0 : ℝ) ∧ IsDouble (1 : ℝ)
    ∧ |runSmoothDouble (1 : ℝ) (3 + 1) 0 - 1| ≤ |runSmoothDouble (1 : ℝ) 3 0 - 1|
    ∧ ((0 : ℝ) ≤ 1 → (0 : ℝ) ≤ runSmoothDouble (1 : ℝ) 3 0
        ∧ runSmoothDouble (1 : ℝ) 3 0 ≤ runSmoothDouble (1 : ℝ) (3 + 1) 0
        ∧ runSmoothDouble (1 : ℝ) (3 + 1) 0 ≤ 1) :=
  ⟨isDouble_zero, isDouble_one,
    (C2_smoothing_never_overshoots Real.sin Real.pi sampleRand 0 sampleSystem none none 0 1 3
      isDouble_zero isDouble_one).2.2.2.2.2.2.1,
    (C2_smoothing_never_overshoots Real.sin Real.pi sampleRand 0 sampleSystem none none 0 1 3
      isDouble_zero isDouble_one).2.2.2.2.2.2.2.1⟩

theorem scaled_offset_facts (c d v w : ℝ) (hc0 : 0 ≤ c) (hv : v = c * d)
    (hw : w = 0.9 * v) : |w| ≤ |v| ∧ (d ≤ 0 → v ≤ 0) ∧ (0 ≤ d → 0 ≤ v) := by
  subst hv hw
  refine ⟨?_, fun hd => mul_nonpos_of_nonneg_of_nonpos hc0 hd, fun hd => mul_nonneg hc0 hd⟩
  rw [abs_mul, abs_of_pos (by norm_num : (0 : ℝ) < 0.9)]
  have := abs_nonneg (c * d)
  linarith

theorem targetRotDouble_centre (PI : ℝ) : targetRotDouble PI 0.5 = 0 := by
  unfold targetRotDouble
  rw [sub_self, roundDouble_zero, zero_mul, roundDouble_zero, zero_mul, roundDouble_zero]

/-- C17: with a hand position `(px, py)` supplied, yaw (`rotation.y`) becomes
`yaw + ((px - 0.5) * 4π - yaw) * 0.1` and pitch (`rotation.x`) becomes
`pitch + ((py - 0.5) * 4π - pitch) * 0.1`, the smoothing statement of the expansion with
the same coefficient `0.1`.  Under a repeated position yaw and pitch approach their
targets without overshoot, in exact arithmetic and in the double arithmetic of the code:
after every update the value lies between its previous value and the target, so its
distance to the target is never larger than before and it never crosses the target.  For
the position `(0.5, 0.5)` both targets are 0. -/
theorem C17_yaw_pitch_track_position (rand : ℕ → ℝ) (now : ℝ) (s : ParticleSystem ℝ)
    (g : ℝ) (hp : Vec2 ℝ) (rot : Option ℝ) (ticks : List (Tick ℝ)) (tk : Tick ℝ)
    (PI64 p a0 : ℝ) (n : ℕ)
    (hticks : ∀ x ∈ ticks, x.handPosition = some hp) (htk : tk.handPosition = some hp)
    (ha0 : IsDouble a0) :
    (update Real.sin Real.pi rand now s g (some hp) rot).rotation.y
        = s.rotation.y + ((hp.x - 0.5) * (4 * Real.pi) - s.rotation.y) * 0.1
    ∧ (update Real.sin Real.pi rand now s g (some hp) rot).rotation.x
        = s.rotation.x + ((hp.y - 0.5) * (4 * Real.pi) - s.rotation.x) * 0.1
    ∧ (update Real.sin Real.pi rand now s g (some hp) rot).rotation.y
        = smoothWith id s.rotation.y ((hp.x - 0.5) * Real.pi * 4)
    ∧ (update Real.sin Real.pi rand now s g (some hp) rot).rotation.x
        = smoothWith id s.rotation.x ((hp.y - 0.5) * Real.pi * 4)
    ∧ |(runUpdates Real.sin Real.pi s (ticks ++ [tk])).rotation.y
          - (hp.x - 0.5) * (4 * Real.pi)|
        ≤ |(runUpdates Real.sin Real.pi s ticks).rotation.y - (hp.x - 0.5) * (4 * Real.pi)|
    ∧ |(runUpdates Real.sin Real.pi s (ticks ++ [tk])).rotation.x
          - (hp.y - 0.5) * (4 * Real.pi)|
        ≤ |(runUpdates Real.sin Real.pi s ticks).rotation.x - (hp.y - 0.5) * (4 * Real.pi)|
    ∧ (s.rotation.y ≤ (hp.x - 0.5) * (4 * Real.pi) →
        (runUpdates Real.sin Real.pi s ticks).rotation.y ≤ (hp.x - 0.5) * (4 * Real.pi))
    ∧ ((hp.x - 0.5) * (4 * Real.pi) ≤ s.rotation.y →
        (hp.x - 0.5) * (4 * Real.pi) ≤ (runUpdates Real.sin Real.pi s ticks).rotation.y)
    ∧ (s.rotation.x ≤ (hp.y - 0.5) * (4 * Real.pi) →
        (runUpdates Real.sin Real.pi s ticks).rotation.x ≤ (hp.y - 0.5) * (4 * Real.pi))
    ∧ ((hp.y - 0.5) * (4 * Real.pi) ≤ s.rotation.x →
        (hp.y - 0.5) * (4 * Real.pi) ≤ (runUpdates Real.sin Real.pi s ticks).rotation.x)
    ∧ IsDouble (targetRotDouble PI64 p)
    ∧ IsDouble (runSmoothDouble (targetRotDouble PI64 p) (n + 1) a0)
    ∧ |runSmoothDouble (targetRotDouble PI64 p) (n + 1) a0 - targetRotDouble PI64 p|
        ≤ |runSmoothDouble (targetRotDouble PI64 p) n a0 - targetRotDouble PI64 p|
    ∧ (a0 ≤ targetRotDouble PI64 p →
        a0 ≤ runSmoothDouble (targetRotDouble PI64 p) n a0
        ∧ runSmoothDouble (targetRotDouble PI64 p) n a0
            ≤ runSmoothDouble (targetRotDouble PI64 p) (n + 1) a0
        ∧ runSmoothDouble (targetRotDouble PI64 p) (n + 1) a0 ≤ targetRotDouble PI64 p)
    ∧ (targetRotDouble PI64 p ≤ a0 →
        runSmoothDouble (targetRotDouble PI64 p) n a0 ≤ a0
        ∧ runSmoothDouble (targetRotDouble PI64 p) (n + 1) a0
            ≤ runSmoothDouble (targetRotDouble PI64 p) n a0
        ∧ targetRotDouble PI64 p ≤ runSmoothDouble (targetRotDouble PI64 p) (n + 1) a0)
    ∧ (update Real.sin Real.pi rand now s g (some { x := 0.5, y := 0.5 }) rot).rotation.y
        = s.rotation.y + (0 - s.rotation.y) * 0.1
    ∧ (update Real.sin Real.pi rand now s g (some { x := 0.5, y := 0.5 }) rot).rotation.x
        = s.rotation.x + (0 - s.rotation.x) * 0.1
    ∧ targetRotDouble PI64 0.5 = 0 := by
  have hstep := update_rotation_hand Real.sin Real.pi rand now s g hp rot
  have hcentre := update_rotation_hand Real.sin Real.pi rand now s g { x := 0.5, y := 0.5 } rot
  have hy := runUpdates_yaw Real.sin Real.pi hp ticks s hticks
  have hx := runUpdates_pitch Real.sin Real.pi hp ticks s hticks
  have hy1 : (runUpdates Real.sin Real.pi s (ticks ++ [tk])).rotation.y
      - (hp.x - 0.5) * (4 * Real.pi)
      = 0.9 * ((runUpdates Real.sin Real.pi s ticks).rotation.y
        - (hp.x - 0.5) * (4 * Real.pi)) := by
    rw [runUpdates_append, htk, (update_rotation_hand Real.sin Real.pi tk.rand tk.now _
      tk.gestureValue hp tk.handRotation).1]
    ring
  have hx1 : (runUpdates Real.sin Real.pi s (ticks ++ [tk])).rotation.x
      - (hp.y - 0.5) * (4 * Real.pi)
      = 0.9 * ((runUpdates Real.sin Real.pi s ticks).rotation.x
        - (hp.y - 0.5) * (4 * Real.pi)) := by
    rw [runUpdates_append, htk, (update_rotation_hand Real.sin Real.pi tk.rand tk.now _
      tk.gestureValue hp tk.handRotation).2]
    ring
  have hy2 : (runUpdates Real.sin Real.pi s ticks).rotation.y - (hp.x - 0.5) * (4 * Real.pi)
      = 0.9 ^ ticks.length * (s.rotation.y - (hp.x - 0.5) * (4 * Real.pi)) := by
    linear_combination hy
  have hx2 : (runUpdates Real.sin Real.pi s ticks).rotation.x - (hp.y - 0.5) * (4 * Real.pi)
      = 0.9 ^ ticks.length * (s.rotation.x - (hp.y - 0.5) * (4 * Real.pi)) := by
    linear_combination hx
  have hp0 : (0 : ℝ) ≤ 0.9 ^ ticks.length := by positivity
  have fy := scaled_offset_facts _ _ _ _ hp0 hy2 hy1
  have fx := scaled_offset_facts _ _ _ _ hp0 hx2 hx1
  have hT := isDouble_roundDouble (roundDouble (roundDouble (p - 0.5) * PI64) * 4)
  refine ⟨by rw [hstep.1]; ring, by rw [hstep.2]; ring, hstep.1, hstep.2, fy.1, fx.1,
    fun h => ?_, fun h => ?_, fun h => ?_, fun h => ?_, hT,
    isDouble_runSmoothDouble _ a0 ha0 (n + 1), runSmoothDouble_dist _ a0 ha0 hT n,
    fun h => runSmoothDouble_up _ a0 ha0 hT h n,
    fun h => runSmoothDouble_down _ a0 ha0 hT h n, ?_, ?_, targetRotDouble_centre PI64⟩
  · linarith [fy.2.1 (by linarith)]
  · linarith [fy.2.2 (by linarith)]
  · linarith [fx.2.1 (by linarith)]
  · linarith [fx.2.2 (by linarith)]
  · rw [hcentre.1]; simp only; ring
  · rw [hcentre.2]; simp only; ring

/-- Witness of C17: from rest toward the corner `(1, 1)`, whose targets are `2π`. -/
theorem C17_yaw_pitch_track_position_witness :
    (∀ x ∈ [(cornerTick : Tick ℝ)], x.handPosition = some { x := 1, y := 1 })
    ∧ (cornerTick : Tick ℝ).handPosition = some { x := 1, y := 1 }
    ∧ IsDouble (0 : ℝ)
    ∧ (update Real.sin Real.pi sampleRand 0 (sampleSystem : ParticleSystem ℝ) 1
        (some { x := 1, y := 1 }) none).rotation.y
        = (sampleSystem : ParticleSystem ℝ).rotation.y
          + (((1 : ℝ) - 0.5) * (4 * Real.pi) - (sampleSystem : ParticleSystem ℝ).rotation.y)
            * 0.1
    ∧ |runSmoothDouble (targetRotDouble (doublePi : ℝ) 1) (5 + 1) 0
          - targetRotDouble (doublePi : ℝ) 1|
        ≤ |runSmoothDouble (targetRotDouble (doublePi : ℝ) 1) 5 0
          - targetRotDouble (doublePi : ℝ) 1| :=
  ⟨by simp [cornerTick], rfl, isDouble_zero,
    (C17_yaw_pitch_track_position sampleRand 0 sampleSystem 1 { x := 1, y := 1 } none
      [cornerTick] cornerTick doublePi 1 0 5 (by simp [cornerTick]) rfl isDouble_zero).1,
    (C17_yaw_pitch_track_position sampleRand 0 sampleSystem 1 { x := 1, y := 1 } none
      [cornerTick] cornerTick doublePi 1 0 5 (by simp [cornerTick]) rfl
      isDouble_zero).2.2.2.2.2.2.2.2.2.2.2.2.1⟩

end LongRuns

end Partikel
